import Mathlib

/-!
# Verification of the in-place initializable array (`inplace.hpp`)

Shallow embedding of the data structures in `src/inplace.hpp`:

* `StdVectorWrapper`  — the baseline array,
* `VerifiableBase`    — the shadow verifier (epoch-stamped),
* `InPlaceArraySec3`  — Section-3 array (block size 2),
* `InPlaceArraySec4`  — Section-4 array (block size 4, last-block metadata stash).

Cell storage (`std::vector<long long>`) is modelled as a total function
`Nat → Int`; a cell write is a point update (`upd`).  `std::size_t` values
are `Nat`, `long long` values are `Int` and the `uint32_t` shadow epoch is a
`Nat` reduced modulo `2^32` exactly where the C++ increment overflows.
`chainedTo_block`'s `-1` sentinel is rendered as `Option Nat` (`none` for
`-1`).  Exceptions are rendered with `Except Err`.
-/

set_option maxHeartbeats 1600000

namespace InPlaceBench

/-- Point update of a cell function: `A[i] = v`. -/
def upd (A : Nat → Int) (i : Nat) (v : Int) : Nat → Int :=
  fun j => if j = i then v else A j

/-- Point update of a `Nat`-valued table (the shadow stamp vector). -/
def updN (f : Nat → Nat) (i : Nat) (v : Nat) : Nat → Nat :=
  fun j => if j = i then v else f j

/-- `struct Counters`. -/
structure Counters where
  reads : Nat := 0
  writes : Nat := 0
  inits : Nat := 0
  relocations : Nat := 0
  conversions : Nat := 0
  deriving Repr, DecidableEq

/-- The error kinds of the failure-semantics contract.  `std::invalid_argument`
from the constructors is `invalidSize`, `std::out_of_range` is
`indexOutOfRange`. -/
inductive Err where
  | invalidSize
  | indexOutOfRange
  deriving Repr, DecidableEq

/-- `2^32`, the modulus of the `uint32_t` shadow epoch. -/
def epochMod : Nat := 4294967296

/-- The shadow-verifier fields of `class VerifiableBase` (the size `N` is kept
in the enclosing array structure). -/
structure VerifiableBase where
  verifying : Bool := false
  shadow : Nat → Int := fun _ => 0
  stamp : Nat → Nat := fun _ => 0
  shadow_initv : Int := 0
  shadow_epoch : Nat := 0

/-- `VerifiableBase::enable_verification`. -/
def enable_verification (vb : VerifiableBase) : VerifiableBase :=
  { vb with verifying := true, shadow := fun _ => 0, stamp := fun _ => 0,
            shadow_initv := 0, shadow_epoch := 1 }

/-- `VerifiableBase::shadow_on_init`: records the new fill value and bumps the
`uint32_t` epoch; on wraparound the stamp table is cleared and the epoch
restarts at 1. -/
def shadow_on_init (vb : VerifiableBase) (v : Int) : VerifiableBase :=
  if vb.verifying = false then vb
  else
    let e := (vb.shadow_epoch + 1) % epochMod
    if e = 0 then
      { vb with shadow_initv := v, stamp := fun _ => 0, shadow_epoch := 1 }
    else
      { vb with shadow_initv := v, shadow_epoch := e }

/-- `VerifiableBase::shadow_on_write`. -/
def shadow_on_write (vb : VerifiableBase) (i : Nat) (v : Int) : VerifiableBase :=
  if vb.verifying = false then vb
  else { vb with shadow := upd vb.shadow i v, stamp := updN vb.stamp i vb.shadow_epoch }

/-- The expected value that `VerifiableBase::shadow_check_against` computes for
index `i`. -/
def shadow_expected (vb : VerifiableBase) (i : Nat) : Int :=
  if vb.stamp i = vb.shadow_epoch then vb.shadow i else vb.shadow_initv

/-- `VerifiableBase::shadow_check_against`: all indices below `N` must match. -/
def shadow_check_against (vb : VerifiableBase) (N : Nat) (read_actual : Nat → Int) : Bool :=
  if vb.verifying = false then true
  else (List.range N).all fun i => decide (shadow_expected vb i = read_actual i)

/-- An operation mirrored into the shadow verifier. -/
inductive ShOp where
  | init (v : Int)
  | write (i : Nat) (v : Int)

/-- Apply one mirrored operation to the shadow state. -/
def shadowStep (vb : VerifiableBase) : ShOp → VerifiableBase
  | .init v => shadow_on_init vb v
  | .write i v => shadow_on_write vb i v

/-- Run a sequence of mirrored operations on the shadow state. -/
def runShadow (vb : VerifiableBase) : List ShOp → VerifiableBase
  | [] => vb
  | op :: rest => runShadow (shadowStep vb op) rest

/-- The reference semantics of the expected value: the last value written to
`i` since the most recent `init`, or the most recent `init` value if none, or
`0` if there was no `init` at all. -/
def specExpected (ops : List ShOp) (i : Nat) : Int :=
  ops.foldl
    (fun acc op =>
      match op with
      | .init v => v
      | .write j w => if j = i then w else acc)
    0

/-! ## `class StdVectorWrapper` -/

structure StdVectorWrapper where
  N : Nat
  data : Nat → Int
  ctr : Counters
  verifying : Bool
  initv_shadow : Int
  epoch : Nat

namespace StdVectorWrapper

/-- The constructor `StdVectorWrapper(n)`: no size validation, `n` zero cells. -/
def make (n : Nat) : Except Err StdVectorWrapper :=
  .ok { N := n, data := fun _ => 0, ctr := {}, verifying := false,
        initv_shadow := 0, epoch := 0 }

/-- `StdVectorWrapper::init`: `std::fill` over the `N` cells. -/
def init (s : StdVectorWrapper) (v : Int) : StdVectorWrapper :=
  { s with ctr := { s.ctr with inits := s.ctr.inits + 1 },
           data := fun i => if i < s.N then v else s.data i,
           initv_shadow := v, epoch := s.epoch + 1 }

/-- `StdVectorWrapper::read`, with the counter bump preceding the bounds
check as in the source. -/
def read (s : StdVectorWrapper) (i : Nat) : StdVectorWrapper × Except Err Int :=
  let s1 := { s with ctr := { s.ctr with reads := s.ctr.reads + 1 } }
  if s.N ≤ i then (s1, .error .indexOutOfRange) else (s1, .ok (s1.data i))

/-- `StdVectorWrapper::write`. -/
def write (s : StdVectorWrapper) (i : Nat) (v : Int) : StdVectorWrapper × Except Err Unit :=
  let s1 := { s with ctr := { s.ctr with writes := s.ctr.writes + 1 } }
  if s.N ≤ i then (s1, .error .indexOutOfRange)
  else ({ s1 with data := upd s1.data i v }, .ok ())

end StdVectorWrapper

/-- The cross-side test shared by both chain detectors:
`(bi<b && k>=b) || (k<b && bi>=b)`. -/
def cross (b bi k : Nat) : Prop := (bi < b ∧ b ≤ k) ∨ (k < b ∧ b ≤ bi)

instance (b bi k : Nat) : Decidable (cross b bi k) := by
  unfold cross; infer_instance

/-! ## `class InPlaceArraySec3` (block size 2) -/

structure InPlaceArraySec3 where
  N : Nat
  vb : VerifiableBase
  N_blocks : Nat
  A : Nat → Int
  b : Nat
  initv : Int
  ctr : Counters

namespace InPlaceArraySec3

/-- `block_of(i) = i >> 1`. -/
def block_of (i : Nat) : Nat := i / 2

/-- `first_of(blk) = blk << 1`. -/
def first_of (blk : Nat) : Nat := 2 * blk

/-- The constructor: requires `n > 0` and `n` even, zero storage. -/
def make (n : Nat) : Except Err InPlaceArraySec3 :=
  if n = 0 then .error .invalidSize
  else if n % 2 ≠ 0 then .error .invalidSize
  else .ok { N := n, vb := {}, N_blocks := n / 2, A := fun _ => 0, b := 0,
             initv := 0, ctr := {} }

/-- `InPlaceArraySec3::chainedTo_block`; `none` renders the `-1` result. -/
def chainedTo_block (s : InPlaceArraySec3) (bi : Nat) : Option Nat :=
  let k0 := s.A (first_of bi)
  if k0 % 2 ≠ 0 then none
  else if k0 < 0 then none
  else if (s.N : Int) ≤ k0 then none
  else
    let k := k0.toNat / 2
    if cross s.b bi k then
      if s.A k0.toNat = (first_of bi : Int) then some k else none
    else none

/-- `InPlaceArraySec3::makeChain`. -/
def makeChain (s : InPlaceArraySec3) (bi bj : Nat) : InPlaceArraySec3 :=
  { s with
    A := upd (upd s.A (first_of bi) (first_of bj : Int)) (first_of bj) (first_of bi : Int),
    ctr := { s.ctr with conversions := s.ctr.conversions + 1 } }

/-- `InPlaceArraySec3::breakChain`. -/
def breakChain (s : InPlaceArraySec3) (bi : Nat) : InPlaceArraySec3 :=
  match chainedTo_block s bi with
  | some bj =>
      { s with A := upd s.A (first_of bj) (first_of bj : Int),
               ctr := { s.ctr with conversions := s.ctr.conversions + 1 } }
  | none => s

/-- `InPlaceArraySec3::initBlock`. -/
def initBlock (s : InPlaceArraySec3) (bi : Nat) : InPlaceArraySec3 :=
  { s with A := upd (upd s.A (first_of bi) s.initv) (first_of bi + 1) s.initv }

/-- `InPlaceArraySec3::extend`: promotes the boundary block, returns the new
state together with the freed block. -/
def extend (s : InPlaceArraySec3) : InPlaceArraySec3 × Nat :=
  let s0 := s.b
  let k := chainedTo_block s s0
  let s1 : InPlaceArraySec3 := { s with b := s.b + 1 }
  match k with
  | none =>
      (breakChain (initBlock s1 s0) s0, s0)
  | some bk =>
      let s2 : InPlaceArraySec3 :=
        { s1 with A := upd s1.A (first_of s0) (s1.A (first_of bk + 1)) }
      let s3 := breakChain s2 s0
      let s4 := initBlock s3 bk
      let s5 := breakChain s4 bk
      ({ s5 with ctr := { s5.ctr with relocations := s5.ctr.relocations + 1 } }, bk)

/-- `InPlaceArraySec3::read_impl`. -/
def read_impl (s : InPlaceArraySec3) (i : Nat) : Int :=
  let bi := block_of i
  let k := chainedTo_block s bi
  if i < 2 * s.b then
    match k with
    | some _ => s.initv
    | none => s.A i
  else
    match k with
    | some bk => if i % 2 = 0 then s.A (first_of bk + 1) else s.A i
    | none => s.initv

/-- `InPlaceArraySec3::write_impl`. -/
def write_impl (s : InPlaceArraySec3) (i : Nat) (v : Int) : InPlaceArraySec3 :=
  let bi := block_of i
  let k := chainedTo_block s bi
  if bi < s.b then
    match k with
    | none => breakChain { s with A := upd s.A i v } bi
    | some kk =>
        let es := extend s
        let s1 := es.1
        let bj := es.2
        if bj = bi then breakChain { s1 with A := upd s1.A i v } bi
        else
          -- std::swap(A[first(bj)], A[first(bi)]); std::swap(A[first(bj)+1], A[first(bi)+1])
          let a1 := s1.A
          let a2 := upd (upd a1 (first_of bj) (a1 (first_of bi))) (first_of bi) (a1 (first_of bj))
          let a3 := upd (upd a2 (first_of bj + 1) (a2 (first_of bi + 1))) (first_of bi + 1)
                        (a2 (first_of bj + 1))
          let s2 : InPlaceArraySec3 :=
            { s1 with A := a3,
                      ctr := { s1.ctr with relocations := s1.ctr.relocations + 1 } }
          let s3 := makeChain s2 bj kk
          let s4 := initBlock s3 bi
          breakChain { s4 with A := upd s4.A i v } bi
  else
    match k with
    | some bk =>
        if i % 2 = 0 then { s with A := upd s.A (first_of bk + 1) v }
        else { s with A := upd s.A i v }
    | none =>
        let es := extend s
        let s1 := es.1
        let bk2 := es.2
        if bk2 = bi then breakChain { s1 with A := upd s1.A i v } bi
        else
          let s2 := initBlock s1 bi
          let s3 := makeChain s2 bk2 bi
          if i % 2 = 0 then { s3 with A := upd s3.A (first_of bk2 + 1) v }
          else { s3 with A := upd s3.A i v }

/-- `InPlaceArraySec3::init`. -/
def init (s : InPlaceArraySec3) (v : Int) : InPlaceArraySec3 :=
  { s with ctr := { s.ctr with inits := s.ctr.inits + 1 },
           initv := v, b := 0, vb := shadow_on_init s.vb v }

/-- `InPlaceArraySec3::read` (the public, bounds-checked operation). -/
def read (s : InPlaceArraySec3) (i : Nat) : InPlaceArraySec3 × Except Err Int :=
  let s1 := { s with ctr := { s.ctr with reads := s.ctr.reads + 1 } }
  if s.N ≤ i then (s1, .error .indexOutOfRange) else (s1, .ok (read_impl s1 i))

/-- `InPlaceArraySec3::write` (the public, bounds-checked operation). -/
def write (s : InPlaceArraySec3) (i : Nat) (v : Int) : InPlaceArraySec3 × Except Err Unit :=
  let s1 := { s with ctr := { s.ctr with writes := s.ctr.writes + 1 } }
  if s.N ≤ i then (s1, .error .indexOutOfRange)
  else
    let s2 := write_impl s1 i v
    let s3 := if s2.vb.verifying then { s2 with vb := shadow_on_write s2.vb i v } else s2
    (s3, .ok ())

/-- The states reachable from a successful construction by `init`/`read`/`write`
with in-range indices. -/
inductive Reachable : InPlaceArraySec3 → Prop where
  | construct (n : Nat) (s : InPlaceArraySec3) : make n = .ok s → Reachable s
  | init (s : InPlaceArraySec3) (v : Int) : Reachable s → Reachable (init s v)
  | read (s : InPlaceArraySec3) (i : Nat) : Reachable s → i < s.N → Reachable (read s i).1
  | write (s : InPlaceArraySec3) (i : Nat) (v : Int) :
      Reachable s → i < s.N → Reachable (write s i v).1

end InPlaceArraySec3

/-! ## `class InPlaceArraySec4` (block size 4) -/

structure InPlaceArraySec4 where
  N : Nat
  vb : VerifiableBase
  N_blocks : Nat
  A : Nat → Int
  b : Nat
  initv : Int
  flag : Bool
  ctr : Counters

namespace InPlaceArraySec4

/-- `block_of(i) = i >> 2`. -/
def block_of (i : Nat) : Nat := i / 4

/-- `first_of(blk) = blk << 2`. -/
def first_of (blk : Nat) : Nat := 4 * blk

/-- The constructor: requires `n > 0` and `n % 4 == 0`, zero storage. -/
def make (n : Nat) : Except Err InPlaceArraySec4 :=
  if n = 0 then .error .invalidSize
  else if n % 4 ≠ 0 then .error .invalidSize
  else .ok { N := n, vb := {}, N_blocks := n / 4, A := fun _ => 0, b := 0,
             initv := 0, flag := false, ctr := {} }

/-- `InPlaceArraySec4::sync_flag`. -/
def sync_flag (s : InPlaceArraySec4) : InPlaceArraySec4 :=
  { s with flag := decide (s.N_blocks ≤ s.b) }

/-- `InPlaceArraySec4::sync_meta_to_A`: refresh the flag, then stash `initv`
and `b` in the last block when the flag is off. -/
def sync_meta_to_A (s : InPlaceArraySec4) : InPlaceArraySec4 :=
  let s1 := sync_flag s
  if s1.flag then s1
  else
    let mb := s1.N_blocks - 1
    { s1 with A := upd (upd s1.A (first_of mb + 1) s1.initv) (first_of mb + 2) (s1.b : Int) }

/-- `InPlaceArraySec4::chainedTo_block`. -/
def chainedTo_block (s : InPlaceArraySec4) (bi : Nat) : Option Nat :=
  let k0 := s.A (first_of bi)
  if k0 % 4 ≠ 0 then none
  else if k0 < 0 then none
  else if (s.N : Int) ≤ k0 then none
  else
    let k := k0.toNat / 4
    if cross s.b bi k then
      if s.A k0.toNat = (first_of bi : Int) then some k else none
    else none

/-- `InPlaceArraySec4::makeChain`. -/
def makeChain (s : InPlaceArraySec4) (bi bj : Nat) : InPlaceArraySec4 :=
  { s with
    A := upd (upd s.A (first_of bi) (first_of bj : Int)) (first_of bj) (first_of bi : Int),
    ctr := { s.ctr with conversions := s.ctr.conversions + 1 } }

/-- `InPlaceArraySec4::breakChain`. -/
def breakChain (s : InPlaceArraySec4) (bi : Nat) : InPlaceArraySec4 :=
  match chainedTo_block s bi with
  | some bj =>
      { s with A := upd s.A (first_of bj) (first_of bj : Int),
               ctr := { s.ctr with conversions := s.ctr.conversions + 1 } }
  | none => s

/-- `InPlaceArraySec4::initBlock`. -/
def initBlock (s : InPlaceArraySec4) (bi : Nat) : InPlaceArraySec4 :=
  { s with A := upd (upd (upd (upd s.A (first_of bi) s.initv)
                              (first_of bi + 1) s.initv)
                         (first_of bi + 2) s.initv)
                    (first_of bi + 3) s.initv }

/-- `InPlaceArraySec4::extend`. -/
def extend (s : InPlaceArraySec4) : InPlaceArraySec4 × Nat :=
  let s0 := s.b
  let k := chainedTo_block s s0
  let s1 : InPlaceArraySec4 := { s with b := s.b + 1 }
  match k with
  | none =>
      (sync_meta_to_A (breakChain (initBlock s1 s0) s0), s0)
  | some bk =>
      let a1 := upd s1.A (first_of s0) (s1.A (first_of bk + 1))
      let a2 := upd a1 (first_of s0 + 1) (a1 (first_of bk + 2))
      let a3 := upd a2 (first_of s0 + 2) (a2 (first_of bk + 3))
      let s2 : InPlaceArraySec4 := { s1 with A := a3 }
      let s3 := breakChain s2 s0
      let s4 := initBlock s3 bk
      let s5 := breakChain s4 bk
      let s6 : InPlaceArraySec4 :=
        { s5 with ctr := { s5.ctr with relocations := s5.ctr.relocations + 1 } }
      (sync_meta_to_A s6, bk)

/-- `InPlaceArraySec4::read_impl`. -/
def read_impl (s : InPlaceArraySec4) (i : Nat) : Int :=
  if s.flag then s.A i
  else
    let bi := block_of i
    let k := chainedTo_block s bi
    if i < 4 * s.b then
      match k with
      | some _ => s.initv
      | none => s.A i
    else
      match k with
      | some bk =>
          if i % 4 = 0 then s.A (first_of bk + 1)
          else if i % 4 = 1 then s.A (first_of bk + 2)
          else if i % 4 = 2 then s.A (first_of bk + 3)
          else s.A i
      | none => s.initv

/-- `InPlaceArraySec4::write_impl`. -/
def write_impl (s : InPlaceArraySec4) (i : Nat) (v : Int) : InPlaceArraySec4 :=
  if s.flag then { s with A := upd s.A i v }
  else
    let bi := block_of i
    let k := chainedTo_block s bi
    if bi < s.b then
      match k with
      | none => breakChain { s with A := upd s.A i v } bi
      | some kk =>
          let es := extend s
          let s1 := es.1
          let bj := es.2
          if bj = bi then breakChain { s1 with A := upd s1.A i v } bi
          else
            -- for(int t=0;t<4;++t) std::swap(A[first(bj)+t], A[first(bi)+t])
            let a0 := s1.A
            let a1 := upd (upd a0 (first_of bj) (a0 (first_of bi))) (first_of bi) (a0 (first_of bj))
            let a2 := upd (upd a1 (first_of bj + 1) (a1 (first_of bi + 1))) (first_of bi + 1)
                          (a1 (first_of bj + 1))
            let a3 := upd (upd a2 (first_of bj + 2) (a2 (first_of bi + 2))) (first_of bi + 2)
                          (a2 (first_of bj + 2))
            let a4 := upd (upd a3 (first_of bj + 3) (a3 (first_of bi + 3))) (first_of bi + 3)
                          (a3 (first_of bj + 3))
            let s2 : InPlaceArraySec4 :=
              { s1 with A := a4,
                        ctr := { s1.ctr with relocations := s1.ctr.relocations + 1 } }
            let s3 := makeChain s2 bj kk
            let s4 := initBlock s3 bi
            breakChain { s4 with A := upd s4.A i v } bi
    else
      match k with
      | some bk =>
          if i % 4 = 0 then { s with A := upd s.A (first_of bk + 1) v }
          else if i % 4 = 1 then { s with A := upd s.A (first_of bk + 2) v }
          else if i % 4 = 2 then { s with A := upd s.A (first_of bk + 3) v }
          else { s with A := upd s.A i v }
      | none =>
          let es := extend s
          let s1 := es.1
          let bk2 := es.2
          if bk2 = bi then breakChain { s1 with A := upd s1.A i v } bi
          else
            let s2 := initBlock s1 bi
            let s3 := makeChain s2 bk2 bi
            if i % 4 = 0 then { s3 with A := upd s3.A (first_of bk2 + 1) v }
            else if i % 4 = 1 then { s3 with A := upd s3.A (first_of bk2 + 2) v }
            else if i % 4 = 2 then { s3 with A := upd s3.A (first_of bk2 + 3) v }
            else { s3 with A := upd s3.A i v }

/-- `InPlaceArraySec4::init`. -/
def init (s : InPlaceArraySec4) (v : Int) : InPlaceArraySec4 :=
  let s1 : InPlaceArraySec4 :=
    { s with ctr := { s.ctr with inits := s.ctr.inits + 1 },
             initv := v, b := 0, flag := decide (s.N_blocks = 0) }
  let s2 := sync_meta_to_A s1
  { s2 with vb := shadow_on_init s2.vb v }

/-- `InPlaceArraySec4::read`. -/
def read (s : InPlaceArraySec4) (i : Nat) : InPlaceArraySec4 × Except Err Int :=
  let s1 := { s with ctr := { s.ctr with reads := s.ctr.reads + 1 } }
  if s.N ≤ i then (s1, .error .indexOutOfRange) else (s1, .ok (read_impl s1 i))

/-- `InPlaceArraySec4::write`. -/
def write (s : InPlaceArraySec4) (i : Nat) (v : Int) : InPlaceArraySec4 × Except Err Unit :=
  let s1 := { s with ctr := { s.ctr with writes := s.ctr.writes + 1 } }
  if s.N ≤ i then (s1, .error .indexOutOfRange)
  else
    let s2 := write_impl s1 i v
    let s3 := if s2.vb.verifying then { s2 with vb := shadow_on_write s2.vb i v } else s2
    (s3, .ok ())

/-- The states reachable from a successful construction by `init`/`read`/`write`
with in-range indices. -/
inductive Reachable : InPlaceArraySec4 → Prop where
  | construct (n : Nat) (s : InPlaceArraySec4) : make n = .ok s → Reachable s
  | init (s : InPlaceArraySec4) (v : Int) : Reachable s → Reachable (init s v)
  | read (s : InPlaceArraySec4) (i : Nat) : Reachable s → i < s.N → Reachable (read s i).1
  | write (s : InPlaceArraySec4) (i : Nat) (v : Int) :
      Reachable s → i < s.N → Reachable (write s i v).1

end InPlaceArraySec4

/-! ### Concrete states used to instantiate the verification results -/

/-- One step of the reference semantics of the shadow expected value for
index `i`. -/
def specStep (i : Nat) : Int → ShOp → Int := fun acc op =>
  match op with
  | .init v => v
  | .write j w => if j = i then w else acc

/-- The Section-3 array `make 8` constructs. -/
def s3w : InPlaceArraySec3 :=
  { N := 8, vb := {}, N_blocks := 4, A := fun _ => 0, b := 0, initv := 0, ctr := {} }

/-- The Section-4 array `make 8` constructs. -/
def s4w : InPlaceArraySec4 :=
  { N := 8, vb := {}, N_blocks := 2, A := fun _ => 0, b := 0, initv := 0, flag := false,
    ctr := {} }

/-- Section 3 after `init 0; write 4 5`: block 2 is chained to block 0. -/
def s3chain : InPlaceArraySec3 :=
  (InPlaceArraySec3.write (InPlaceArraySec3.init s3w 0) 4 5).1

/-- Section 3 after `init 0; write 4 5; write 6 7`: the boundary block 2 is
chained to the WCA block 0. -/
def s3c6 : InPlaceArraySec3 := (InPlaceArraySec3.write s3chain 6 7).1

/-- Section 4 after `init 0; write 4 9` on an 8-cell array: the write's
`initBlock`/`makeChain` on the last block overwrite the metadata stash. -/
def s4bug : InPlaceArraySec4 :=
  (InPlaceArraySec4.write (InPlaceArraySec4.init s4w 0) 4 9).1

/-- A shadow state one `init` away from the `uint32_t` epoch wraparound, with a
nonzero stamp recorded for index 0. -/
def vbWrap : VerifiableBase :=
  { verifying := true, shadow := fun _ => 0, stamp := fun j => if j = 0 then 5 else 0,
    shadow_initv := 0, shadow_epoch := epochMod - 1 }

/-- A Section-3 array carrying `vbWrap`. -/
def sC10 : InPlaceArraySec3 :=
  { N := 2, vb := vbWrap, N_blocks := 1, A := fun _ => 0, b := 0, initv := 0, ctr := {} }

/-! # Theorems

## General helpers -/

theorem upd_eval (A : Nat → Int) (i : Nat) (v : Int) (j : Nat) :
    upd A i v j = if j = i then v else A j := rfl

theorem upd_at (A : Nat → Int) (i : Nat) (v : Int) : upd A i v i = v := by
  simp [upd]

theorem upd_ne (A : Nat → Int) (i : Nat) (v : Int) (j : Nat) (h : j ≠ i) :
    upd A i v j = A j := by
  simp [upd, h]

theorem option_eq_of_some_iff {p q : Option Nat}
    (h : ∀ u, p = some u ↔ q = some u) : p = q := by
  cases hp : p with
  | none =>
      cases hq : q with
      | none => rfl
      | some u => exact absurd ((h u).mpr hq) (by simp [hp])
  | some u => exact ((h u).mp hp).symm

theorem cross_symm {b x y : Nat} (h : cross b x y) : cross b y x := by
  unfold cross at *; tauto

theorem cross_ne {b x y : Nat} (h : cross b x y) : x ≠ y := by
  unfold cross at h; omega

/-! ## Toolkit for the Section-3 array -/

namespace InPlaceArraySec3

theorem first_of_eq (blk : Nat) : first_of blk = 2 * blk := rfl

theorem makeChain_N (s : InPlaceArraySec3) (x y : Nat) : (makeChain s x y).N = s.N := rfl

theorem makeChain_b (s : InPlaceArraySec3) (x y : Nat) : (makeChain s x y).b = s.b := rfl

theorem makeChain_initv (s : InPlaceArraySec3) (x y : Nat) : (makeChain s x y).initv = s.initv := rfl

theorem makeChain_A (s : InPlaceArraySec3) (x y : Nat) :
    (makeChain s x y).A =
      upd (upd s.A (2 * x) ((2 * y : Nat) : Int)) (2 * y) ((2 * x : Nat) : Int) := rfl

theorem initBlock_N (s : InPlaceArraySec3) (x : Nat) : (initBlock s x).N = s.N := rfl

theorem initBlock_b (s : InPlaceArraySec3) (x : Nat) : (initBlock s x).b = s.b := rfl

theorem initBlock_initv (s : InPlaceArraySec3) (x : Nat) : (initBlock s x).initv = s.initv := rfl

theorem initBlock_A (s : InPlaceArraySec3) (x : Nat) :
    (initBlock s x).A = upd (upd s.A (2 * x) s.initv) (2 * x + 1) s.initv := rfl

theorem breakChain_N (s : InPlaceArraySec3) (x : Nat) : (breakChain s x).N = s.N := by
  unfold breakChain; split <;> rfl

theorem breakChain_b (s : InPlaceArraySec3) (x : Nat) : (breakChain s x).b = s.b := by
  unfold breakChain; split <;> rfl

theorem breakChain_initv (s : InPlaceArraySec3) (x : Nat) : (breakChain s x).initv = s.initv := by
  unfold breakChain; split <;> rfl

theorem breakChain_of_none (s : InPlaceArraySec3) (x : Nat)
    (h : chainedTo_block s x = none) : breakChain s x = s := by
  unfold breakChain
  rw [h]

theorem breakChain_A_of_some (s : InPlaceArraySec3) (x p : Nat)
    (h : chainedTo_block s x = some p) :
    (breakChain s x).A = upd s.A (2 * p) ((2 * p : Nat) : Int) := by
  unfold breakChain
  rw [h]
  rfl

/-- The characterization of chain detection: `bi` is detected as chained to `k`
iff the zeroth cell of `bi` holds the aligned in-range pointer `2*k`, the two
blocks are on opposite sides of `b`, and the pointer is reciprocated. -/
theorem chainedTo_some_iff (s : InPlaceArraySec3) (bi k : Nat) :
    chainedTo_block s bi = some k ↔
      s.A (2 * bi) = ((2 * k : Nat) : Int) ∧ 2 * k < s.N ∧ cross s.b bi k ∧
        s.A (2 * k) = ((2 * bi : Nat) : Int) := by
  unfold chainedTo_block
  simp only [first_of_eq]
  constructor
  · intro h
    split at h
    · exact absurd h (by simp)
    · split at h
      · exact absurd h (by simp)
      · split at h
        · exact absurd h (by simp)
        · split at h
          · split at h
            · rename_i h1 h2 h3 hcross hrecip
              injection h with hk
              have he : s.A (2 * bi) = ((2 * k : Nat) : Int) := by omega
              have hlt : 2 * k < s.N := by omega
              have ht : (s.A (2 * bi)).toNat = 2 * k := by omega
              refine ⟨he, hlt, ?_, ?_⟩
              · rw [← hk]; exact hcross
              · rw [ht] at hrecip
                exact hrecip
            · exact absurd h (by simp)
          · exact absurd h (by simp)
  · rintro ⟨h1, h2, h3, h4⟩
    rw [h1]
    have ht : (((2 * k : Nat) : Int)).toNat = 2 * k := by omega
    have hdiv : 2 * k / 2 = k := by omega
    rw [if_neg (by omega), if_neg (by omega), if_neg (by omega), ht, hdiv,
        if_pos h3, if_pos h4]

theorem chainedTo_none_iff (s : InPlaceArraySec3) (bi : Nat) :
    chainedTo_block s bi = none ↔
      ∀ k : Nat, ¬ (s.A (2 * bi) = ((2 * k : Nat) : Int) ∧ 2 * k < s.N ∧ cross s.b bi k ∧
        s.A (2 * k) = ((2 * bi : Nat) : Int)) := by
  constructor
  · intro h k hk
    rw [← chainedTo_some_iff] at hk
    rw [h] at hk
    exact Option.noConfusion hk
  · intro h
    cases hc : chainedTo_block s bi with
    | none => rfl
    | some k => exact absurd ((chainedTo_some_iff s bi k).mp hc) (h k)

theorem chainedTo_symm (s : InPlaceArraySec3) (bi k : Nat) (hbi : 2 * bi < s.N)
    (h : chainedTo_block s bi = some k) : chainedTo_block s k = some bi := by
  rw [chainedTo_some_iff] at h ⊢
  obtain ⟨h1, h2, h3, h4⟩ := h
  exact ⟨h4, hbi, cross_symm h3, h1⟩

theorem chainedTo_some_ne (s : InPlaceArraySec3) (bi k : Nat)
    (h : chainedTo_block s bi = some k) : bi ≠ k := by
  rw [chainedTo_some_iff] at h
  exact cross_ne h.2.2.1

/-- `breakChain x` leaves `x` unchained. -/
theorem chainedTo_breakChain_self (s : InPlaceArraySec3) (x : Nat) :
    chainedTo_block (breakChain s x) x = none := by
  cases h : chainedTo_block s x with
  | none => rw [breakChain_of_none s x h]; exact h
  | some p =>
      have hne : x ≠ p := chainedTo_some_ne s x p h
      have hA := breakChain_A_of_some s x p h
      rw [chainedTo_some_iff] at h
      rw [chainedTo_none_iff]
      intro u hu
      obtain ⟨h1, h2, h3, h4⟩ := hu
      rw [hA, upd_ne _ _ _ _ (by omega)] at h1
      have hup : u = p := by
        have := h.1
        omega
      subst hup
      rw [hA, upd_at] at h4
      omega

/-- `breakChain x` also unchains the partner of `x`. -/
theorem chainedTo_breakChain_partner (s : InPlaceArraySec3) (x p : Nat)
    (h : chainedTo_block s x = some p) :
    chainedTo_block (breakChain s x) p = none := by
  have hne : x ≠ p := chainedTo_some_ne s x p h
  have hA := breakChain_A_of_some s x p h
  rw [chainedTo_none_iff]
  intro u hu
  obtain ⟨h1, h2, h3, h4⟩ := hu
  rw [hA, upd_at] at h1
  have hup : u = p := by omega
  subst hup
  rw [breakChain_b] at h3
  exact absurd rfl (cross_ne h3)

/-- `breakChain x` does not affect the chain status of any block other than `x`
and its partner. -/
theorem chainedTo_breakChain_other (s : InPlaceArraySec3) (x t : Nat)
    (hx : t ≠ x) (hp : chainedTo_block s x ≠ some t) :
    chainedTo_block (breakChain s x) t = chainedTo_block s t := by
  cases h : chainedTo_block s x with
  | none => rw [breakChain_of_none s x h]
  | some p =>
      have hne : x ≠ p := chainedTo_some_ne s x p h
      have htp : t ≠ p := by intro hc; rw [hc] at hp; exact hp h
      have hA := breakChain_A_of_some s x p h
      rw [chainedTo_some_iff] at h
      apply option_eq_of_some_iff
      intro u
      rw [chainedTo_some_iff, chainedTo_some_iff, breakChain_N, breakChain_b, hA]
      rw [upd_ne _ _ _ _ (by omega)]
      constructor
      · rintro ⟨h1, h2, h3, h4⟩
        refine ⟨h1, h2, h3, ?_⟩
        by_cases hup : u = p
        · subst hup
          rw [upd_at] at h4
          omega
        · rw [upd_ne _ _ _ _ (by omega)] at h4
          exact h4
      · rintro ⟨h1, h2, h3, h4⟩
        refine ⟨h1, h2, h3, ?_⟩
        by_cases hup : u = p
        · subst hup
          have := h.2.2.2
          omega
        · rw [upd_ne _ _ _ _ (by omega)]
          exact h4

/-- Cells not belonging to the (possible) partner's zeroth position are
untouched by `breakChain`. -/
theorem breakChain_A_frame (s : InPlaceArraySec3) (x : Nat) (j : Nat)
    (h : ∀ p, chainedTo_block s x = some p → j ≠ 2 * p) :
    (breakChain s x).A j = s.A j := by
  cases hc : chainedTo_block s x with
  | none => rw [breakChain_of_none s x hc]
  | some p =>
      rw [breakChain_A_of_some s x p hc, upd_ne _ _ _ _ (h p hc)]

end InPlaceArraySec3

namespace InPlaceArraySec3

theorem breakChain_relocations (s : InPlaceArraySec3) (x : Nat) :
    (breakChain s x).ctr.relocations = s.ctr.relocations := by
  unfold breakChain; split <;> rfl

theorem breakChain_vb (s : InPlaceArraySec3) (x : Nat) : (breakChain s x).vb = s.vb := by
  unfold breakChain; split <;> rfl

theorem breakChain_N_blocks (s : InPlaceArraySec3) (x : Nat) :
    (breakChain s x).N_blocks = s.N_blocks := by
  unfold breakChain; split <;> rfl

theorem initBlock_N_blocks (s : InPlaceArraySec3) (x : Nat) :
    (initBlock s x).N_blocks = s.N_blocks := rfl

theorem initBlock_vb (s : InPlaceArraySec3) (x : Nat) : (initBlock s x).vb = s.vb := rfl

theorem initBlock_ctr (s : InPlaceArraySec3) (x : Nat) : (initBlock s x).ctr = s.ctr := rfl

theorem extend_N (s : InPlaceArraySec3) : (extend s).1.N = s.N := by
  unfold extend
  cases h : chainedTo_block s s.b <;>
    simp [h, breakChain_N, initBlock_N]

theorem extend_N_blocks (s : InPlaceArraySec3) : (extend s).1.N_blocks = s.N_blocks := by
  unfold extend
  cases h : chainedTo_block s s.b <;>
    simp [h, breakChain_N_blocks, initBlock_N_blocks]

theorem extend_b (s : InPlaceArraySec3) : (extend s).1.b = s.b + 1 := by
  unfold extend
  cases h : chainedTo_block s s.b <;>
    simp [h, breakChain_b, initBlock_b]

theorem extend_initv (s : InPlaceArraySec3) : (extend s).1.initv = s.initv := by
  unfold extend
  cases h : chainedTo_block s s.b <;>
    simp [h, breakChain_initv, initBlock_initv]

/-- Complete description of `extend` when the boundary block is unchained:
the boundary block is freed and filled with `initv`; apart from its two cells,
the only other cell possibly touched is a defensive `breakChain` write of `2*μ`
into the zeroth cell `2*μ` of a UCA block `μ` that spuriously pointed at the
boundary (possible only when `initv` happens to be that aligned pointer). -/
theorem extend_none_spec (s : InPlaceArraySec3) (h : chainedTo_block s s.b = none) :
    (extend s).2 = s.b ∧
    (extend s).1.A (2 * s.b) = s.initv ∧
    (extend s).1.A (2 * s.b + 1) = s.initv ∧
    (∀ j, j ≠ 2 * s.b → j ≠ 2 * s.b + 1 →
      ((extend s).1.A j = s.A j ∨
       (j % 2 = 0 ∧ (extend s).1.A j = (j : Int) ∧ 2 * (s.b + 1) ≤ j ∧ j < s.N ∧
        s.A j = ((2 * s.b : Nat) : Int) ∧ s.initv = (j : Int)))) ∧
    chainedTo_block (extend s).1 s.b = none := by
  have hext1 : (extend s).1 =
      breakChain
        { s with b := s.b + 1,
                 A := upd (upd s.A (2 * s.b) s.initv) (2 * s.b + 1) s.initv } s.b := by
    show (extend s).1 = _
    simp only [extend, h]
    rfl
  have hext2 : (extend s).2 = s.b := by
    simp only [extend, h]
  set s2 : InPlaceArraySec3 :=
    { s with b := s.b + 1,
             A := upd (upd s.A (2 * s.b) s.initv) (2 * s.b + 1) s.initv } with hs2
  refine ⟨hext2, ?_, ?_, ?_, by rw [hext1]; exact chainedTo_breakChain_self s2 s.b⟩
  · rw [hext1]
    rw [breakChain_A_frame s2 s.b (2 * s.b)
      (by intro p hp; have := chainedTo_some_ne s2 s.b p hp; omega)]
    show upd (upd s.A (2 * s.b) s.initv) (2 * s.b + 1) s.initv (2 * s.b) = s.initv
    rw [upd_ne _ _ _ _ (by omega), upd_at]
  · rw [hext1]
    rw [breakChain_A_frame s2 s.b (2 * s.b + 1)
      (by intro p hp; omega)]
    show upd (upd s.A (2 * s.b) s.initv) (2 * s.b + 1) s.initv (2 * s.b + 1) = s.initv
    rw [upd_at]
  · intro j hj1 hj2
    rw [hext1]
    cases hc : chainedTo_block s2 s.b with
    | none =>
        left
        rw [breakChain_of_none s2 s.b hc]
        show upd (upd s.A (2 * s.b) s.initv) (2 * s.b + 1) s.initv j = s.A j
        rw [upd_ne _ _ _ _ hj2, upd_ne _ _ _ _ hj1]
    | some μ =>
        have hiff := (chainedTo_some_iff s2 s.b μ).mp hc
        have hinitv : s.initv = ((2 * μ : Nat) : Int) := by
          have h1 := hiff.1
          rw [show s2.A = upd (upd s.A (2 * s.b) s.initv) (2 * s.b + 1) s.initv from rfl,
              upd_ne _ _ _ _ (by omega), upd_at] at h1
          exact h1
        have hcr : cross (s.b + 1) s.b μ := by
          have := hiff.2.2.1
          exact this
        have hμb : s.b + 1 ≤ μ := by
          unfold cross at hcr; omega
        have hμN : 2 * μ < s.N := hiff.2.1
        have hrecip : s.A (2 * μ) = ((2 * s.b : Nat) : Int) := by
          have h4 := hiff.2.2.2
          rw [show s2.A = upd (upd s.A (2 * s.b) s.initv) (2 * s.b + 1) s.initv from rfl,
              upd_ne _ _ _ _ (by omega), upd_ne _ _ _ _ (by omega)] at h4
          exact h4
        have hA' := breakChain_A_of_some s2 s.b μ hc
        by_cases hj : j = 2 * μ
        · right
          subst hj
          refine ⟨by omega, ?_, by omega, hμN, hrecip, hinitv⟩
          rw [hA', upd_at]
        · left
          rw [hA', upd_ne _ _ _ _ hj]
          show upd (upd s.A (2 * s.b) s.initv) (2 * s.b + 1) s.initv j = s.A j
          rw [upd_ne _ _ _ _ hj2, upd_ne _ _ _ _ hj1]

/-- Complete description of `extend` when the boundary block is chained to a
(WCA) partner `κ`: the boundary's displaced zeroth cell is copied back, the
partner is freed and filled with `initv`, one relocation is counted, and the
only other cells possibly touched are defensive `breakChain` writes of the form
`A[2*u] := 2*u` on UCA blocks `u` whose cells spuriously pointed at the
boundary or at `κ`. -/
theorem extend_some_spec (s : InPlaceArraySec3) (κ : Nat)
    (h : chainedTo_block s s.b = some κ) :
    (extend s).2 = κ ∧
    κ < s.b ∧
    (extend s).1.A (2 * s.b) = s.A (2 * κ + 1) ∧
    (extend s).1.A (2 * s.b + 1) = s.A (2 * s.b + 1) ∧
    (extend s).1.A (2 * κ) = s.initv ∧
    (extend s).1.A (2 * κ + 1) = s.initv ∧
    (extend s).1.ctr.relocations = s.ctr.relocations + 1 ∧
    (∀ j, j ≠ 2 * s.b → j ≠ 2 * κ → j ≠ 2 * κ + 1 →
      ((extend s).1.A j = s.A j ∨
       (j % 2 = 0 ∧ (extend s).1.A j = (j : Int) ∧ 2 * (s.b + 1) ≤ j ∧ j < s.N ∧
        (s.A j = ((2 * s.b : Nat) : Int) ∨ s.A j = ((2 * κ : Nat) : Int))))) ∧
    chainedTo_block (extend s).1 s.b = none ∧
    chainedTo_block (extend s).1 κ = none := by
  have hκb : κ < s.b := by
    have := (chainedTo_some_iff s s.b κ).mp h
    have hcr := this.2.2.1
    unfold cross at hcr; omega
  have hext1 : (extend s).1 =
      { breakChain (initBlock (breakChain
          { s with b := s.b + 1,
                   A := upd s.A (2 * s.b) (s.A (2 * κ + 1)) } s.b) κ) κ with
        ctr := { (breakChain (initBlock (breakChain
          { s with b := s.b + 1,
                   A := upd s.A (2 * s.b) (s.A (2 * κ + 1)) } s.b) κ) κ).ctr with
          relocations := (breakChain (initBlock (breakChain
          { s with b := s.b + 1,
                   A := upd s.A (2 * s.b) (s.A (2 * κ + 1)) } s.b) κ) κ).ctr.relocations + 1 } } := by
    show (extend s).1 = _
    simp only [extend, h]
    rfl
  have hext2 : (extend s).2 = κ := by
    simp only [extend, h]
  set s2 : InPlaceArraySec3 :=
    { s with b := s.b + 1, A := upd s.A (2 * s.b) (s.A (2 * κ + 1)) } with hs2def
  set s3 := breakChain s2 s.b with hs3def
  set s4 := initBlock s3 κ with hs4def
  set s5 := breakChain s4 κ with hs5def
  -- basic projections
  have hs3b : s3.b = s.b + 1 := breakChain_b s2 s.b
  have hs3N : s3.N = s.N := breakChain_N s2 s.b
  have hs4b : s4.b = s.b + 1 := hs3b
  have hs4N : s4.N = s.N := hs3N
  have hs4iv : s4.initv = s.initv := breakChain_initv s2 s.b
  -- the breakChain on s2 touches only cells 2*μ with μ ≥ s.b+1
  have hs3frame : ∀ j, (∀ p, chainedTo_block s2 s.b = some p → j ≠ 2 * p) →
      s3.A j = s2.A j := fun j hp => breakChain_A_frame s2 s.b j hp
  have hs3partner : ∀ p, chainedTo_block s2 s.b = some p → s.b + 1 ≤ p ∧ 2 * p < s.N ∧
      s.A (2 * p) = ((2 * s.b : Nat) : Int) := by
    intro p hp
    have hiff := (chainedTo_some_iff s2 s.b p).mp hp
    have hcr := hiff.2.2.1
    have hb2 : s2.b = s.b + 1 := rfl
    have hN2 : s2.N = s.N := rfl
    unfold cross at hcr
    have hpb : s.b + 1 ≤ p := by omega
    refine ⟨hpb, by rw [← hN2]; exact hiff.2.1, ?_⟩
    have h4 := hiff.2.2.2
    rw [show s2.A = upd s.A (2 * s.b) (s.A (2 * κ + 1)) from rfl,
        upd_ne _ _ _ _ (by omega)] at h4
    exact h4
  have hs5partner : ∀ p, chainedTo_block s4 κ = some p → s.b + 1 ≤ p ∧ 2 * p < s.N ∧
      s4.A (2 * p) = ((2 * κ : Nat) : Int) := by
    intro p hp
    have hiff := (chainedTo_some_iff s4 κ p).mp hp
    have hcr := hiff.2.2.1
    have hb4 : s4.b = s.b + 1 := hs4b
    unfold cross at hcr
    have hpb : s.b + 1 ≤ p := by omega
    refine ⟨hpb, by rw [← hs4N]; exact hiff.2.1, hiff.2.2.2⟩
  have hs5frame : ∀ j, (∀ p, chainedTo_block s4 κ = some p → j ≠ 2 * p) →
      s5.A j = s4.A j := fun j hp => breakChain_A_frame s4 κ j hp
  -- cell values of s5 at the named positions
  have hc0 : s5.A (2 * s.b) = s.A (2 * κ + 1) := by
    rw [hs5frame (2 * s.b) (by intro p hp; have := (hs5partner p hp).1; omega)]
    rw [show s4.A = upd (upd s3.A (2 * κ) s3.initv) (2 * κ + 1) s3.initv from rfl]
    rw [upd_ne _ _ _ _ (by omega), upd_ne _ _ _ _ (by omega)]
    rw [hs3frame (2 * s.b) (by intro p hp; have := (hs3partner p hp).1; omega)]
    rw [show s2.A = upd s.A (2 * s.b) (s.A (2 * κ + 1)) from rfl, upd_at]
  have hc1 : s5.A (2 * s.b + 1) = s.A (2 * s.b + 1) := by
    rw [hs5frame (2 * s.b + 1) (by intro p hp; omega)]
    rw [show s4.A = upd (upd s3.A (2 * κ) s3.initv) (2 * κ + 1) s3.initv from rfl]
    rw [upd_ne _ _ _ _ (by omega), upd_ne _ _ _ _ (by omega)]
    rw [hs3frame (2 * s.b + 1) (by intro p hp; omega)]
    rw [show s2.A = upd s.A (2 * s.b) (s.A (2 * κ + 1)) from rfl,
        upd_ne _ _ _ _ (by omega)]
  have hcκ0 : s5.A (2 * κ) = s.initv := by
    rw [hs5frame (2 * κ) (by intro p hp; have := (hs5partner p hp).1; omega)]
    rw [show s4.A = upd (upd s3.A (2 * κ) s3.initv) (2 * κ + 1) s3.initv from rfl]
    rw [upd_ne _ _ _ _ (by omega), upd_at]
    exact breakChain_initv s2 s.b
  have hcκ1 : s5.A (2 * κ + 1) = s.initv := by
    rw [hs5frame (2 * κ + 1) (by intro p hp; omega)]
    rw [show s4.A = upd (upd s3.A (2 * κ) s3.initv) (2 * κ + 1) s3.initv from rfl]
    rw [upd_at]
    exact breakChain_initv s2 s.b
  have hreloc : s5.ctr.relocations = s.ctr.relocations := by
    rw [show s5.ctr.relocations = s4.ctr.relocations from breakChain_relocations s4 κ]
    rw [show s4.ctr.relocations = s3.ctr.relocations from rfl]
    exact breakChain_relocations s2 s.b
  have hA5 : ∀ j, j ≠ 2 * s.b → j ≠ 2 * κ → j ≠ 2 * κ + 1 →
      (s5.A j = s.A j ∨
       (j % 2 = 0 ∧ s5.A j = (j : Int) ∧ 2 * (s.b + 1) ≤ j ∧ j < s.N ∧
        (s.A j = ((2 * s.b : Nat) : Int) ∨ s.A j = ((2 * κ : Nat) : Int)))) := by
    intro j hj1 hj2 hj3
    by_cases hν : ∃ p, chainedTo_block s4 κ = some p ∧ j = 2 * p
    · obtain ⟨ν, hνc, hjν⟩ := hν
      subst hjν
      obtain ⟨hνb, hνN, hνval⟩ := hs5partner ν hνc
      right
      have hs5A := breakChain_A_of_some s4 κ ν hνc
      refine ⟨by omega, by rw [hs5A, upd_at], by omega, by omega, ?_⟩
      -- recover the original value of cell 2*ν
      rw [show s4.A = upd (upd s3.A (2 * κ) s3.initv) (2 * κ + 1) s3.initv from rfl,
          upd_ne _ _ _ _ (by omega), upd_ne _ _ _ _ (by omega)] at hνval
      by_cases hμ : ∃ p, chainedTo_block s2 s.b = some p ∧ ν = p
      · obtain ⟨μ, hμc, hνμ⟩ := hμ
        obtain ⟨hμb, hμN, hμval⟩ := hs3partner μ hμc
        rw [hνμ]
        exact Or.inl hμval
      · rw [hs3frame (2 * ν) (by
            intro p hp hc
            exact hμ ⟨p, hp, by omega⟩)] at hνval
        rw [show s2.A = upd s.A (2 * s.b) (s.A (2 * κ + 1)) from rfl,
            upd_ne _ _ _ _ (by omega)] at hνval
        exact Or.inr hνval
    · have h5eq : s5.A j = s4.A j := by
        apply hs5frame
        intro p hp hc
        exact hν ⟨p, hp, hc⟩
      rw [h5eq, show s4.A = upd (upd s3.A (2 * κ) s3.initv) (2 * κ + 1) s3.initv from rfl,
          upd_ne _ _ _ _ hj3, upd_ne _ _ _ _ hj2]
      by_cases hμ : ∃ p, chainedTo_block s2 s.b = some p ∧ j = 2 * p
      · obtain ⟨μ, hμc, hjμ⟩ := hμ
        subst hjμ
        obtain ⟨hμb, hμN, hμval⟩ := hs3partner μ hμc
        right
        have hs3A := breakChain_A_of_some s2 s.b μ hμc
        refine ⟨by omega, by rw [hs3A, upd_at], by omega, by omega, Or.inl hμval⟩
      · left
        rw [hs3frame j (by intro p hp hc; exact hμ ⟨p, hp, hc⟩)]
        rw [show s2.A = upd s.A (2 * s.b) (s.A (2 * κ + 1)) from rfl,
            upd_ne _ _ _ _ hj1]
  -- assemble, transporting from s5 to (extend s).1
  have hfin : ∀ j, (extend s).1.A j = s5.A j := by
    intro j
    rw [hext1]
  have hfinc : (extend s).1.ctr.relocations = s5.ctr.relocations + 1 := by
    rw [hext1]
  have hb5 : s5.b = s.b + 1 := by
    rw [hs5def, breakChain_b]; exact hs4b
  have hN5 : s5.N = s.N := by
    rw [hs5def, breakChain_N]; exact hs4N
  have hbnone : chainedTo_block s5 s.b = none := by
    rw [chainedTo_none_iff]
    intro u hu
    obtain ⟨x1, x2, x3, x4⟩ := hu
    have hub : s.b + 1 ≤ u := by
      unfold cross at x3
      omega
    have huN : 2 * u < s.N := by
      rw [← hN5]; exact x2
    by_cases hν : ∃ p, chainedTo_block s4 κ = some p ∧ u = p
    · obtain ⟨ν, hνc, rfl⟩ := hν
      have hbb := breakChain_A_of_some s4 κ u hνc
      rw [show s5.A = (breakChain s4 κ).A from rfl, hbb, upd_at] at x4
      omega
    · have h5u : s5.A (2 * u) = s4.A (2 * u) :=
        hs5frame (2 * u) (fun p hp hc => hν ⟨p, hp, by omega⟩)
      rw [h5u,
          show s4.A = upd (upd s3.A (2 * κ) s3.initv) (2 * κ + 1) s3.initv from rfl,
          upd_ne _ _ _ _ (by omega), upd_ne _ _ _ _ (by omega)] at x4
      by_cases hμ : ∃ p, chainedTo_block s2 s.b = some p ∧ u = p
      · obtain ⟨μ, hμc, rfl⟩ := hμ
        have hbb := breakChain_A_of_some s2 s.b u hμc
        rw [show s3.A = (breakChain s2 s.b).A from rfl, hbb, upd_at] at x4
        omega
      · have h3u : s3.A (2 * u) = s2.A (2 * u) :=
          hs3frame (2 * u) (fun p hp hc => hμ ⟨p, hp, by omega⟩)
        rw [h3u] at x4
        have hd : s2.A (2 * s.b) = ((2 * u : Nat) : Int) := by
          have := hc0
          rw [show s5.A (2 * s.b) = _ from x1] at this
          rw [show s2.A = upd s.A (2 * s.b) (s.A (2 * κ + 1)) from rfl, upd_at]
          omega
        have : chainedTo_block s2 s.b = some u := by
          rw [chainedTo_some_iff]
          refine ⟨hd, by rw [show s2.N = s.N from rfl]; exact huN, ?_, x4⟩
          show cross s2.b s.b u
          rw [show s2.b = s.b + 1 from rfl]
          unfold cross
          omega
        exact hμ ⟨u, this, rfl⟩
  refine ⟨hext2, hκb, ?_, ?_, ?_, ?_, ?_, ?_, ?_, ?_⟩
  · rw [hfin]; exact hc0
  · rw [hfin]; exact hc1
  · rw [hfin]; exact hcκ0
  · rw [hfin]; exact hcκ1
  · rw [hfinc, hreloc]
  · intro j hj1 hj2 hj3
    rw [hfin]
    exact hA5 j hj1 hj2 hj3
  · rw [hext1]
    show chainedTo_block s5 s.b = none
    exact hbnone
  · rw [hext1]
    show chainedTo_block s5 κ = none
    exact chainedTo_breakChain_self s4 κ

/-- Chain-status congruence: if the zeroth cell of `t` is unchanged and for
every in-range candidate `u` the detection conditions are equivalent between
two states of equal size, then `t`'s status is unchanged. -/
theorem chainedTo_congr (s s' : InPlaceArraySec3) (t : Nat)
    (hN : s'.N = s.N)
    (h : ∀ u, 2 * u < s.N →
       ((cross s.b t u ∧ s.A (2 * u) = ((2 * t : Nat) : Int) ∧ s.A (2 * t) = ((2 * u : Nat) : Int)) ↔
        (cross s'.b t u ∧ s'.A (2 * u) = ((2 * t : Nat) : Int) ∧
          s'.A (2 * t) = ((2 * u : Nat) : Int)))) :
    chainedTo_block s' t = chainedTo_block s t := by
  apply option_eq_of_some_iff
  intro u
  rw [chainedTo_some_iff, chainedTo_some_iff, hN]
  constructor
  · rintro ⟨h1, h2, h3, h4⟩
    have := (h u h2).mpr ⟨h3, h4, h1⟩
    exact ⟨this.2.2, h2, this.1, this.2.1⟩
  · rintro ⟨h1, h2, h3, h4⟩
    have := (h u h2).mp ⟨h3, h4, h1⟩
    exact ⟨this.2.2, h2, this.1, this.2.1⟩

/-- Read congruence: if the status of `j`'s block, the boundary side of `j`,
the fill value, the cell `j` itself, and the odd cell of the (possible) partner
are all unchanged, the read is unchanged. -/
theorem read_impl_congr (s s' : InPlaceArraySec3) (j : Nat)
    (hstat : chainedTo_block s' (j / 2) = chainedTo_block s (j / 2))
    (hside : j < 2 * s'.b ↔ j < 2 * s.b)
    (hiv : s'.initv = s.initv)
    (hcell : s'.A j = s.A j)
    (hpartner : ∀ u, chainedTo_block s (j / 2) = some u →
      s'.A (2 * u + 1) = s.A (2 * u + 1)) :
    read_impl s' j = read_impl s j := by
  simp only [read_impl, block_of, first_of_eq]
  rw [hstat]
  by_cases hlt : j < 2 * s.b
  · rw [if_pos (hside.mpr hlt), if_pos hlt]
    cases hc : chainedTo_block s (j / 2) with
    | none => exact hcell
    | some u => exact hiv
  · rw [if_neg (fun hc => hlt (hside.mp hc)), if_neg hlt]
    cases hc : chainedTo_block s (j / 2) with
    | none => exact hiv
    | some u =>
        show (if j % 2 = 0 then s'.A (2 * u + 1) else s'.A j) =
             (if j % 2 = 0 then s.A (2 * u + 1) else s.A j)
        by_cases hpar : j % 2 = 0
        · rw [if_pos hpar, if_pos hpar]
          exact hpartner u hc
        · rw [if_neg hpar, if_neg hpar]
          exact hcell

end InPlaceArraySec3

namespace InPlaceArraySec3

/-! ### Read helpers -/

theorem read_impl_wca_none (s : InPlaceArraySec3) (j : Nat) (hj : j / 2 < s.b)
    (h : chainedTo_block s (j / 2) = none) : read_impl s j = s.A j := by
  simp only [read_impl, block_of]
  rw [h, if_pos (by omega)]

theorem read_impl_wca_some (s : InPlaceArraySec3) (j u : Nat) (hj : j / 2 < s.b)
    (h : chainedTo_block s (j / 2) = some u) : read_impl s j = s.initv := by
  simp only [read_impl, block_of]
  rw [h, if_pos (by omega)]

theorem read_impl_uca_none (s : InPlaceArraySec3) (j : Nat) (hj : s.b ≤ j / 2)
    (h : chainedTo_block s (j / 2) = none) : read_impl s j = s.initv := by
  simp only [read_impl, block_of]
  rw [h, if_neg (by omega)]

theorem read_impl_uca_some_even (s : InPlaceArraySec3) (j u : Nat) (hj : s.b ≤ j / 2)
    (hpar : j % 2 = 0) (h : chainedTo_block s (j / 2) = some u) :
    read_impl s j = s.A (2 * u + 1) := by
  simp only [read_impl, block_of, first_of_eq]
  rw [h, if_neg (by omega)]
  show (if j % 2 = 0 then s.A (2 * u + 1) else s.A j) = s.A (2 * u + 1)
  rw [if_pos hpar]

theorem read_impl_uca_some_odd (s : InPlaceArraySec3) (j u : Nat) (hj : s.b ≤ j / 2)
    (hpar : j % 2 = 1) (h : chainedTo_block s (j / 2) = some u) :
    read_impl s j = s.A j := by
  simp only [read_impl, block_of, first_of_eq]
  rw [h, if_neg (by omega)]
  show (if j % 2 = 0 then s.A (2 * u + 1) else s.A j) = s.A j
  rw [if_neg (by omega)]

/-! ### Congruence auxiliaries -/

/-- A detection triple pointing at an unchained block is impossible. -/
theorem congr_aux_unchained (s : InPlaceArraySec3) (B t : Nat)
    (hB : chainedTo_block s B = none) (ht2 : 2 * t < s.N) :
    ¬ (cross s.b t B ∧ s.A (2 * B) = ((2 * t : Nat) : Int) ∧
       s.A (2 * t) = ((2 * B : Nat) : Int)) := by
  rintro ⟨h1, h2, h3⟩
  have : chainedTo_block s B = some t := by
    rw [chainedTo_some_iff]
    exact ⟨h2, ht2, cross_symm h1, h3⟩
  rw [hB] at this
  exact Option.noConfusion this

/-- A detection triple pointing at a block chained elsewhere is impossible. -/
theorem congr_aux_chained (s : InPlaceArraySec3) (B m t : Nat)
    (hB : chainedTo_block s B = some m) (htm : ¬ t = m) (ht2 : 2 * t < s.N) :
    ¬ (cross s.b t B ∧ s.A (2 * B) = ((2 * t : Nat) : Int) ∧
       s.A (2 * t) = ((2 * B : Nat) : Int)) := by
  rintro ⟨h1, h2, h3⟩
  have : chainedTo_block s B = some t := by
    rw [chainedTo_some_iff]
    exact ⟨h2, ht2, cross_symm h1, h3⟩
  rw [hB] at this
  exact htm (Option.some.inj this).symm

/-- Status preservation under a single in-block cell write: if neither the old
nor the new content of block `i/2` can be detected as chained to `t`, then
`t`'s status is untouched by `A[i] := v`. -/
theorem chainedTo_upd_cell (s : InPlaceArraySec3) (i : Nat) (v : Int) (t : Nat)
    (ht : ¬ t = i / 2) (ht2 : 2 * t < s.N)
    (hfs : ¬ (cross s.b t (i / 2) ∧ s.A (2 * (i / 2)) = ((2 * t : Nat) : Int) ∧
        s.A (2 * t) = ((2 * (i / 2) : Nat) : Int)))
    (hfm : ¬ (cross s.b t (i / 2) ∧ upd s.A i v (2 * (i / 2)) = ((2 * t : Nat) : Int) ∧
        upd s.A i v (2 * t) = ((2 * (i / 2) : Nat) : Int))) :
    chainedTo_block { s with A := upd s.A i v } t = chainedTo_block s t := by
  apply chainedTo_congr s { s with A := upd s.A i v } t rfl
  intro u hu
  by_cases huB : u = i / 2
  · subst huB
    constructor
    · rintro ⟨h1, h2, h3⟩
      exact absurd ⟨h1, h2, h3⟩ hfs
    · rintro ⟨h1, h2, h3⟩
      exact absurd ⟨h1, h2, h3⟩ hfm
  · have e1 : upd s.A i v (2 * t) = s.A (2 * t) := upd_ne _ _ _ _ (by omega)
    have e2 : upd s.A i v (2 * u) = s.A (2 * u) := upd_ne _ _ _ _ (by omega)
    show _ ↔ (cross s.b t u ∧ upd s.A i v (2 * u) = _ ∧ upd s.A i v (2 * t) = _)
    rw [e1, e2]

/-! ### Branch 1: WCA block, unchained -/

theorem write_effect_wca_none (s : InPlaceArraySec3) (i : Nat) (v : Int)
    (hi : i < s.N) (hbi : i / 2 < s.b) (hk : chainedTo_block s (i / 2) = none) :
    ∀ j, j < s.N → read_impl (write_impl s i v) j = if j = i then v else read_impl s j := by
  have hw : write_impl s i v = breakChain { s with A := upd s.A i v } (i / 2) := by
    simp only [write_impl, block_of]
    rw [hk, if_pos hbi]
  rw [hw]
  set sm : InPlaceArraySec3 := { s with A := upd s.A i v } with hsmdef
  have hsmA : sm.A = upd s.A i v := rfl
  have hsmb : sm.b = s.b := rfl
  have hBN : 2 * (i / 2) < s.N := by omega
  intro j hj
  have hjN : 2 * (j / 2) < s.N := by omega
  cases hc : chainedTo_block sm (i / 2) with
  | none =>
      rw [breakChain_of_none sm (i / 2) hc]
      have hstat : ∀ t, ¬ t = i / 2 → 2 * t < s.N →
          chainedTo_block sm t = chainedTo_block s t := by
        intro t ht ht2
        exact chainedTo_upd_cell s i v t ht ht2
          (congr_aux_unchained s (i / 2) t hk ht2)
          (congr_aux_unchained sm (i / 2) t hc ht2)
      by_cases hji : j = i
      · subst hji
        rw [if_pos rfl,
            read_impl_wca_none sm j (by omega) hc]
        show upd s.A j v j = v
        exact upd_at _ _ _
      · rw [if_neg hji]
        by_cases hjB : j / 2 = i / 2
        · rw [read_impl_wca_none sm j (by omega) (by rw [hjB]; exact hc),
              read_impl_wca_none s j (by omega) (by rw [hjB]; exact hk)]
          show upd s.A i v j = s.A j
          exact upd_ne _ _ _ _ hji
        · apply read_impl_congr s sm j (hstat (j / 2) hjB hjN) Iff.rfl rfl
          · show upd s.A i v j = s.A j
            exact upd_ne _ _ _ _ hji
          · intro u hu
            show upd s.A i v (2 * u + 1) = s.A (2 * u + 1)
            apply upd_ne
            intro hcon
            have hui : u = i / 2 := by omega
            subst hui
            have := chainedTo_symm s (j / 2) (i / 2) hjN hu
            rw [hk] at this
            exact Option.noConfusion this
  | some m =>
      have hiff := (chainedTo_some_iff sm (i / 2) m).mp hc
      have hmB : ¬ i / 2 = m := chainedTo_some_ne sm (i / 2) m hc
      have hmN : 2 * m < s.N := hiff.2.1
      have hieven : 2 * (i / 2) = i := by
        by_contra hodd
        have h1 : s.A (2 * (i / 2)) = ((2 * m : Nat) : Int) := by
          have h' := hiff.1
          rw [hsmA, upd_ne _ _ _ _ (by omega)] at h'
          exact h'
        have h4 : s.A (2 * m) = ((2 * (i / 2) : Nat) : Int) := by
          have h' := hiff.2.2.2
          rw [hsmA, upd_ne _ _ _ _ (by omega)] at h'
          exact h'
        have : chainedTo_block s (i / 2) = some m := by
          rw [chainedTo_some_iff]
          exact ⟨h1, hiff.2.1, hiff.2.2.1, h4⟩
        rw [hk] at this
        exact Option.noConfusion this
      have hmge : s.b ≤ m := by
        have hcr := hiff.2.2.1
        rw [hsmb] at hcr
        unfold cross at hcr
        omega
      have hrecipm : s.A (2 * m) = ((2 * (i / 2) : Nat) : Int) := by
        have h' := hiff.2.2.2
        rw [hsmA, upd_ne _ _ _ _ (by omega)] at h'
        exact h'
      have hmnone : chainedTo_block s m = none := by
        rw [chainedTo_none_iff]
        intro u hu
        obtain ⟨g1, g2, g3, g4⟩ := hu
        have hui : u = i / 2 := by
          have := hrecipm
          omega
        subst hui
        have : chainedTo_block s (i / 2) = some m := by
          rw [chainedTo_some_iff]
          exact ⟨g4, hmN, cross_symm g3, g1⟩
        rw [hk] at this
        exact Option.noConfusion this
      have hbreak := breakChain_A_of_some sm (i / 2) m hc
      by_cases hji : j = i
      · subst hji
        rw [if_pos rfl,
            read_impl_wca_none (breakChain sm (j / 2)) j
              (by rw [breakChain_b]; exact hbi)
              (chainedTo_breakChain_self sm (j / 2)),
            hbreak, upd_ne _ _ _ _ (by omega)]
        show upd s.A j v j = v
        exact upd_at _ _ _
      · rw [if_neg hji]
        by_cases hjB : j / 2 = i / 2
        · rw [read_impl_wca_none (breakChain sm (i / 2)) j
              (by rw [breakChain_b]; exact (by omega : j / 2 < sm.b))
              (by rw [hjB]; exact chainedTo_breakChain_self sm (i / 2)),
              read_impl_wca_none s j (by omega) (by rw [hjB]; exact hk),
              hbreak, upd_ne _ _ _ _ (by omega)]
          show upd s.A i v j = s.A j
          exact upd_ne _ _ _ _ hji
        · by_cases hjm : j / 2 = m
          · rw [read_impl_uca_none s j (by omega) (by rw [hjm]; exact hmnone),
                read_impl_uca_none (breakChain sm (i / 2)) j
                  (by rw [breakChain_b]; exact (by omega : sm.b ≤ j / 2))
                  (by rw [hjm]; exact chainedTo_breakChain_partner sm (i / 2) m hc)]
            exact breakChain_initv sm (i / 2)
          · apply read_impl_congr s (breakChain sm (i / 2)) j
            · rw [chainedTo_breakChain_other sm (i / 2) (j / 2) hjB
                (by rw [hc]; exact fun hcc => hjm (Option.some.inj hcc).symm)]
              exact chainedTo_upd_cell s i v (j / 2) hjB hjN
                (congr_aux_unchained s (i / 2) (j / 2) hk hjN)
                (congr_aux_chained sm (i / 2) m (j / 2) hc hjm hjN)
            · rw [breakChain_b]
            · rw [breakChain_initv]
            · rw [hbreak, upd_ne _ _ _ _ (by omega)]
              show upd s.A i v j = s.A j
              exact upd_ne _ _ _ _ hji
            · intro u hu
              rw [hbreak, upd_ne _ _ _ _ (by omega)]
              show upd s.A i v (2 * u + 1) = s.A (2 * u + 1)
              apply upd_ne
              intro hcon
              omega

/-! ### Branch 5: UCA block, chained (write-through) -/

theorem write_effect_uca_some (s : InPlaceArraySec3) (i : Nat) (v : Int)
    (hi : i < s.N) (hbi : ¬ i / 2 < s.b) (m : Nat)
    (hk : chainedTo_block s (i / 2) = some m) :
    ∀ j, j < s.N → read_impl (write_impl s i v) j = if j = i then v else read_impl s j := by
  have hBN : 2 * (i / 2) < s.N := by omega
  have hsymm := chainedTo_symm s (i / 2) m hBN hk
  have hmlt : m < s.b := by
    have hcr := ((chainedTo_some_iff s (i / 2) m).mp hk).2.2.1
    unfold cross at hcr
    omega
  have hmne : ¬ i / 2 = m := chainedTo_some_ne s (i / 2) m hk
  by_cases hpar : i % 2 = 0
  · -- even offset: write through to the partner's odd cell
    have hw : write_impl s i v = { s with A := upd s.A (2 * m + 1) v } := by
      simp only [write_impl, block_of, first_of_eq]
      rw [hk, if_neg hbi]
      show (if i % 2 = 0 then ({ s with A := upd s.A (2 * m + 1) v } : InPlaceArraySec3)
            else { s with A := upd s.A i v }) = _
      rw [if_pos hpar]
    rw [hw]
    set sm : InPlaceArraySec3 := { s with A := upd s.A (2 * m + 1) v } with hsmdef
    have hsmb : sm.b = s.b := rfl
    have hsmN : sm.N = s.N := rfl
    have hstat : ∀ t, chainedTo_block sm t = chainedTo_block s t := by
      intro t
      apply chainedTo_congr s sm t rfl
      intro u hu
      have e1 : upd s.A (2 * m + 1) v (2 * t) = s.A (2 * t) := upd_ne _ _ _ _ (by omega)
      have e2 : upd s.A (2 * m + 1) v (2 * u) = s.A (2 * u) := upd_ne _ _ _ _ (by omega)
      show _ ↔ (cross s.b t u ∧ upd s.A (2 * m + 1) v (2 * u) = _ ∧
        upd s.A (2 * m + 1) v (2 * t) = _)
      rw [e1, e2]
    intro j hj
    by_cases hji : j = i
    · subst hji
      rw [if_pos rfl,
          read_impl_uca_some_even sm j m (by omega) hpar (by rw [hstat]; exact hk)]
      show upd s.A (2 * m + 1) v (2 * m + 1) = v
      exact upd_at _ _ _
    · rw [if_neg hji]
      by_cases hjB : j / 2 = i / 2
      · have hjodd : j % 2 = 1 := by omega
        rw [read_impl_uca_some_odd sm j m (by omega) hjodd (by rw [hjB, hstat]; exact hk),
            read_impl_uca_some_odd s j m (by omega) hjodd (by rw [hjB]; exact hk)]
        show upd s.A (2 * m + 1) v j = s.A j
        exact upd_ne _ _ _ _ (by omega)
      · by_cases hjm : j / 2 = m
        · rw [read_impl_wca_some sm j (i / 2) (by omega) (by rw [hjm, hstat]; exact hsymm),
              read_impl_wca_some s j (i / 2) (by omega) (by rw [hjm]; exact hsymm)]
        · apply read_impl_congr s sm j (hstat (j / 2)) Iff.rfl rfl
          · show upd s.A (2 * m + 1) v j = s.A j
            apply upd_ne
            intro hc
            exact hjm (by omega)
          · intro u hu
            show upd s.A (2 * m + 1) v (2 * u + 1) = s.A (2 * u + 1)
            apply upd_ne
            intro hc
            have hum : u = m := by omega
            subst hum
            have h2 := chainedTo_symm s (j / 2) u (by omega) hu
            rw [hsymm] at h2
            exact hjB (Option.some.inj h2).symm
  · -- odd offset: write in place
    have hw : write_impl s i v = { s with A := upd s.A i v } := by
      simp only [write_impl, block_of, first_of_eq]
      rw [hk, if_neg hbi]
      show (if i % 2 = 0 then ({ s with A := upd s.A (2 * m + 1) v } : InPlaceArraySec3)
            else { s with A := upd s.A i v }) = _
      rw [if_neg hpar]
    rw [hw]
    set sm : InPlaceArraySec3 := { s with A := upd s.A i v } with hsmdef
    have hsmb : sm.b = s.b := rfl
    have hsmN : sm.N = s.N := rfl
    have hstat : ∀ t, chainedTo_block sm t = chainedTo_block s t := by
      intro t
      apply chainedTo_congr s sm t rfl
      intro u hu
      have e1 : upd s.A i v (2 * t) = s.A (2 * t) := upd_ne _ _ _ _ (by omega)
      have e2 : upd s.A i v (2 * u) = s.A (2 * u) := upd_ne _ _ _ _ (by omega)
      show _ ↔ (cross s.b t u ∧ upd s.A i v (2 * u) = _ ∧ upd s.A i v (2 * t) = _)
      rw [e1, e2]
    intro j hj
    by_cases hji : j = i
    · subst hji
      rw [if_pos rfl,
          read_impl_uca_some_odd sm j m (by omega) (by omega) (by rw [hstat]; exact hk)]
      show upd s.A j v j = v
      exact upd_at _ _ _
    · rw [if_neg hji]
      by_cases hjB : j / 2 = i / 2
      · have hjeven : j % 2 = 0 := by omega
        rw [read_impl_uca_some_even sm j m (by omega) hjeven (by rw [hjB, hstat]; exact hk),
            read_impl_uca_some_even s j m (by omega) hjeven (by rw [hjB]; exact hk)]
        show upd s.A i v (2 * m + 1) = s.A (2 * m + 1)
        exact upd_ne _ _ _ _ (by omega)
      · by_cases hjm : j / 2 = m
        · rw [read_impl_wca_some sm j (i / 2) (by omega) (by rw [hjm, hstat]; exact hsymm),
              read_impl_wca_some s j (i / 2) (by omega) (by rw [hjm]; exact hsymm)]
        · apply read_impl_congr s sm j (hstat (j / 2)) Iff.rfl rfl
          · show upd s.A i v j = s.A j
            exact upd_ne _ _ _ _ hji
          · intro u hu
            show upd s.A i v (2 * u + 1) = s.A (2 * u + 1)
            apply upd_ne
            intro hc
            have hui : u = i / 2 := by omega
            subst hui
            have h2 := chainedTo_symm s (j / 2) (i / 2) (by omega) hu
            rw [hk] at h2
            exact hjm (Option.some.inj h2).symm

end InPlaceArraySec3

namespace InPlaceArraySec3

/-! ### `extend` preserves the chain status and the logical values -/

theorem extend_none_status (s : InPlaceArraySec3) (h : chainedTo_block s s.b = none)
    (t : Nat) (ht : ¬ t = s.b) (ht2 : 2 * t < s.N) :
    chainedTo_block (extend s).1 t = chainedTo_block s t := by
  obtain ⟨hret, hA0, hA1, hframe, hbnd⟩ := extend_none_spec s h
  have hN1 : (extend s).1.N = s.N := extend_N s
  have hb1 : (extend s).1.b = s.b + 1 := extend_b s
  rcases hframe (2 * t) (by omega) (by omega) with hcell | ⟨hpar, hval, hge, hlt, hold, hiv⟩
  · apply chainedTo_congr s (extend s).1 t hN1
    intro u hu
    by_cases huB : u = s.b
    · subst huB
      constructor
      · rintro ⟨c1, c2, c3⟩
        exact absurd ⟨c1, c2, c3⟩ (congr_aux_unchained s s.b t h ht2)
      · rintro ⟨c1, c2, c3⟩
        exact absurd ⟨c1, c2, c3⟩
          (congr_aux_unchained (extend s).1 s.b t hbnd (by rw [hN1]; exact ht2))
    · rcases hframe (2 * u) (by omega) (by omega) with hcu | ⟨hpu, hvu, hgu, hlu, holdu, hivu⟩
      · rw [hcell, hcu, hb1, show cross (s.b + 1) t u ↔ cross s.b t u from by
          unfold cross; omega]
      · constructor
        · rintro ⟨c1, c2, c3⟩
          omega
        · rintro ⟨c1, c2, c3⟩
          rw [hvu] at c2
          have hut : u = t := by omega
          subst hut
          exact absurd rfl (cross_ne c1)
  · have h1 : chainedTo_block (extend s).1 t = none := by
      rw [chainedTo_none_iff]
      intro u hu
      obtain ⟨c1, c2, c3, c4⟩ := hu
      rw [hval] at c1
      have hut : u = t := by omega
      subst hut
      exact absurd rfl (cross_ne c3)
    have h2 : chainedTo_block s t = none := by
      rw [chainedTo_none_iff]
      intro u hu
      obtain ⟨c1, c2, c3, c4⟩ := hu
      have huB : u = s.b := by omega
      subst huB
      unfold cross at c3
      omega
    rw [h1, h2]

theorem extend_none_read (s : InPlaceArraySec3) (h : chainedTo_block s s.b = none) :
    ∀ j, j < s.N → read_impl (extend s).1 j = read_impl s j := by
  obtain ⟨hret, hA0, hA1, hframe, hbnd⟩ := extend_none_spec s h
  have hN1 : (extend s).1.N = s.N := extend_N s
  have hb1 : (extend s).1.b = s.b + 1 := extend_b s
  have hiv1 : (extend s).1.initv = s.initv := extend_initv s
  intro j hj
  by_cases hjB : j / 2 = s.b
  · rw [read_impl_uca_none s j (by omega) (by rw [hjB]; exact h),
        read_impl_wca_none (extend s).1 j (by omega) (by rw [hjB]; exact hbnd)]
    have hj2 : j = 2 * s.b ∨ j = 2 * s.b + 1 := by omega
    rcases hj2 with hj2 | hj2 <;> rw [hj2]
    · rw [hA0]
    · rw [hA1]
  · have hstat := extend_none_status s h (j / 2) hjB (by omega)
    rcases hframe j (by omega) (by omega) with hcell | ⟨hpar, hval, hge, hlt, hold, hiv⟩
    · apply read_impl_congr s (extend s).1 j hstat (by rw [hb1]; omega) hiv1 hcell
      intro u hu
      have huB : ¬ u = s.b := by
        intro hc
        subst hc
        have := chainedTo_symm s (j / 2) s.b (by omega) hu
        rw [h] at this
        exact Option.noConfusion this
      rcases hframe (2 * u + 1) (by omega) (by omega) with hcu | ⟨hpu, _, _, _, _, _⟩
      · exact hcu
      · omega
    · have hnone : chainedTo_block s (j / 2) = none := by
        rw [chainedTo_none_iff]
        intro u hu
        obtain ⟨c1, c2, c3, c4⟩ := hu
        have hj2 : 2 * (j / 2) = j := by omega
        rw [hj2, hold] at c1
        have huB : u = s.b := by omega
        subst huB
        unfold cross at c3
        omega
      rw [read_impl_uca_none s j (by omega) hnone,
          read_impl_uca_none (extend s).1 j (by omega) (by rw [hstat]; exact hnone)]
      exact hiv1

theorem extend_some_status (s : InPlaceArraySec3) (κ : Nat)
    (h : chainedTo_block s s.b = some κ) (hbN : 2 * s.b < s.N)
    (t : Nat) (ht : ¬ t = s.b) (htκ : ¬ t = κ) (ht2 : 2 * t < s.N) :
    chainedTo_block (extend s).1 t = chainedTo_block s t := by
  obtain ⟨hret, hκb, hc0, hc1, hcκ0, hcκ1, hrel, hframe, hbnd, hκnd⟩ := extend_some_spec s κ h
  have hN1 : (extend s).1.N = s.N := extend_N s
  have hb1 : (extend s).1.b = s.b + 1 := extend_b s
  have hch := (chainedTo_some_iff s s.b κ).mp h
  rcases hframe (2 * t) (by omega) (by omega) (by omega) with hcell | ⟨hpar, hval, hge, hlt, hold⟩
  · apply chainedTo_congr s (extend s).1 t hN1
    intro u hu
    by_cases huB : u = s.b
    · subst huB
      constructor
      · rintro ⟨c1, c2, c3⟩
        exact absurd ⟨c1, c2, c3⟩ (congr_aux_chained s s.b κ t h htκ ht2)
      · rintro ⟨c1, c2, c3⟩
        exact absurd ⟨c1, c2, c3⟩
          (congr_aux_unchained (extend s).1 s.b t hbnd (by rw [hN1]; exact ht2))
    · by_cases huκ : u = κ
      · subst huκ
        constructor
        · rintro ⟨c1, c2, c3⟩
          -- old: would make the partner chained to t, but it is chained to s.b
          have hcu : chainedTo_block s u = some t := by
            rw [chainedTo_some_iff]
            exact ⟨c2, ht2, cross_symm c1, c3⟩
          have hsy2 := chainedTo_symm s s.b u hbN h
          rw [hsy2] at hcu
          exact absurd (Option.some.inj hcu).symm ht
        · rintro ⟨c1, c2, c3⟩
          exact absurd ⟨c1, c2, c3⟩
            (congr_aux_unchained (extend s).1 u t hκnd (by rw [hN1]; exact ht2))
      · rcases hframe (2 * u) (by omega) (by omega) (by omega) with hcu |
          ⟨hpu, hvu, hgu, hlu, holdu⟩
        · rw [hcell, hcu, hb1, show cross (s.b + 1) t u ↔ cross s.b t u from by
            unfold cross; omega]
        · constructor
          · rintro ⟨c1, c2, c3⟩
            rcases holdu with holdu | holdu <;> omega
          · rintro ⟨c1, c2, c3⟩
            rw [hvu] at c2
            have hut : u = t := by omega
            subst hut
            exact absurd rfl (cross_ne c1)
  · have h1 : chainedTo_block (extend s).1 t = none := by
      rw [chainedTo_none_iff]
      intro u hu
      obtain ⟨c1, c2, c3, c4⟩ := hu
      rw [hval] at c1
      have hut : u = t := by omega
      subst hut
      exact absurd rfl (cross_ne c3)
    have h2 : chainedTo_block s t = none := by
      rw [chainedTo_none_iff]
      intro u hu
      obtain ⟨c1, c2, c3, c4⟩ := hu
      rcases hold with hold | hold
      · have huB : u = s.b := by omega
        subst huB
        unfold cross at c3
        omega
      · have huκ : u = κ := by omega
        subst huκ
        -- reciprocal: s.A (2*κ) = 2*t, but the chain gives s.A (2*κ) = 2*s.b
        have := hch.2.2.2
        omega
    rw [h1, h2]

theorem extend_some_read (s : InPlaceArraySec3) (κ : Nat)
    (h : chainedTo_block s s.b = some κ) (hbN : 2 * s.b < s.N) :
    ∀ j, j < s.N → read_impl (extend s).1 j = read_impl s j := by
  obtain ⟨hret, hκb, hc0, hc1, hcκ0, hcκ1, hrel, hframe, hbnd, hκnd⟩ := extend_some_spec s κ h
  have hN1 : (extend s).1.N = s.N := extend_N s
  have hb1 : (extend s).1.b = s.b + 1 := extend_b s
  have hiv1 : (extend s).1.initv = s.initv := extend_initv s
  have hsy := chainedTo_symm s s.b κ hbN h
  have hch := (chainedTo_some_iff s s.b κ).mp h
  intro j hj
  by_cases hjB : j / 2 = s.b
  · -- boundary block: the displaced cell is copied back in place
    rw [read_impl_wca_none (extend s).1 j (by omega) (by rw [hjB]; exact hbnd)]
    have hj2 : j = 2 * s.b ∨ j = 2 * s.b + 1 := by omega
    rcases hj2 with hj2 | hj2
    · rw [read_impl_uca_some_even s j κ (by omega) (by omega) (by rw [hjB]; exact h), hj2, hc0]
    · rw [read_impl_uca_some_odd s j κ (by omega) (by omega) (by rw [hjB]; exact h), hj2, hc1]
  · by_cases hjκ : j / 2 = κ
    · -- the freed partner: filled with initv, was logically initv
      rw [read_impl_wca_some s j s.b (by omega) (by rw [hjκ]; exact hsy),
          read_impl_wca_none (extend s).1 j (by omega) (by rw [hjκ]; exact hκnd)]
      have hj2 : j = 2 * κ ∨ j = 2 * κ + 1 := by omega
      rcases hj2 with hj2 | hj2 <;> rw [hj2]
      · rw [hcκ0]
      · rw [hcκ1]
    · have hstat := extend_some_status s κ h hbN (j / 2) hjB hjκ (by omega)
      rcases hframe j (by omega) (by omega) (by omega) with hcell |
        ⟨hpar, hval, hge, hlt, hold⟩
      · apply read_impl_congr s (extend s).1 j hstat (by rw [hb1]; omega) hiv1 hcell
        intro u hu
        have huB : ¬ u = s.b := by
          intro hc
          subst hc
          have := chainedTo_symm s (j / 2) s.b (by omega) hu
          rw [h] at this
          exact absurd (Option.some.inj this).symm hjκ
        have huκ : ¬ u = κ := by
          intro hc
          subst hc
          have := chainedTo_symm s (j / 2) u (by omega) hu
          rw [hsy] at this
          exact absurd (Option.some.inj this).symm hjB
        rcases hframe (2 * u + 1) (by omega) (by omega) (by omega) with hcu |
          ⟨hpu, _, _, _, _⟩
        · exact hcu
        · omega
      · have hnone : chainedTo_block s (j / 2) = none := by
          rw [chainedTo_none_iff]
          intro u hu
          obtain ⟨c1, c2, c3, c4⟩ := hu
          have hj2 : 2 * (j / 2) = j := by omega
          rw [hj2, ] at c1
          rcases hold with hold | hold
          · rw [hold] at c1
            have huB : u = s.b := by omega
            subst huB
            unfold cross at c3
            omega
          · rw [hold] at c1
            have huκ : u = κ := by omega
            subst huκ
            -- reciprocal would need s.A (2*κ) = 2*(j/2), but it is 2*s.b
            have := hch.2.2.2
            omega
        rw [read_impl_uca_none s j (by omega) hnone,
            read_impl_uca_none (extend s).1 j (by omega) (by rw [hstat]; exact hnone)]
        exact hiv1

end InPlaceArraySec3

namespace InPlaceArraySec3

/-! ### The two relocation write paths, characterized over the resulting cells -/

/-- The effect of the fresh-chain write path (UCA block, unchained): after
`initBlock bi; makeChain bk2 bi` and the write-through, in a state `sY` whose
cells are as those operations leave them, index `i` reads `v` and every other
index is unchanged relative to the pre-path state `s1`. -/
theorem write_effect_fresh_finish (s1 sY : InPlaceArraySec3) (i : Nat) (v : Int) (bk2 : Nat)
    (hiN : i < s1.N) (hbi : s1.b ≤ i / 2)
    (hk1 : chainedTo_block s1 (i / 2) = none)
    (hbk2 : chainedTo_block s1 bk2 = none) (hbk2b : bk2 < s1.b) (h2bk2 : 2 * bk2 < s1.N)
    (hA0 : s1.A (2 * bk2) = s1.initv) (hA1 : s1.A (2 * bk2 + 1) = s1.initv)
    (hYb : sY.b = s1.b) (hYN : sY.N = s1.N) (hYiv : sY.initv = s1.initv)
    (hYc0 : sY.A (2 * (i / 2)) = ((2 * bk2 : Nat) : Int))
    (hYc1 : sY.A (2 * bk2) = ((2 * (i / 2) : Nat) : Int))
    (hYpart : sY.A (2 * bk2 + 1) = (if i % 2 = 0 then v else s1.A (2 * bk2 + 1)))
    (hYown : ∀ j, j / 2 = i / 2 → ¬ j = i → j % 2 = 1 → sY.A j = s1.initv)
    (hYi : i % 2 = 1 → sY.A i = v)
    (hYother : ∀ j, ¬ j / 2 = i / 2 → ¬ j / 2 = bk2 → sY.A j = s1.A j) :
    ∀ j, j < s1.N →
      read_impl sY j = if j = i then v else read_impl s1 j := by
  have hBk : ¬ i / 2 = bk2 := by omega
  have hstatB : chainedTo_block sY (i / 2) = some bk2 := by
    rw [chainedTo_some_iff, hYN, hYb]
    exact ⟨hYc0, h2bk2, Or.inr ⟨hbk2b, hbi⟩, hYc1⟩
  have hstatk : chainedTo_block sY bk2 = some (i / 2) :=
    chainedTo_symm sY (i / 2) bk2 (by rw [hYN]; omega) hstatB
  have hstatg : ∀ t, ¬ t = i / 2 → ¬ t = bk2 → 2 * t < s1.N →
      chainedTo_block sY t = chainedTo_block s1 t := by
    intro t ht hk ht2
    apply chainedTo_congr s1 sY t hYN
    intro u hu
    by_cases huB : u = i / 2
    · subst huB
      constructor
      · rintro ⟨c1, c2, c3⟩
        exact absurd ⟨c1, c2, c3⟩ (congr_aux_unchained s1 (i / 2) t hk1 ht2)
      · rintro ⟨c1, c2, c3⟩
        exact absurd ⟨c1, c2, c3⟩
          (congr_aux_chained sY (i / 2) bk2 t hstatB hk (by rw [hYN]; exact ht2))
    · by_cases huk : u = bk2
      · rw [huk]
        constructor
        · rintro ⟨c1, c2, c3⟩
          exact absurd ⟨c1, c2, c3⟩ (congr_aux_unchained s1 bk2 t hbk2 ht2)
        · rintro ⟨c1, c2, c3⟩
          exact absurd ⟨c1, c2, c3⟩
            (congr_aux_chained sY bk2 (i / 2) t hstatk ht (by rw [hYN]; exact ht2))
      · rw [hYb, hYother (2 * t) (by omega) (by omega), hYother (2 * u) (by omega) (by omega)]
  intro j hj
  by_cases hji : j = i
  · subst hji
    rw [if_pos rfl]
    by_cases hpar : j % 2 = 0
    · rw [read_impl_uca_some_even sY j bk2 (by omega) hpar hstatB, hYpart, if_pos hpar]
    · rw [read_impl_uca_some_odd sY j bk2 (by omega) (by omega) hstatB]
      exact hYi (by omega)
  · rw [if_neg hji]
    by_cases hjB : j / 2 = i / 2
    · by_cases hpar : i % 2 = 0
      · have hjodd : j % 2 = 1 := by omega
        rw [read_impl_uca_some_odd sY j bk2 (by omega) hjodd (by rw [hjB]; exact hstatB),
            read_impl_uca_none s1 j (by omega) (by rw [hjB]; exact hk1)]
        exact hYown j hjB hji hjodd
      · have hjeven : j % 2 = 0 := by omega
        rw [read_impl_uca_some_even sY j bk2 (by omega) hjeven (by rw [hjB]; exact hstatB),
            read_impl_uca_none s1 j (by omega) (by rw [hjB]; exact hk1),
            hYpart, if_neg hpar]
        exact hA1
    · by_cases hjk : j / 2 = bk2
      · rw [read_impl_wca_some sY j (i / 2) (by omega) (by rw [hjk]; exact hstatk),
            read_impl_wca_none s1 j (by omega) (by rw [hjk]; exact hbk2), hYiv]
        have hj2 : j = 2 * bk2 ∨ j = 2 * bk2 + 1 := by omega
        rcases hj2 with hj2 | hj2 <;> rw [hj2]
        · exact hA0.symm
        · exact hA1.symm
      · apply read_impl_congr s1 sY j (hstatg (j / 2) hjB hjk (by omega)) (by rw [hYb]) hYiv
        · exact hYother j hjB hjk
        · intro u hu
          have huB : ¬ u = i / 2 := by
            intro hc
            rw [hc] at hu
            have h2 := chainedTo_symm s1 (j / 2) (i / 2) (by omega) hu
            rw [hk1] at h2
            exact Option.noConfusion h2
          have huk : ¬ u = bk2 := by
            intro hc
            rw [hc] at hu
            have h2 := chainedTo_symm s1 (j / 2) bk2 (by omega) hu
            rw [hbk2] at h2
            exact Option.noConfusion h2
          exact hYother (2 * u + 1) (by omega) (by omega)

/-- The effect of the relocation write path (WCA block, chained): the chained
block `i/2` is swapped with the freed boundary block `bj`, the chain is
re-formed from `bj` to the old partner `kk`, `i/2` is re-initialized and
written, and the final defensive `breakChain` removes any spurious chain the
written value may form.  In any state `sY` whose cells are as those operations
leave them, index `i` reads `v` after that `breakChain` and every other index
is unchanged relative to `s1`. -/
theorem write_effect_swap_finish (s1 sY : InPlaceArraySec3) (i : Nat) (v : Int) (bj kk : Nat)
    (hiN : i < s1.N) (hbi : i / 2 < s1.b)
    (hk1 : chainedTo_block s1 (i / 2) = some kk)
    (hbj : chainedTo_block s1 bj = none) (hbjb : bj < s1.b) (hbjB : ¬ bj = i / 2)
    (h2bj : 2 * bj < s1.N)
    (hA0 : s1.A (2 * bj) = s1.initv) (hA1 : s1.A (2 * bj + 1) = s1.initv)
    (hYb : sY.b = s1.b) (hYN : sY.N = s1.N) (hYiv : sY.initv = s1.initv)
    (hYi : sY.A i = v)
    (hYown : ∀ j, j / 2 = i / 2 → ¬ j = i → sY.A j = s1.initv)
    (hYbj0 : sY.A (2 * bj) = ((2 * kk : Nat) : Int))
    (hYbj1 : sY.A (2 * bj + 1) = s1.A (2 * (i / 2) + 1))
    (hYkk0 : sY.A (2 * kk) = ((2 * bj : Nat) : Int))
    (hYkk1 : sY.A (2 * kk + 1) = s1.A (2 * kk + 1))
    (hYother : ∀ j, ¬ j / 2 = i / 2 → ¬ j / 2 = bj → ¬ j = 2 * kk → sY.A j = s1.A j) :
    ∀ j, j < s1.N →
      read_impl (breakChain sY (i / 2)) j = if j = i then v else read_impl s1 j := by
  have hkk := (chainedTo_some_iff s1 (i / 2) kk).mp hk1
  have hkkb : s1.b ≤ kk := by
    have hcr := hkk.2.2.1
    unfold cross at hcr
    omega
  have h2kk : 2 * kk < s1.N := hkk.2.1
  have hsy1 := chainedTo_symm s1 (i / 2) kk (by omega) hk1
  have hstatbj : chainedTo_block sY bj = some kk := by
    rw [chainedTo_some_iff, hYN, hYb]
    exact ⟨hYbj0, h2kk, Or.inl ⟨hbjb, hkkb⟩, hYkk0⟩
  have hstatkk : chainedTo_block sY kk = some bj :=
    chainedTo_symm sY bj kk (by rw [hYN]; omega) hstatbj
  -- a collateral victim of the defensive breakChain is a UCA block other than
  -- bj and kk, held by a stale aligned pointer, hence unchained in s1
  have hbrk : ∀ p, chainedTo_block sY (i / 2) = some p →
      s1.b ≤ p ∧ ¬ p = kk ∧ ¬ p = bj ∧ 2 * p < s1.N ∧
      s1.A (2 * p) = ((2 * (i / 2) : Nat) : Int) ∧ chainedTo_block s1 p = none := by
    intro p hp
    have hiff := (chainedTo_some_iff sY (i / 2) p).mp hp
    have hpb : s1.b ≤ p := by
      have hcr := hiff.2.2.1
      rw [hYb] at hcr
      unfold cross at hcr
      omega
    have hpkk : ¬ p = kk := by
      intro hc
      rw [hc] at hiff
      have h4 := hiff.2.2.2
      rw [hYkk0] at h4
      omega
    have hpbj : ¬ p = bj := by omega
    have hpN : 2 * p < s1.N := by rw [← hYN]; exact hiff.2.1
    have hrec : s1.A (2 * p) = ((2 * (i / 2) : Nat) : Int) := by
      have h4 := hiff.2.2.2
      rw [hYother (2 * p) (by omega) (by omega) (by omega)] at h4
      exact h4
    refine ⟨hpb, hpkk, hpbj, hpN, hrec, ?_⟩
    rw [chainedTo_none_iff]
    intro u hu
    obtain ⟨c1, c2, c3, c4⟩ := hu
    have huB : u = i / 2 := by
      have := hrec
      omega
    subst huB
    have hchain : chainedTo_block s1 (i / 2) = some p := by
      rw [chainedTo_some_iff]
      exact ⟨c4, hpN, cross_symm c3, c1⟩
    rw [hk1] at hchain
    exact hpkk (Option.some.inj hchain).symm
  have hFA : ∀ j, (∀ p, chainedTo_block sY (i / 2) = some p → ¬ j = 2 * p) →
      (breakChain sY (i / 2)).A j = sY.A j := by
    intro j hp
    exact breakChain_A_frame sY (i / 2) j (fun p h => hp p h)
  have hFb : (breakChain sY (i / 2)).b = s1.b := by rw [breakChain_b, hYb]
  have hFiv : (breakChain sY (i / 2)).initv = s1.initv := by rw [breakChain_initv, hYiv]
  have hFstatB : chainedTo_block (breakChain sY (i / 2)) (i / 2) = none :=
    chainedTo_breakChain_self sY (i / 2)
  have hFstatbj : chainedTo_block (breakChain sY (i / 2)) bj = some kk := by
    rw [chainedTo_breakChain_other sY (i / 2) bj hbjB
      (by intro hc; obtain ⟨hpb, _, _, _, _, _⟩ := hbrk bj hc; omega)]
    exact hstatbj
  have hFstatkk : chainedTo_block (breakChain sY (i / 2)) kk = some bj := by
    rw [chainedTo_breakChain_other sY (i / 2) kk (by omega)
      (by intro hc; obtain ⟨_, hpkk, _, _, _, _⟩ := hbrk kk hc; exact hpkk rfl)]
    exact hstatkk
  have hstatg : ∀ t, ¬ t = i / 2 → ¬ t = bj → ¬ t = kk → 2 * t < s1.N →
      ¬ chainedTo_block sY (i / 2) = some t →
      chainedTo_block sY t = chainedTo_block s1 t := by
    intro t ht htbj htkk ht2 hexcl
    apply chainedTo_congr s1 sY t hYN
    intro u hu
    by_cases huB : u = i / 2
    · subst huB
      constructor
      · rintro ⟨c1, c2, c3⟩
        exact absurd ⟨c1, c2, c3⟩ (congr_aux_chained s1 (i / 2) kk t hk1 htkk ht2)
      · rintro ⟨c1, c2, c3⟩
        have hsp : chainedTo_block sY t = some (i / 2) := by
          rw [chainedTo_some_iff]
          exact ⟨c3, by rw [hYN]; omega, c1, c2⟩
        exact (hexcl (chainedTo_symm sY t (i / 2) (by rw [hYN]; exact ht2) hsp)).elim
    · by_cases hubj : u = bj
      · rw [hubj]
        constructor
        · rintro ⟨c1, c2, c3⟩
          exact absurd ⟨c1, c2, c3⟩ (congr_aux_unchained s1 bj t hbj ht2)
        · rintro ⟨c1, c2, c3⟩
          exact absurd ⟨c1, c2, c3⟩
            (congr_aux_chained sY bj kk t hstatbj htkk (by rw [hYN]; exact ht2))
      · by_cases hukk : u = kk
        · rw [hukk]
          constructor
          · rintro ⟨c1, c2, c3⟩
            exact absurd ⟨c1, c2, c3⟩ (congr_aux_chained s1 kk (i / 2) t hsy1 ht ht2)
          · rintro ⟨c1, c2, c3⟩
            exact absurd ⟨c1, c2, c3⟩
              (congr_aux_chained sY kk bj t hstatkk htbj (by rw [hYN]; exact ht2))
        · rw [hYb, hYother (2 * t) (by omega) (by omega) (by omega),
              hYother (2 * u) (by omega) (by omega) (by omega)]
  intro j hj
  by_cases hji : j = i
  · subst hji
    rw [if_pos rfl,
        read_impl_wca_none (breakChain sY (j / 2)) j (by rw [hFb]; omega) hFstatB,
        hFA j (by intro p hp hc; have := (hbrk p hp).1; omega), hYi]
  · rw [if_neg hji]
    by_cases hjB : j / 2 = i / 2
    · rw [read_impl_wca_none (breakChain sY (i / 2)) j
          (by rw [hFb]; omega) (by rw [hjB]; exact hFstatB),
          read_impl_wca_some s1 j kk (by omega) (by rw [hjB]; exact hk1),
          hFA j (by intro p hp hc; have := (hbrk p hp).1; omega)]
      exact hYown j hjB hji
    · by_cases hjbj : j / 2 = bj
      · rw [read_impl_wca_some (breakChain sY (i / 2)) j kk
            (by rw [hFb]; omega) (by rw [hjbj]; exact hFstatbj),
            read_impl_wca_none s1 j (by omega) (by rw [hjbj]; exact hbj), hFiv]
        have hj2 : j = 2 * bj ∨ j = 2 * bj + 1 := by omega
        rcases hj2 with hj2 | hj2 <;> rw [hj2]
        · exact hA0.symm
        · exact hA1.symm
      · by_cases hjkk : j / 2 = kk
        · by_cases hpar : j % 2 = 0
          · rw [read_impl_uca_some_even (breakChain sY (i / 2)) j bj
                (by rw [hFb]; omega) hpar (by rw [hjkk]; exact hFstatkk),
                read_impl_uca_some_even s1 j (i / 2) (by omega) hpar
                  (by rw [hjkk]; exact hsy1),
                hFA (2 * bj + 1) (by intro p hp hc; omega), hYbj1]
          · rw [read_impl_uca_some_odd (breakChain sY (i / 2)) j bj
                (by rw [hFb]; omega) (by omega) (by rw [hjkk]; exact hFstatkk),
                read_impl_uca_some_odd s1 j (i / 2) (by omega) (by omega)
                  (by rw [hjkk]; exact hsy1),
                hFA j (by intro p hp hc; omega)]
            rw [show j = 2 * kk + 1 from by omega]
            exact hYkk1
        · cases hcF : chainedTo_block sY (i / 2) with
          | none =>
              rw [breakChain_of_none sY (i / 2) hcF]
              apply read_impl_congr s1 sY j
                (hstatg (j / 2) hjB hjbj hjkk (by omega)
                  (by rw [hcF]; exact fun h => Option.noConfusion h))
                (by rw [hYb]) hYiv (hYother j hjB hjbj (by omega))
              intro u hu
              have huB : ¬ u = i / 2 := by
                intro hc
                rw [hc] at hu
                have h2 := chainedTo_symm s1 (j / 2) (i / 2) (by omega) hu
                rw [hk1] at h2
                exact hjkk (Option.some.inj h2).symm
              have hubj : ¬ u = bj := by
                intro hc
                rw [hc] at hu
                have h2 := chainedTo_symm s1 (j / 2) bj (by omega) hu
                rw [hbj] at h2
                exact Option.noConfusion h2
              exact hYother (2 * u + 1) (by omega) (by omega) (by omega)
          | some p =>
              obtain ⟨hpb, hpkk, hpbj, hpN, hrec, hpnone⟩ := hbrk p hcF
              by_cases hjp : j / 2 = p
              · rw [read_impl_uca_none s1 j (by omega) (by rw [hjp]; exact hpnone),
                    read_impl_uca_none (breakChain sY (i / 2)) j (by rw [hFb]; omega)
                      (by rw [hjp]; exact chainedTo_breakChain_partner sY (i / 2) p hcF)]
                exact hFiv
              · have hexcl : ¬ chainedTo_block sY (i / 2) = some (j / 2) := by
                  rw [hcF]
                  intro hc
                  exact hjp (Option.some.inj hc).symm
                have hstat2 : chainedTo_block (breakChain sY (i / 2)) (j / 2) =
                    chainedTo_block s1 (j / 2) := by
                  rw [chainedTo_breakChain_other sY (i / 2) (j / 2) hjB hexcl]
                  exact hstatg (j / 2) hjB hjbj hjkk (by omega) hexcl
                have hjfr : (breakChain sY (i / 2)).A j = sY.A j := by
                  apply hFA j
                  intro q hq hc
                  rw [hcF] at hq
                  have hqp := Option.some.inj hq
                  omega
                apply read_impl_congr s1 (breakChain sY (i / 2)) j hstat2
                  (by rw [hFb]) hFiv
                · rw [hjfr]
                  exact hYother j hjB hjbj (by omega)
                · intro u hu
                  have huB : ¬ u = i / 2 := by
                    intro hc
                    rw [hc] at hu
                    have h2 := chainedTo_symm s1 (j / 2) (i / 2) (by omega) hu
                    rw [hk1] at h2
                    exact hjkk (Option.some.inj h2).symm
                  have hubj : ¬ u = bj := by
                    intro hc
                    rw [hc] at hu
                    have h2 := chainedTo_symm s1 (j / 2) bj (by omega) hu
                    rw [hbj] at h2
                    exact Option.noConfusion h2
                  rw [hFA (2 * u + 1) (by intro q hq hc; omega)]
                  exact hYother (2 * u + 1) (by omega) (by omega) (by omega)

end InPlaceArraySec3

namespace InPlaceArraySec3

/-- The fresh-chain write path at its concrete post-`extend` term: the
`initBlock; makeChain; write-through` sequence of `write_impl`'s UCA-unchained
branch realizes the point update. -/
theorem write_effect_fresh_path (s1 : InPlaceArraySec3) (i : Nat) (v : Int) (bk2 : Nat)
    (hiN : i < s1.N) (hbi : s1.b ≤ i / 2)
    (hk1 : chainedTo_block s1 (i / 2) = none)
    (hbk2 : chainedTo_block s1 bk2 = none) (hbk2b : bk2 < s1.b) (h2bk2 : 2 * bk2 < s1.N)
    (hA0 : s1.A (2 * bk2) = s1.initv) (hA1 : s1.A (2 * bk2 + 1) = s1.initv) :
    ∀ j, j < s1.N →
      read_impl (if i % 2 = 0 then
          { makeChain (initBlock s1 (i / 2)) bk2 (i / 2) with
            A := upd (makeChain (initBlock s1 (i / 2)) bk2 (i / 2)).A (2 * bk2 + 1) v }
        else
          { makeChain (initBlock s1 (i / 2)) bk2 (i / 2) with
            A := upd (makeChain (initBlock s1 (i / 2)) bk2 (i / 2)).A i v }) j =
      if j = i then v else read_impl s1 j := by
  by_cases hpar : i % 2 = 0
  · rw [if_pos hpar]
    set sY : InPlaceArraySec3 := { makeChain (initBlock s1 (i / 2)) bk2 (i / 2) with
        A := upd (makeChain (initBlock s1 (i / 2)) bk2 (i / 2)).A (2 * bk2 + 1) v } with hsY
    have hYA : sY.A = upd (upd (upd (upd (upd s1.A (2 * (i / 2)) s1.initv)
        (2 * (i / 2) + 1) s1.initv) (2 * bk2) ((2 * (i / 2) : Nat) : Int))
        (2 * (i / 2)) ((2 * bk2 : Nat) : Int)) (2 * bk2 + 1) v := rfl
    apply write_effect_fresh_finish s1 sY i v bk2 hiN hbi hk1 hbk2 hbk2b h2bk2 hA0 hA1
      rfl rfl rfl
    · rw [hYA, upd_ne _ _ _ _ (by omega), upd_at]
    · rw [hYA, upd_ne _ _ _ _ (by omega), upd_ne _ _ _ _ (by omega), upd_at]
    · rw [hYA, upd_at, if_pos hpar]
    · intro j h1 h2 h3
      rw [hYA, upd_ne _ _ _ _ (by omega), upd_ne _ _ _ _ (by omega),
          upd_ne _ _ _ _ (by omega), show j = 2 * (i / 2) + 1 from by omega, upd_at]
    · intro h
      exact absurd h (by omega)
    · intro j h1 h2
      rw [hYA, upd_ne _ _ _ _ (by omega), upd_ne _ _ _ _ (by omega),
          upd_ne _ _ _ _ (by omega), upd_ne _ _ _ _ (by omega), upd_ne _ _ _ _ (by omega)]
  · rw [if_neg hpar]
    set sY : InPlaceArraySec3 := { makeChain (initBlock s1 (i / 2)) bk2 (i / 2) with
        A := upd (makeChain (initBlock s1 (i / 2)) bk2 (i / 2)).A i v } with hsY
    have hYA : sY.A = upd (upd (upd (upd (upd s1.A (2 * (i / 2)) s1.initv)
        (2 * (i / 2) + 1) s1.initv) (2 * bk2) ((2 * (i / 2) : Nat) : Int))
        (2 * (i / 2)) ((2 * bk2 : Nat) : Int)) i v := rfl
    apply write_effect_fresh_finish s1 sY i v bk2 hiN hbi hk1 hbk2 hbk2b h2bk2 hA0 hA1
      rfl rfl rfl
    · rw [hYA, upd_ne _ _ _ _ (by omega), upd_at]
    · rw [hYA, upd_ne _ _ _ _ (by omega), upd_ne _ _ _ _ (by omega), upd_at]
    · rw [hYA, upd_ne _ _ _ _ (by omega), upd_ne _ _ _ _ (by omega),
          upd_ne _ _ _ _ (by omega), upd_ne _ _ _ _ (by omega), upd_ne _ _ _ _ (by omega),
          if_neg hpar]
    · intro j h1 h2 h3
      exact absurd (show j = i from by omega) h2
    · intro h
      rw [hYA, upd_at]
    · intro j h1 h2
      rw [hYA, upd_ne _ _ _ _ (by omega), upd_ne _ _ _ _ (by omega),
          upd_ne _ _ _ _ (by omega), upd_ne _ _ _ _ (by omega), upd_ne _ _ _ _ (by omega)]

/-- The relocation write path at its concrete post-`extend` term: the
`swap; makeChain; initBlock; write; breakChain` sequence of `write_impl`'s
WCA-chained branch realizes the point update. -/
theorem write_effect_swap_path (s1 : InPlaceArraySec3) (i : Nat) (v : Int) (bj kk : Nat)
    (hiN : i < s1.N) (hbi : i / 2 < s1.b)
    (hk1 : chainedTo_block s1 (i / 2) = some kk)
    (hbj : chainedTo_block s1 bj = none) (hbjb : bj < s1.b) (hbjB : ¬ bj = i / 2)
    (h2bj : 2 * bj < s1.N)
    (hA0 : s1.A (2 * bj) = s1.initv) (hA1 : s1.A (2 * bj + 1) = s1.initv) :
    ∀ j, j < s1.N →
      read_impl (breakChain
        { initBlock (makeChain
            { s1 with
              A := upd (upd
                     (upd (upd s1.A (2 * bj) (s1.A (2 * (i / 2)))) (2 * (i / 2))
                       (s1.A (2 * bj)))
                     (2 * bj + 1)
                     (upd (upd s1.A (2 * bj) (s1.A (2 * (i / 2)))) (2 * (i / 2))
                       (s1.A (2 * bj)) (2 * (i / 2) + 1)))
                   (2 * (i / 2) + 1)
                   (upd (upd s1.A (2 * bj) (s1.A (2 * (i / 2)))) (2 * (i / 2))
                     (s1.A (2 * bj)) (2 * bj + 1)),
              ctr := { s1.ctr with relocations := s1.ctr.relocations + 1 } }
            bj kk) (i / 2) with
          A := upd (initBlock (makeChain
            { s1 with
              A := upd (upd
                     (upd (upd s1.A (2 * bj) (s1.A (2 * (i / 2)))) (2 * (i / 2))
                       (s1.A (2 * bj)))
                     (2 * bj + 1)
                     (upd (upd s1.A (2 * bj) (s1.A (2 * (i / 2)))) (2 * (i / 2))
                       (s1.A (2 * bj)) (2 * (i / 2) + 1)))
                   (2 * (i / 2) + 1)
                   (upd (upd s1.A (2 * bj) (s1.A (2 * (i / 2)))) (2 * (i / 2))
                     (s1.A (2 * bj)) (2 * bj + 1)),
              ctr := { s1.ctr with relocations := s1.ctr.relocations + 1 } }
            bj kk) (i / 2)).A i v }
        (i / 2)) j =
      if j = i then v else read_impl s1 j := by
  have hkk := (chainedTo_some_iff s1 (i / 2) kk).mp hk1
  have hkkb : s1.b ≤ kk := by
    have hcr := hkk.2.2.1
    unfold cross at hcr
    omega
  have h2kk : 2 * kk < s1.N := hkk.2.1
  set a2 : Nat → Int :=
    upd (upd s1.A (2 * bj) (s1.A (2 * (i / 2)))) (2 * (i / 2)) (s1.A (2 * bj)) with ha2
  set a3 : Nat → Int :=
    upd (upd a2 (2 * bj + 1) (a2 (2 * (i / 2) + 1))) (2 * (i / 2) + 1) (a2 (2 * bj + 1))
    with ha3
  set s2 : InPlaceArraySec3 :=
    { s1 with A := a3, ctr := { s1.ctr with relocations := s1.ctr.relocations + 1 } }
    with hs2
  set s4 : InPlaceArraySec3 := initBlock (makeChain s2 bj kk) (i / 2) with hs4
  set sX : InPlaceArraySec3 := { s4 with A := upd s4.A i v } with hsX
  have hXA : sX.A = upd (upd (upd (upd (upd a3 (2 * bj) ((2 * kk : Nat) : Int))
      (2 * kk) ((2 * bj : Nat) : Int)) (2 * (i / 2)) s1.initv)
      (2 * (i / 2) + 1) s1.initv) i v := rfl
  have ha2B1 : a2 (2 * (i / 2) + 1) = s1.A (2 * (i / 2) + 1) := by
    rw [ha2, upd_ne _ _ _ _ (by omega), upd_ne _ _ _ _ (by omega)]
  have ha2other : ∀ j, ¬ j / 2 = i / 2 → ¬ j / 2 = bj → a2 j = s1.A j := by
    intro j h1 h2
    rw [ha2, upd_ne _ _ _ _ (by omega), upd_ne _ _ _ _ (by omega)]
  have ha3bj1 : a3 (2 * bj + 1) = s1.A (2 * (i / 2) + 1) := by
    rw [ha3, upd_ne _ _ _ _ (by omega), upd_at, ha2B1]
  have ha3other : ∀ j, ¬ j / 2 = i / 2 → ¬ j / 2 = bj → a3 j = s1.A j := by
    intro j h1 h2
    rw [ha3, upd_ne _ _ _ _ (by omega), upd_ne _ _ _ _ (by omega), ha2other j h1 h2]
  apply write_effect_swap_finish s1 sX i v bj kk hiN hbi hk1 hbj hbjb hbjB h2bj hA0 hA1
    rfl rfl rfl
  · rw [hXA, upd_at]
  · intro j h1 h2
    rw [hXA, upd_ne _ _ _ _ h2]
    rcases (show j = 2 * (i / 2) ∨ j = 2 * (i / 2) + 1 from by omega) with h | h
    · rw [h, upd_ne _ _ _ _ (by omega), upd_at]
    · rw [h, upd_at]
  · rw [hXA, upd_ne _ _ _ _ (by omega), upd_ne _ _ _ _ (by omega),
        upd_ne _ _ _ _ (by omega), upd_ne _ _ _ _ (by omega), upd_at]
  · rw [hXA, upd_ne _ _ _ _ (by omega), upd_ne _ _ _ _ (by omega),
        upd_ne _ _ _ _ (by omega), upd_ne _ _ _ _ (by omega), upd_ne _ _ _ _ (by omega),
        ha3bj1]
  · rw [hXA, upd_ne _ _ _ _ (by omega), upd_ne _ _ _ _ (by omega),
        upd_ne _ _ _ _ (by omega), upd_at]
  · rw [hXA, upd_ne _ _ _ _ (by omega), upd_ne _ _ _ _ (by omega),
        upd_ne _ _ _ _ (by omega), upd_ne _ _ _ _ (by omega), upd_ne _ _ _ _ (by omega)]
    rw [ha3, upd_ne _ _ _ _ (by omega), upd_ne _ _ _ _ (by omega),
        ha2other (2 * kk + 1) (by omega) (by omega)]
  · intro j h1 h2 h3
    rw [hXA, upd_ne _ _ _ _ (by omega), upd_ne _ _ _ _ (by omega),
        upd_ne _ _ _ _ (by omega), upd_ne _ _ _ _ h3, upd_ne _ _ _ _ (by omega),
        ha3other j h1 h2]

end InPlaceArraySec3

namespace InPlaceArraySec3

/-! ### Branch 2/3/4: WCA block, chained (extend then relocate) -/

theorem write_effect_wca_some (s : InPlaceArraySec3) (i : Nat) (v : Int) (kk : Nat)
    (hi : i < s.N) (hbi : i / 2 < s.b) (hk : chainedTo_block s (i / 2) = some kk) :
    ∀ j, j < s.N → read_impl (write_impl s i v) j = if j = i then v else read_impl s j := by
  have hkkiff := (chainedTo_some_iff s (i / 2) kk).mp hk
  have hkkb : s.b ≤ kk := by
    have hcr := hkkiff.2.2.1
    unfold cross at hcr
    omega
  have h2kk : 2 * kk < s.N := hkkiff.2.1
  have hbN2 : 2 * s.b < s.N := by omega
  have hN1 : (extend s).1.N = s.N := extend_N s
  have hb1 : (extend s).1.b = s.b + 1 := extend_b s
  have hiv1 : (extend s).1.initv = s.initv := extend_initv s
  have hw : write_impl s i v =
      (if (extend s).2 = i / 2 then
        breakChain { (extend s).1 with A := upd (extend s).1.A i v } (i / 2)
      else
        breakChain
          { initBlock (makeChain
              { (extend s).1 with
                A := upd (upd
                       (upd (upd (extend s).1.A (2 * (extend s).2)
                           ((extend s).1.A (2 * (i / 2)))) (2 * (i / 2))
                         ((extend s).1.A (2 * (extend s).2)))
                       (2 * (extend s).2 + 1)
                       (upd (upd (extend s).1.A (2 * (extend s).2)
                           ((extend s).1.A (2 * (i / 2)))) (2 * (i / 2))
                         ((extend s).1.A (2 * (extend s).2)) (2 * (i / 2) + 1)))
                     (2 * (i / 2) + 1)
                     (upd (upd (extend s).1.A (2 * (extend s).2)
                         ((extend s).1.A (2 * (i / 2)))) (2 * (i / 2))
                       ((extend s).1.A (2 * (extend s).2)) (2 * (extend s).2 + 1)),
                ctr := { (extend s).1.ctr with
                         relocations := (extend s).1.ctr.relocations + 1 } }
              (extend s).2 kk) (i / 2) with
            A := upd (initBlock (makeChain
              { (extend s).1 with
                A := upd (upd
                       (upd (upd (extend s).1.A (2 * (extend s).2)
                           ((extend s).1.A (2 * (i / 2)))) (2 * (i / 2))
                         ((extend s).1.A (2 * (extend s).2)))
                       (2 * (extend s).2 + 1)
                       (upd (upd (extend s).1.A (2 * (extend s).2)
                           ((extend s).1.A (2 * (i / 2)))) (2 * (i / 2))
                         ((extend s).1.A (2 * (extend s).2)) (2 * (i / 2) + 1)))
                     (2 * (i / 2) + 1)
                     (upd (upd (extend s).1.A (2 * (extend s).2)
                         ((extend s).1.A (2 * (i / 2)))) (2 * (i / 2))
                       ((extend s).1.A (2 * (extend s).2)) (2 * (extend s).2 + 1)),
                ctr := { (extend s).1.ctr with
                         relocations := (extend s).1.ctr.relocations + 1 } }
              (extend s).2 kk) (i / 2)).A i v }
          (i / 2)) := by
    simp only [write_impl, block_of]
    rw [hk, if_pos hbi]
    rfl
  cases hE : chainedTo_block s s.b with
  | none =>
      obtain ⟨hret, hA0b, hA1b, hframe, hbnd⟩ := extend_none_spec s hE
      rw [hret, if_neg (by omega : ¬ s.b = i / 2)] at hw
      intro j hj
      rw [hw, ← extend_none_read s hE j hj]
      exact write_effect_swap_path (extend s).1 i v s.b kk (by omega) (by omega)
        (by rw [extend_none_status s hE (i / 2) (by omega) (by omega)]; exact hk)
        hbnd (by omega) (by omega) (by omega)
        (by rw [hiv1]; exact hA0b) (by rw [hiv1]; exact hA1b) j (by omega)
  | some κ =>
      obtain ⟨hret, hκb, hc0, hc1, hcκ0, hcκ1, hrel, hframe, hbnd, hκnd⟩ :=
        extend_some_spec s κ hE
      rw [hret] at hw
      by_cases hbeq : κ = i / 2
      · rw [if_pos hbeq] at hw
        have hk1 : chainedTo_block (extend s).1 (i / 2) = none := by
          rw [← hbeq]
          exact hκnd
        have hw2 : breakChain { (extend s).1 with A := upd (extend s).1.A i v } (i / 2) =
            write_impl (extend s).1 i v := by
          symm
          simp only [write_impl, block_of]
          rw [hk1, if_pos (by omega)]
        intro j hj
        rw [hw, hw2,
            write_effect_wca_none (extend s).1 i v (by omega) (by omega) hk1 j (by omega),
            extend_some_read s κ hE hbN2 j hj]
      · rw [if_neg hbeq] at hw
        intro j hj
        rw [hw, ← extend_some_read s κ hE hbN2 j hj]
        exact write_effect_swap_path (extend s).1 i v κ kk (by omega) (by omega)
          (by rw [extend_some_status s κ hE hbN2 (i / 2) (by omega) (by omega) (by omega)];
              exact hk)
          hκnd (by omega) (by omega) (by omega)
          (by rw [hiv1]; exact hcκ0) (by rw [hiv1]; exact hcκ1) j (by omega)

/-! ### Branch 6/7: UCA block, unchained (extend then chain afresh) -/

theorem write_effect_uca_none (s : InPlaceArraySec3) (i : Nat) (v : Int)
    (hi : i < s.N) (hbi : ¬ i / 2 < s.b) (hk : chainedTo_block s (i / 2) = none) :
    ∀ j, j < s.N → read_impl (write_impl s i v) j = if j = i then v else read_impl s j := by
  have hN1 : (extend s).1.N = s.N := extend_N s
  have hb1 : (extend s).1.b = s.b + 1 := extend_b s
  have hiv1 : (extend s).1.initv = s.initv := extend_initv s
  have hw : write_impl s i v =
      (if (extend s).2 = i / 2 then
        breakChain { (extend s).1 with A := upd (extend s).1.A i v } (i / 2)
      else
        if i % 2 = 0 then
          { makeChain (initBlock (extend s).1 (i / 2)) (extend s).2 (i / 2) with
            A := upd (makeChain (initBlock (extend s).1 (i / 2)) (extend s).2 (i / 2)).A
                   (2 * (extend s).2 + 1) v }
        else
          { makeChain (initBlock (extend s).1 (i / 2)) (extend s).2 (i / 2) with
            A := upd (makeChain (initBlock (extend s).1 (i / 2)) (extend s).2 (i / 2)).A
                   i v }) := by
    simp only [write_impl, block_of]
    rw [hk, if_neg hbi]
    rfl
  cases hE : chainedTo_block s s.b with
  | none =>
      obtain ⟨hret, hA0b, hA1b, hframe, hbnd⟩ := extend_none_spec s hE
      rw [hret] at hw
      by_cases hbeq : s.b = i / 2
      · rw [if_pos hbeq] at hw
        have hk1 : chainedTo_block (extend s).1 (i / 2) = none := by
          rw [← hbeq]
          exact hbnd
        have hw2 : breakChain { (extend s).1 with A := upd (extend s).1.A i v } (i / 2) =
            write_impl (extend s).1 i v := by
          symm
          simp only [write_impl, block_of]
          rw [hk1, if_pos (by omega)]
        intro j hj
        rw [hw, hw2,
            write_effect_wca_none (extend s).1 i v (by omega) (by omega) hk1 j (by omega),
            extend_none_read s hE j hj]
      · rw [if_neg hbeq] at hw
        intro j hj
        rw [hw, ← extend_none_read s hE j hj]
        exact write_effect_fresh_path (extend s).1 i v s.b (by omega) (by omega)
          (by rw [extend_none_status s hE (i / 2) (by omega) (by omega)]; exact hk)
          hbnd (by omega) (by omega)
          (by rw [hiv1]; exact hA0b) (by rw [hiv1]; exact hA1b) j (by omega)
  | some κ =>
      obtain ⟨hret, hκb, hc0, hc1, hcκ0, hcκ1, hrel, hframe, hbnd, hκnd⟩ :=
        extend_some_spec s κ hE
      have hne : ¬ i / 2 = s.b := by
        intro hc
        rw [hc] at hk
        rw [hk] at hE
        exact Option.noConfusion hE
      have hbN2 : 2 * s.b < s.N := by omega
      rw [hret, if_neg (by omega : ¬ κ = i / 2)] at hw
      intro j hj
      rw [hw, ← extend_some_read s κ hE hbN2 j hj]
      exact write_effect_fresh_path (extend s).1 i v κ (by omega) (by omega)
        (by rw [extend_some_status s κ hE hbN2 (i / 2) (by omega) (by omega) (by omega)];
            exact hk)
        hκnd (by omega) (by omega)
        (by rw [hiv1]; exact hcκ0) (by rw [hiv1]; exact hcκ1) j (by omega)

/-! ### The full write/read correctness of the Section-3 core -/

/-- `write_impl` realizes a point update of the logical contents, on every
state and every in-range index: after `A[i] := v`, reading `i` yields `v` and
reading any other in-range index is unchanged. -/
theorem write_effect (s : InPlaceArraySec3) (i : Nat) (v : Int) (hi : i < s.N) :
    ∀ j, j < s.N → read_impl (write_impl s i v) j = if j = i then v else read_impl s j := by
  by_cases hbi : i / 2 < s.b
  · cases hk : chainedTo_block s (i / 2) with
    | none => exact write_effect_wca_none s i v hi hbi hk
    | some kk => exact write_effect_wca_some s i v kk hi hbi hk
  · cases hk : chainedTo_block s (i / 2) with
    | none => exact write_effect_uca_none s i v hi hbi hk
    | some kk => exact write_effect_uca_some s i v hi hbi kk hk

end InPlaceArraySec3

/-! ## Toolkit for the Section-4 array -/

namespace InPlaceArraySec4

theorem first_of_eq4 (blk : Nat) : first_of blk = 4 * blk := rfl

theorem makeChain_N4 (s : InPlaceArraySec4) (x y : Nat) : (makeChain s x y).N = s.N := rfl

theorem makeChain_b4 (s : InPlaceArraySec4) (x y : Nat) : (makeChain s x y).b = s.b := rfl

theorem makeChain_initv4 (s : InPlaceArraySec4) (x y : Nat) :
    (makeChain s x y).initv = s.initv := rfl

theorem makeChain_flag4 (s : InPlaceArraySec4) (x y : Nat) : (makeChain s x y).flag = s.flag := rfl

theorem makeChain_N_blocks4 (s : InPlaceArraySec4) (x y : Nat) :
    (makeChain s x y).N_blocks = s.N_blocks := rfl

theorem makeChain_vb4 (s : InPlaceArraySec4) (x y : Nat) : (makeChain s x y).vb = s.vb := rfl

theorem makeChain_A4 (s : InPlaceArraySec4) (x y : Nat) :
    (makeChain s x y).A =
      upd (upd s.A (4 * x) ((4 * y : Nat) : Int)) (4 * y) ((4 * x : Nat) : Int) := rfl

theorem initBlock_N4 (s : InPlaceArraySec4) (x : Nat) : (initBlock s x).N = s.N := rfl

theorem initBlock_b4 (s : InPlaceArraySec4) (x : Nat) : (initBlock s x).b = s.b := rfl

theorem initBlock_initv4 (s : InPlaceArraySec4) (x : Nat) : (initBlock s x).initv = s.initv := rfl

theorem initBlock_flag4 (s : InPlaceArraySec4) (x : Nat) : (initBlock s x).flag = s.flag := rfl

theorem initBlock_N_blocks4 (s : InPlaceArraySec4) (x : Nat) :
    (initBlock s x).N_blocks = s.N_blocks := rfl

theorem initBlock_vb4 (s : InPlaceArraySec4) (x : Nat) : (initBlock s x).vb = s.vb := rfl

theorem initBlock_ctr4 (s : InPlaceArraySec4) (x : Nat) : (initBlock s x).ctr = s.ctr := rfl

theorem initBlock_A4 (s : InPlaceArraySec4) (x : Nat) :
    (initBlock s x).A = upd (upd (upd (upd s.A (4 * x) s.initv) (4 * x + 1) s.initv)
      (4 * x + 2) s.initv) (4 * x + 3) s.initv := rfl

theorem breakChain_N4 (s : InPlaceArraySec4) (x : Nat) : (breakChain s x).N = s.N := by
  unfold breakChain; split <;> rfl

theorem breakChain_b4 (s : InPlaceArraySec4) (x : Nat) : (breakChain s x).b = s.b := by
  unfold breakChain; split <;> rfl

theorem breakChain_initv4 (s : InPlaceArraySec4) (x : Nat) : (breakChain s x).initv = s.initv := by
  unfold breakChain; split <;> rfl

theorem breakChain_flag4 (s : InPlaceArraySec4) (x : Nat) : (breakChain s x).flag = s.flag := by
  unfold breakChain; split <;> rfl

theorem breakChain_N_blocks4 (s : InPlaceArraySec4) (x : Nat) :
    (breakChain s x).N_blocks = s.N_blocks := by
  unfold breakChain; split <;> rfl

theorem breakChain_vb4 (s : InPlaceArraySec4) (x : Nat) : (breakChain s x).vb = s.vb := by
  unfold breakChain; split <;> rfl

theorem breakChain_of_none4 (s : InPlaceArraySec4) (x : Nat)
    (h : chainedTo_block s x = none) : breakChain s x = s := by
  unfold breakChain
  rw [h]

theorem breakChain_A_of_some4 (s : InPlaceArraySec4) (x p : Nat)
    (h : chainedTo_block s x = some p) :
    (breakChain s x).A = upd s.A (4 * p) ((4 * p : Nat) : Int) := by
  unfold breakChain
  rw [h]
  rfl

/-- The Section-4 chain detection characterization: `bi` is detected as chained
to `k` iff the zeroth cell of `bi` holds the aligned in-range pointer `4*k`,
the two blocks are on opposite sides of `b`, and the pointer is reciprocated. -/
theorem chainedTo_some_iff4 (s : InPlaceArraySec4) (bi k : Nat) :
    chainedTo_block s bi = some k ↔
      s.A (4 * bi) = ((4 * k : Nat) : Int) ∧ 4 * k < s.N ∧ cross s.b bi k ∧
        s.A (4 * k) = ((4 * bi : Nat) : Int) := by
  unfold chainedTo_block
  simp only [first_of_eq4]
  constructor
  · intro h
    split at h
    · exact absurd h (by simp)
    · split at h
      · exact absurd h (by simp)
      · split at h
        · exact absurd h (by simp)
        · split at h
          · split at h
            · rename_i h1 h2 h3 hcross hrecip
              injection h with hk
              have he : s.A (4 * bi) = ((4 * k : Nat) : Int) := by omega
              have hlt : 4 * k < s.N := by omega
              have ht : (s.A (4 * bi)).toNat = 4 * k := by omega
              refine ⟨he, hlt, ?_, ?_⟩
              · rw [← hk]; exact hcross
              · rw [ht] at hrecip
                exact hrecip
            · exact absurd h (by simp)
          · exact absurd h (by simp)
  · rintro ⟨h1, h2, h3, h4⟩
    rw [h1]
    have ht : (((4 * k : Nat) : Int)).toNat = 4 * k := by omega
    have hdiv : 4 * k / 4 = k := by omega
    rw [if_neg (by omega), if_neg (by omega), if_neg (by omega), ht, hdiv,
        if_pos h3, if_pos h4]

theorem chainedTo_none_iff4 (s : InPlaceArraySec4) (bi : Nat) :
    chainedTo_block s bi = none ↔
      ∀ k : Nat, ¬ (s.A (4 * bi) = ((4 * k : Nat) : Int) ∧ 4 * k < s.N ∧ cross s.b bi k ∧
        s.A (4 * k) = ((4 * bi : Nat) : Int)) := by
  constructor
  · intro h k hk
    rw [← chainedTo_some_iff4] at hk
    rw [h] at hk
    exact Option.noConfusion hk
  · intro h
    cases hc : chainedTo_block s bi with
    | none => rfl
    | some k => exact absurd ((chainedTo_some_iff4 s bi k).mp hc) (h k)

theorem chainedTo_symm4 (s : InPlaceArraySec4) (bi k : Nat) (hbi : 4 * bi < s.N)
    (h : chainedTo_block s bi = some k) : chainedTo_block s k = some bi := by
  rw [chainedTo_some_iff4] at h ⊢
  obtain ⟨h1, h2, h3, h4⟩ := h
  exact ⟨h4, hbi, cross_symm h3, h1⟩

theorem chainedTo_some_ne4 (s : InPlaceArraySec4) (bi k : Nat)
    (h : chainedTo_block s bi = some k) : bi ≠ k := by
  rw [chainedTo_some_iff4] at h
  exact cross_ne h.2.2.1

/-- `breakChain x` leaves `x` unchained. -/
theorem chainedTo_breakChain_self4 (s : InPlaceArraySec4) (x : Nat) :
    chainedTo_block (breakChain s x) x = none := by
  cases h : chainedTo_block s x with
  | none => rw [breakChain_of_none4 s x h]; exact h
  | some p =>
      have hne : x ≠ p := chainedTo_some_ne4 s x p h
      have hA := breakChain_A_of_some4 s x p h
      rw [chainedTo_some_iff4] at h
      rw [chainedTo_none_iff4]
      intro u hu
      obtain ⟨h1, h2, h3, h4⟩ := hu
      rw [hA, upd_ne _ _ _ _ (by omega)] at h1
      have hup : u = p := by
        have := h.1
        omega
      subst hup
      rw [hA, upd_at] at h4
      omega

/-- `breakChain x` also unchains the partner of `x`. -/
theorem chainedTo_breakChain_partner4 (s : InPlaceArraySec4) (x p : Nat)
    (h : chainedTo_block s x = some p) :
    chainedTo_block (breakChain s x) p = none := by
  have hne : x ≠ p := chainedTo_some_ne4 s x p h
  have hA := breakChain_A_of_some4 s x p h
  rw [chainedTo_none_iff4]
  intro u hu
  obtain ⟨h1, h2, h3, h4⟩ := hu
  rw [hA, upd_at] at h1
  have hup : u = p := by omega
  subst hup
  rw [breakChain_b4] at h3
  exact absurd rfl (cross_ne h3)

/-- `breakChain x` does not affect the chain status of any block other than `x`
and its partner. -/
theorem chainedTo_breakChain_other4 (s : InPlaceArraySec4) (x t : Nat)
    (hx : t ≠ x) (hp : chainedTo_block s x ≠ some t) :
    chainedTo_block (breakChain s x) t = chainedTo_block s t := by
  cases h : chainedTo_block s x with
  | none => rw [breakChain_of_none4 s x h]
  | some p =>
      have hne : x ≠ p := chainedTo_some_ne4 s x p h
      have htp : t ≠ p := by intro hc; rw [hc] at hp; exact hp h
      have hA := breakChain_A_of_some4 s x p h
      rw [chainedTo_some_iff4] at h
      apply option_eq_of_some_iff
      intro u
      rw [chainedTo_some_iff4, chainedTo_some_iff4, breakChain_N4, breakChain_b4, hA]
      rw [upd_ne _ _ _ _ (by omega)]
      constructor
      · rintro ⟨h1, h2, h3, h4⟩
        refine ⟨h1, h2, h3, ?_⟩
        by_cases hup : u = p
        · subst hup
          rw [upd_at] at h4
          omega
        · rw [upd_ne _ _ _ _ (by omega)] at h4
          exact h4
      · rintro ⟨h1, h2, h3, h4⟩
        refine ⟨h1, h2, h3, ?_⟩
        by_cases hup : u = p
        · subst hup
          have := h.2.2.2
          omega
        · rw [upd_ne _ _ _ _ (by omega)]
          exact h4

/-- Cells not belonging to the (possible) partner's zeroth position are
untouched by `breakChain`. -/
theorem breakChain_A_frame4 (s : InPlaceArraySec4) (x : Nat) (j : Nat)
    (h : ∀ p, chainedTo_block s x = some p → j ≠ 4 * p) :
    (breakChain s x).A j = s.A j := by
  cases hc : chainedTo_block s x with
  | none => rw [breakChain_of_none4 s x hc]
  | some p =>
      rw [breakChain_A_of_some4 s x p hc, upd_ne _ _ _ _ (h p hc)]

end InPlaceArraySec4

namespace InPlaceArraySec4

/-! ### Read helpers -/

theorem read_impl_flag_true4 (s : InPlaceArraySec4) (j : Nat) (h : s.flag = true) :
    read_impl s j = s.A j := by
  simp only [read_impl]
  rw [h, if_pos rfl]

theorem read_impl_wca_none4 (s : InPlaceArraySec4) (j : Nat) (hflag : s.flag = false)
    (hj : j / 4 < s.b) (h : chainedTo_block s (j / 4) = none) : read_impl s j = s.A j := by
  simp only [read_impl, block_of]
  rw [hflag, if_neg (by simp), h, if_pos (by omega)]

theorem read_impl_wca_some4 (s : InPlaceArraySec4) (j u : Nat) (hflag : s.flag = false)
    (hj : j / 4 < s.b) (h : chainedTo_block s (j / 4) = some u) : read_impl s j = s.initv := by
  simp only [read_impl, block_of]
  rw [hflag, if_neg (by simp), h, if_pos (by omega)]

theorem read_impl_uca_none4 (s : InPlaceArraySec4) (j : Nat) (hflag : s.flag = false)
    (hj : s.b ≤ j / 4) (h : chainedTo_block s (j / 4) = none) : read_impl s j = s.initv := by
  simp only [read_impl, block_of]
  rw [hflag, if_neg (by simp), h, if_neg (by omega)]

theorem read_impl_uca_some_04 (s : InPlaceArraySec4) (j u : Nat) (hflag : s.flag = false)
    (hj : s.b ≤ j / 4) (hpar : j % 4 = 0) (h : chainedTo_block s (j / 4) = some u) :
    read_impl s j = s.A (4 * u + 1) := by
  simp only [read_impl, block_of, first_of_eq4]
  rw [hflag, if_neg (by simp), h, if_neg (by omega)]
  show (if j % 4 = 0 then s.A (4 * u + 1) else if j % 4 = 1 then s.A (4 * u + 2)
        else if j % 4 = 2 then s.A (4 * u + 3) else s.A j) = s.A (4 * u + 1)
  rw [if_pos hpar]

theorem read_impl_uca_some_14 (s : InPlaceArraySec4) (j u : Nat) (hflag : s.flag = false)
    (hj : s.b ≤ j / 4) (hpar : j % 4 = 1) (h : chainedTo_block s (j / 4) = some u) :
    read_impl s j = s.A (4 * u + 2) := by
  simp only [read_impl, block_of, first_of_eq4]
  rw [hflag, if_neg (by simp), h, if_neg (by omega)]
  show (if j % 4 = 0 then s.A (4 * u + 1) else if j % 4 = 1 then s.A (4 * u + 2)
        else if j % 4 = 2 then s.A (4 * u + 3) else s.A j) = s.A (4 * u + 2)
  rw [if_neg (by omega), if_pos hpar]

theorem read_impl_uca_some_24 (s : InPlaceArraySec4) (j u : Nat) (hflag : s.flag = false)
    (hj : s.b ≤ j / 4) (hpar : j % 4 = 2) (h : chainedTo_block s (j / 4) = some u) :
    read_impl s j = s.A (4 * u + 3) := by
  simp only [read_impl, block_of, first_of_eq4]
  rw [hflag, if_neg (by simp), h, if_neg (by omega)]
  show (if j % 4 = 0 then s.A (4 * u + 1) else if j % 4 = 1 then s.A (4 * u + 2)
        else if j % 4 = 2 then s.A (4 * u + 3) else s.A j) = s.A (4 * u + 3)
  rw [if_neg (by omega), if_neg (by omega), if_pos hpar]

theorem read_impl_uca_some_34 (s : InPlaceArraySec4) (j u : Nat) (hflag : s.flag = false)
    (hj : s.b ≤ j / 4) (hpar : j % 4 = 3) (h : chainedTo_block s (j / 4) = some u) :
    read_impl s j = s.A j := by
  simp only [read_impl, block_of, first_of_eq4]
  rw [hflag, if_neg (by simp), h, if_neg (by omega)]
  show (if j % 4 = 0 then s.A (4 * u + 1) else if j % 4 = 1 then s.A (4 * u + 2)
        else if j % 4 = 2 then s.A (4 * u + 3) else s.A j) = s.A j
  rw [if_neg (by omega), if_neg (by omega), if_neg (by omega)]

/-! ### Congruence auxiliaries -/

/-- A Section-4 detection triple pointing at an unchained block is impossible. -/
theorem congr_aux_unchained4 (s : InPlaceArraySec4) (B t : Nat)
    (hB : chainedTo_block s B = none) (ht2 : 4 * t < s.N) :
    ¬ (cross s.b t B ∧ s.A (4 * B) = ((4 * t : Nat) : Int) ∧
       s.A (4 * t) = ((4 * B : Nat) : Int)) := by
  rintro ⟨h1, h2, h3⟩
  have : chainedTo_block s B = some t := by
    rw [chainedTo_some_iff4]
    exact ⟨h2, ht2, cross_symm h1, h3⟩
  rw [hB] at this
  exact Option.noConfusion this

/-- A Section-4 detection triple pointing at a block chained elsewhere is
impossible. -/
theorem congr_aux_chained4 (s : InPlaceArraySec4) (B m t : Nat)
    (hB : chainedTo_block s B = some m) (htm : ¬ t = m) (ht2 : 4 * t < s.N) :
    ¬ (cross s.b t B ∧ s.A (4 * B) = ((4 * t : Nat) : Int) ∧
       s.A (4 * t) = ((4 * B : Nat) : Int)) := by
  rintro ⟨h1, h2, h3⟩
  have : chainedTo_block s B = some t := by
    rw [chainedTo_some_iff4]
    exact ⟨h2, ht2, cross_symm h1, h3⟩
  rw [hB] at this
  exact htm (Option.some.inj this).symm

theorem chainedTo_congr4 (s s' : InPlaceArraySec4) (t : Nat)
    (hN : s'.N = s.N)
    (h : ∀ u, 4 * u < s.N →
       ((cross s.b t u ∧ s.A (4 * u) = ((4 * t : Nat) : Int) ∧
          s.A (4 * t) = ((4 * u : Nat) : Int)) ↔
        (cross s'.b t u ∧ s'.A (4 * u) = ((4 * t : Nat) : Int) ∧
          s'.A (4 * t) = ((4 * u : Nat) : Int)))) :
    chainedTo_block s' t = chainedTo_block s t := by
  apply option_eq_of_some_iff
  intro u
  rw [chainedTo_some_iff4, chainedTo_some_iff4, hN]
  constructor
  · rintro ⟨h1, h2, h3, h4⟩
    have := (h u h2).mpr ⟨h3, h4, h1⟩
    exact ⟨this.2.2, h2, this.1, this.2.1⟩
  · rintro ⟨h1, h2, h3, h4⟩
    have := (h u h2).mp ⟨h3, h4, h1⟩
    exact ⟨this.2.2, h2, this.1, this.2.1⟩

theorem read_impl_congr4 (s s' : InPlaceArraySec4) (j : Nat)
    (hflag' : s'.flag = false) (hflag : s.flag = false)
    (hstat : chainedTo_block s' (j / 4) = chainedTo_block s (j / 4))
    (hside : j < 4 * s'.b ↔ j < 4 * s.b)
    (hiv : s'.initv = s.initv)
    (hcell : s'.A j = s.A j)
    (hpartner : ∀ u, ¬ j < 4 * s.b → chainedTo_block s (j / 4) = some u →
      s'.A (4 * u + 1) = s.A (4 * u + 1) ∧ s'.A (4 * u + 2) = s.A (4 * u + 2) ∧
      s'.A (4 * u + 3) = s.A (4 * u + 3)) :
    read_impl s' j = read_impl s j := by
  simp only [read_impl, block_of, first_of_eq4]
  rw [hflag, hflag', if_neg (by simp : ¬ ((false : Bool) = true)),
      if_neg (by simp : ¬ ((false : Bool) = true)), hstat]
  by_cases hlt : j < 4 * s.b
  · rw [if_pos (hside.mpr hlt), if_pos hlt]
    cases hc : chainedTo_block s (j / 4) with
    | none => exact hcell
    | some u => exact hiv
  · rw [if_neg (fun hc => hlt (hside.mp hc)), if_neg hlt]
    cases hc : chainedTo_block s (j / 4) with
    | none => exact hiv
    | some u =>
        obtain ⟨p1, p2, p3⟩ := hpartner u hlt hc
        show (if j % 4 = 0 then s'.A (4 * u + 1) else if j % 4 = 1 then s'.A (4 * u + 2)
              else if j % 4 = 2 then s'.A (4 * u + 3) else s'.A j) =
             (if j % 4 = 0 then s.A (4 * u + 1) else if j % 4 = 1 then s.A (4 * u + 2)
              else if j % 4 = 2 then s.A (4 * u + 3) else s.A j)
        by_cases h0 : j % 4 = 0
        · rw [if_pos h0, if_pos h0, p1]
        · rw [if_neg h0, if_neg h0]
          by_cases h1 : j % 4 = 1
          · rw [if_pos h1, if_pos h1, p2]
          · rw [if_neg h1, if_neg h1]
            by_cases h2 : j % 4 = 2
            · rw [if_pos h2, if_pos h2, p3]
            · rw [if_neg h2, if_neg h2, hcell]

/-! ### Saturation: once `b` reaches `N_blocks`, no block can be chained -/

theorem chainedTo_saturated4 (s : InPlaceArraySec4)
    (hWF : s.N = 4 * s.N_blocks) (hb : s.N_blocks ≤ s.b)
    (t : Nat) (ht : 4 * t < s.N) : chainedTo_block s t = none := by
  rw [chainedTo_none_iff4]
  intro k hk
  obtain ⟨h1, h2, h3, h4⟩ := hk
  unfold cross at h3
  omega

/-! ### `sync_meta_to_A` -/

theorem sync_meta_N4 (s : InPlaceArraySec4) : (sync_meta_to_A s).N = s.N := by
  simp only [sync_meta_to_A, sync_flag]
  split <;> rfl

theorem sync_meta_N_blocks4 (s : InPlaceArraySec4) :
    (sync_meta_to_A s).N_blocks = s.N_blocks := by
  simp only [sync_meta_to_A, sync_flag]
  split <;> rfl

theorem sync_meta_b4 (s : InPlaceArraySec4) : (sync_meta_to_A s).b = s.b := by
  simp only [sync_meta_to_A, sync_flag]
  split <;> rfl

theorem sync_meta_initv4 (s : InPlaceArraySec4) : (sync_meta_to_A s).initv = s.initv := by
  simp only [sync_meta_to_A, sync_flag]
  split <;> rfl

theorem sync_meta_vb4 (s : InPlaceArraySec4) : (sync_meta_to_A s).vb = s.vb := by
  simp only [sync_meta_to_A, sync_flag]
  split <;> rfl

theorem sync_meta_ctr4 (s : InPlaceArraySec4) : (sync_meta_to_A s).ctr = s.ctr := by
  simp only [sync_meta_to_A, sync_flag]
  split <;> rfl

theorem sync_meta_flag4 (s : InPlaceArraySec4) :
    (sync_meta_to_A s).flag = decide (s.N_blocks ≤ s.b) := by
  simp only [sync_meta_to_A, sync_flag]
  split <;> rfl

theorem sync_meta_A_sat4 (s : InPlaceArraySec4) (h : s.N_blocks ≤ s.b) :
    (sync_meta_to_A s).A = s.A := by
  simp [sync_meta_to_A, sync_flag, h]

theorem sync_meta_A_unsat4 (s : InPlaceArraySec4) (h : ¬ s.N_blocks ≤ s.b) :
    (sync_meta_to_A s).A =
      upd (upd s.A (4 * (s.N_blocks - 1) + 1) s.initv)
        (4 * (s.N_blocks - 1) + 2) (s.b : Int) := by
  simp [sync_meta_to_A, sync_flag, h, first_of_eq4]

/-- Outside the last block, the stash refresh touches nothing. -/
theorem sync_A_other4 (s : InPlaceArraySec4) (h : ¬ s.N_blocks ≤ s.b) (j : Nat)
    (hj : ¬ j / 4 = s.N_blocks - 1) : (sync_meta_to_A s).A j = s.A j := by
  rw [sync_meta_A_unsat4 s h, upd_ne _ _ _ _ (by omega), upd_ne _ _ _ _ (by omega)]

/-- Aligned and offset-3 cells are never stash cells. -/
theorem sync_A_frame4 (s : InPlaceArraySec4) (h : ¬ s.N_blocks ≤ s.b) (j : Nat)
    (hj : j % 4 = 0 ∨ j % 4 = 3) : (sync_meta_to_A s).A j = s.A j := by
  rw [sync_meta_A_unsat4 s h, upd_ne _ _ _ _ (by omega), upd_ne _ _ _ _ (by omega)]

/-- The stash refresh changes no chain status. -/
theorem sync_chainedTo4 (s : InPlaceArraySec4) (h : ¬ s.N_blocks ≤ s.b) (t : Nat) :
    chainedTo_block (sync_meta_to_A s) t = chainedTo_block s t := by
  apply chainedTo_congr4 s (sync_meta_to_A s) t (sync_meta_N4 s)
  intro u hu
  rw [sync_meta_b4, sync_A_frame4 s h (4 * t) (by omega), sync_A_frame4 s h (4 * u) (by omega)]

/-- The stash refresh changes no logical value (the last block is UCA, and
its displaced values, when it is chained, live in a strictly-WCA partner). -/
theorem sync_read4 (s : InPlaceArraySec4) (h : ¬ s.N_blocks ≤ s.b) (hflag : s.flag = false)
    (hWF : s.N = 4 * s.N_blocks) :
    ∀ j, j < s.N → read_impl (sync_meta_to_A s) j = read_impl s j := by
  have hflag' : (sync_meta_to_A s).flag = false := by
    rw [sync_meta_flag4]
    exact decide_eq_false h
  intro j hj
  by_cases hjmb : j / 4 = s.N_blocks - 1
  · have hble : s.b ≤ j / 4 := by omega
    cases hc : chainedTo_block s (j / 4) with
    | none =>
        rw [read_impl_uca_none4 s j hflag hble hc,
            read_impl_uca_none4 (sync_meta_to_A s) j hflag' (by rw [sync_meta_b4]; exact hble)
              (by rw [sync_chainedTo4 s h]; exact hc), sync_meta_initv4]
    | some w =>
        have hwb : w < s.b := by
          have hcr := ((chainedTo_some_iff4 s (j / 4) w).mp hc).2.2.1
          unfold cross at hcr
          omega
        have hwmb : ¬ w = s.N_blocks - 1 := by omega
        have hc' : chainedTo_block (sync_meta_to_A s) (j / 4) = some w := by
          rw [sync_chainedTo4 s h]
          exact hc
        have hble' : (sync_meta_to_A s).b ≤ j / 4 := by rw [sync_meta_b4]; exact hble
        by_cases h0 : j % 4 = 0
        · rw [read_impl_uca_some_04 s j w hflag hble h0 hc,
              read_impl_uca_some_04 (sync_meta_to_A s) j w hflag' hble' h0 hc',
              sync_A_other4 s h (4 * w + 1) (by omega)]
        · by_cases h1 : j % 4 = 1
          · rw [read_impl_uca_some_14 s j w hflag hble h1 hc,
                read_impl_uca_some_14 (sync_meta_to_A s) j w hflag' hble' h1 hc',
                sync_A_other4 s h (4 * w + 2) (by omega)]
          · by_cases h2 : j % 4 = 2
            · rw [read_impl_uca_some_24 s j w hflag hble h2 hc,
                  read_impl_uca_some_24 (sync_meta_to_A s) j w hflag' hble' h2 hc',
                  sync_A_other4 s h (4 * w + 3) (by omega)]
            · rw [read_impl_uca_some_34 s j w hflag hble (by omega) hc,
                  read_impl_uca_some_34 (sync_meta_to_A s) j w hflag' hble' (by omega) hc',
                  sync_A_frame4 s h j (by omega)]
  · apply read_impl_congr4 s (sync_meta_to_A s) j hflag' hflag (sync_chainedTo4 s h (j / 4))
      (by rw [sync_meta_b4]) (sync_meta_initv4 s) (sync_A_other4 s h j hjmb)
    intro u hside hu
    have hub : u < s.b := by
      have hcr := ((chainedTo_some_iff4 s (j / 4) u).mp hu).2.2.1
      unfold cross at hcr
      omega
    have humb : ¬ u = s.N_blocks - 1 := by omega
    exact ⟨sync_A_other4 s h (4 * u + 1) (by omega),
           sync_A_other4 s h (4 * u + 2) (by omega),
           sync_A_other4 s h (4 * u + 3) (by omega)⟩

end InPlaceArraySec4

namespace InPlaceArraySec4

theorem breakChain_relocations4 (s : InPlaceArraySec4) (x : Nat) :
    (breakChain s x).ctr.relocations = s.ctr.relocations := by
  unfold breakChain; split <;> rfl

/-- The stash refresh changes no chain status, in either flag regime. -/
theorem sync_chainedTo_all4 (s : InPlaceArraySec4) (t : Nat) :
    chainedTo_block (sync_meta_to_A s) t = chainedTo_block s t := by
  by_cases h : s.N_blocks ≤ s.b
  · apply chainedTo_congr4 s (sync_meta_to_A s) t (sync_meta_N4 s)
    intro u hu
    rw [sync_meta_b4, sync_meta_A_sat4 s h]
  · exact sync_chainedTo4 s h t

/-- `extend` when the boundary block is unchained, decomposed as a core step
followed by the metadata stash refresh: the boundary block is freed and filled
with `initv`; apart from its four cells, the only other core-step write is a
defensive `breakChain` write of `4*μ` into the zeroth cell of a UCA block `μ`
that spuriously pointed at the boundary. -/
theorem extend_none_spec4 (s : InPlaceArraySec4) (h : chainedTo_block s s.b = none) :
    ∃ sc : InPlaceArraySec4, (extend s).1 = sync_meta_to_A sc ∧
      sc.N = s.N ∧ sc.N_blocks = s.N_blocks ∧ sc.b = s.b + 1 ∧ sc.initv = s.initv ∧
      sc.flag = s.flag ∧ sc.vb = s.vb ∧ sc.ctr.relocations = s.ctr.relocations ∧
      (extend s).2 = s.b ∧
      sc.A (4 * s.b) = s.initv ∧ sc.A (4 * s.b + 1) = s.initv ∧
      sc.A (4 * s.b + 2) = s.initv ∧ sc.A (4 * s.b + 3) = s.initv ∧
      (∀ j, j ≠ 4 * s.b → j ≠ 4 * s.b + 1 → j ≠ 4 * s.b + 2 → j ≠ 4 * s.b + 3 →
        (sc.A j = s.A j ∨
         (j % 4 = 0 ∧ sc.A j = (j : Int) ∧ 4 * (s.b + 1) ≤ j ∧ j < s.N ∧
          s.A j = ((4 * s.b : Nat) : Int) ∧ s.initv = (j : Int)))) ∧
      chainedTo_block sc s.b = none := by
  have hext1 : (extend s).1 =
      sync_meta_to_A (breakChain
        { s with b := s.b + 1,
                 A := upd (upd (upd (upd s.A (4 * s.b) s.initv) (4 * s.b + 1) s.initv)
                        (4 * s.b + 2) s.initv) (4 * s.b + 3) s.initv } s.b) := by
    show (extend s).1 = _
    simp only [extend, h]
    rfl
  have hext2 : (extend s).2 = s.b := by
    simp only [extend, h]
  set s2 : InPlaceArraySec4 :=
    { s with b := s.b + 1,
             A := upd (upd (upd (upd s.A (4 * s.b) s.initv) (4 * s.b + 1) s.initv)
                    (4 * s.b + 2) s.initv) (4 * s.b + 3) s.initv } with hs2
  refine ⟨breakChain s2 s.b, hext1, breakChain_N4 s2 s.b, breakChain_N_blocks4 s2 s.b,
    breakChain_b4 s2 s.b, breakChain_initv4 s2 s.b, breakChain_flag4 s2 s.b,
    breakChain_vb4 s2 s.b, breakChain_relocations4 s2 s.b, hext2, ?_, ?_, ?_, ?_, ?_,
    chainedTo_breakChain_self4 s2 s.b⟩
  · rw [breakChain_A_frame4 s2 s.b (4 * s.b)
      (by intro p hp; have := chainedTo_some_ne4 s2 s.b p hp; omega)]
    show upd (upd (upd (upd s.A (4 * s.b) s.initv) (4 * s.b + 1) s.initv)
          (4 * s.b + 2) s.initv) (4 * s.b + 3) s.initv (4 * s.b) = s.initv
    rw [upd_ne _ _ _ _ (by omega), upd_ne _ _ _ _ (by omega), upd_ne _ _ _ _ (by omega),
        upd_at]
  · rw [breakChain_A_frame4 s2 s.b (4 * s.b + 1) (by intro p hp; omega)]
    show upd (upd (upd (upd s.A (4 * s.b) s.initv) (4 * s.b + 1) s.initv)
          (4 * s.b + 2) s.initv) (4 * s.b + 3) s.initv (4 * s.b + 1) = s.initv
    rw [upd_ne _ _ _ _ (by omega), upd_ne _ _ _ _ (by omega), upd_at]
  · rw [breakChain_A_frame4 s2 s.b (4 * s.b + 2) (by intro p hp; omega)]
    show upd (upd (upd (upd s.A (4 * s.b) s.initv) (4 * s.b + 1) s.initv)
          (4 * s.b + 2) s.initv) (4 * s.b + 3) s.initv (4 * s.b + 2) = s.initv
    rw [upd_ne _ _ _ _ (by omega), upd_at]
  · rw [breakChain_A_frame4 s2 s.b (4 * s.b + 3) (by intro p hp; omega)]
    show upd (upd (upd (upd s.A (4 * s.b) s.initv) (4 * s.b + 1) s.initv)
          (4 * s.b + 2) s.initv) (4 * s.b + 3) s.initv (4 * s.b + 3) = s.initv
    rw [upd_at]
  · intro j hj1 hj2 hj3 hj4
    cases hc : chainedTo_block s2 s.b with
    | none =>
        left
        rw [breakChain_of_none4 s2 s.b hc]
        show upd (upd (upd (upd s.A (4 * s.b) s.initv) (4 * s.b + 1) s.initv)
              (4 * s.b + 2) s.initv) (4 * s.b + 3) s.initv j = s.A j
        rw [upd_ne _ _ _ _ hj4, upd_ne _ _ _ _ hj3, upd_ne _ _ _ _ hj2, upd_ne _ _ _ _ hj1]
    | some μ =>
        have hiff := (chainedTo_some_iff4 s2 s.b μ).mp hc
        have hinitv : s.initv = ((4 * μ : Nat) : Int) := by
          have h1 := hiff.1
          rw [show s2.A = upd (upd (upd (upd s.A (4 * s.b) s.initv) (4 * s.b + 1) s.initv)
                (4 * s.b + 2) s.initv) (4 * s.b + 3) s.initv from rfl,
              upd_ne _ _ _ _ (by omega), upd_ne _ _ _ _ (by omega),
              upd_ne _ _ _ _ (by omega), upd_at] at h1
          exact h1
        have hcr : cross (s.b + 1) s.b μ := hiff.2.2.1
        have hμb : s.b + 1 ≤ μ := by
          unfold cross at hcr; omega
        have hμN : 4 * μ < s.N := hiff.2.1
        have hrecip : s.A (4 * μ) = ((4 * s.b : Nat) : Int) := by
          have h4 := hiff.2.2.2
          rw [show s2.A = upd (upd (upd (upd s.A (4 * s.b) s.initv) (4 * s.b + 1) s.initv)
                (4 * s.b + 2) s.initv) (4 * s.b + 3) s.initv from rfl,
              upd_ne _ _ _ _ (by omega), upd_ne _ _ _ _ (by omega),
              upd_ne _ _ _ _ (by omega), upd_ne _ _ _ _ (by omega)] at h4
          exact h4
        have hA' := breakChain_A_of_some4 s2 s.b μ hc
        by_cases hj : j = 4 * μ
        · right
          subst hj
          refine ⟨by omega, by rw [hA', upd_at], by omega, hμN, hrecip, hinitv⟩
        · left
          rw [hA', upd_ne _ _ _ _ hj]
          show upd (upd (upd (upd s.A (4 * s.b) s.initv) (4 * s.b + 1) s.initv)
                (4 * s.b + 2) s.initv) (4 * s.b + 3) s.initv j = s.A j
          rw [upd_ne _ _ _ _ hj4, upd_ne _ _ _ _ hj3, upd_ne _ _ _ _ hj2,
              upd_ne _ _ _ _ hj1]

/-- `extend` when the boundary block is chained to a (WCA) partner `κ`,
decomposed as a core step followed by the stash refresh: the boundary's three
displaced cells are copied back, the partner is freed and filled with `initv`,
one relocation is counted, and the only other core-step writes are defensive
`breakChain` writes of the form `A[4*u] := 4*u` on UCA blocks `u` whose cells
spuriously pointed at the boundary or at `κ`. -/
theorem extend_some_spec4 (s : InPlaceArraySec4) (κ : Nat)
    (h : chainedTo_block s s.b = some κ) :
    ∃ sc : InPlaceArraySec4, (extend s).1 = sync_meta_to_A sc ∧
      sc.N = s.N ∧ sc.N_blocks = s.N_blocks ∧ sc.b = s.b + 1 ∧ sc.initv = s.initv ∧
      sc.flag = s.flag ∧ sc.vb = s.vb ∧ sc.ctr.relocations = s.ctr.relocations + 1 ∧
      (extend s).2 = κ ∧ κ < s.b ∧
      sc.A (4 * s.b) = s.A (4 * κ + 1) ∧ sc.A (4 * s.b + 1) = s.A (4 * κ + 2) ∧
      sc.A (4 * s.b + 2) = s.A (4 * κ + 3) ∧ sc.A (4 * s.b + 3) = s.A (4 * s.b + 3) ∧
      sc.A (4 * κ) = s.initv ∧ sc.A (4 * κ + 1) = s.initv ∧
      sc.A (4 * κ + 2) = s.initv ∧ sc.A (4 * κ + 3) = s.initv ∧
      (∀ j, j ≠ 4 * s.b → j ≠ 4 * s.b + 1 → j ≠ 4 * s.b + 2 →
        j ≠ 4 * κ → j ≠ 4 * κ + 1 → j ≠ 4 * κ + 2 → j ≠ 4 * κ + 3 →
        (sc.A j = s.A j ∨
         (j % 4 = 0 ∧ sc.A j = (j : Int) ∧ 4 * (s.b + 1) ≤ j ∧ j < s.N ∧
          (s.A j = ((4 * s.b : Nat) : Int) ∨ s.A j = ((4 * κ : Nat) : Int))))) ∧
      chainedTo_block sc s.b = none ∧ chainedTo_block sc κ = none := by
  have hκb : κ < s.b := by
    have := (chainedTo_some_iff4 s s.b κ).mp h
    have hcr := this.2.2.1
    unfold cross at hcr; omega
  set a1 : Nat → Int := upd s.A (4 * s.b) (s.A (4 * κ + 1)) with ha1
  set a2 : Nat → Int := upd a1 (4 * s.b + 1) (a1 (4 * κ + 2)) with ha2
  set a3 : Nat → Int := upd a2 (4 * s.b + 2) (a2 (4 * κ + 3)) with ha3
  set s2 : InPlaceArraySec4 := { s with b := s.b + 1, A := a3 } with hs2def
  set s3 := breakChain s2 s.b with hs3def
  set s4 := initBlock s3 κ with hs4def
  set s5 := breakChain s4 κ with hs5def
  have hext1 : (extend s).1 =
      sync_meta_to_A { s5 with ctr := { s5.ctr with relocations := s5.ctr.relocations + 1 } } := by
    show (extend s).1 = _
    simp only [extend, h]
    rfl
  have hext2 : (extend s).2 = κ := by
    simp only [extend, h]
  -- projections
  have hs3b : s3.b = s.b + 1 := breakChain_b4 s2 s.b
  have hs3N : s3.N = s.N := breakChain_N4 s2 s.b
  have hs4b : s4.b = s.b + 1 := hs3b
  have hs4N : s4.N = s.N := hs3N
  have hs4iv : s4.initv = s.initv := breakChain_initv4 s2 s.b
  have hb5 : s5.b = s.b + 1 := by rw [hs5def, breakChain_b4]; exact hs4b
  have hN5 : s5.N = s.N := by rw [hs5def, breakChain_N4]; exact hs4N
  have hiv5 : s5.initv = s.initv := by rw [hs5def, breakChain_initv4]; exact hs4iv
  have hNB5 : s5.N_blocks = s.N_blocks := by
    rw [hs5def, breakChain_N_blocks4]
    exact breakChain_N_blocks4 s2 s.b
  have hflag5 : s5.flag = s.flag := by
    rw [hs5def, breakChain_flag4]
    exact breakChain_flag4 s2 s.b
  have hvb5 : s5.vb = s.vb := by
    rw [hs5def, breakChain_vb4]
    exact breakChain_vb4 s2 s.b
  have hreloc : s5.ctr.relocations = s.ctr.relocations := by
    rw [hs5def, breakChain_relocations4]
    exact breakChain_relocations4 s2 s.b
  -- copy-chain values
  have ha1κ2 : a1 (4 * κ + 2) = s.A (4 * κ + 2) := by
    rw [ha1, upd_ne _ _ _ _ (by omega)]
  have ha2κ3 : a2 (4 * κ + 3) = s.A (4 * κ + 3) := by
    rw [ha2, upd_ne _ _ _ _ (by omega), ha1, upd_ne _ _ _ _ (by omega)]
  have ha3b0 : a3 (4 * s.b) = s.A (4 * κ + 1) := by
    rw [ha3, upd_ne _ _ _ _ (by omega), ha2, upd_ne _ _ _ _ (by omega), ha1, upd_at]
  have ha3b1 : a3 (4 * s.b + 1) = s.A (4 * κ + 2) := by
    rw [ha3, upd_ne _ _ _ _ (by omega), ha2, upd_at, ha1κ2]
  have ha3b2 : a3 (4 * s.b + 2) = s.A (4 * κ + 3) := by
    rw [ha3, upd_at, ha2κ3]
  have ha3other : ∀ j, ¬ j = 4 * s.b → ¬ j = 4 * s.b + 1 → ¬ j = 4 * s.b + 2 →
      a3 j = s.A j := by
    intro j h1 h2 h3
    rw [ha3, upd_ne _ _ _ _ h3, ha2, upd_ne _ _ _ _ h2, ha1, upd_ne _ _ _ _ h1]
  -- collateral characterizations of the two defensive breakChains
  have hs3frame : ∀ j, (∀ p, chainedTo_block s2 s.b = some p → j ≠ 4 * p) →
      s3.A j = s2.A j := fun j hp => breakChain_A_frame4 s2 s.b j hp
  have hs3partner : ∀ p, chainedTo_block s2 s.b = some p → s.b + 1 ≤ p ∧ 4 * p < s.N ∧
      s.A (4 * p) = ((4 * s.b : Nat) : Int) := by
    intro p hp
    have hiff := (chainedTo_some_iff4 s2 s.b p).mp hp
    have hcr := hiff.2.2.1
    have hb2 : s2.b = s.b + 1 := rfl
    have hN2 : s2.N = s.N := rfl
    unfold cross at hcr
    have hpb : s.b + 1 ≤ p := by omega
    refine ⟨hpb, by rw [← hN2]; exact hiff.2.1, ?_⟩
    have h4 := hiff.2.2.2
    rw [show s2.A = a3 from rfl,
        ha3other (4 * p) (by omega) (by omega) (by omega)] at h4
    exact h4
  have hs5partner : ∀ p, chainedTo_block s4 κ = some p → s.b + 1 ≤ p ∧ 4 * p < s.N ∧
      s4.A (4 * p) = ((4 * κ : Nat) : Int) := by
    intro p hp
    have hiff := (chainedTo_some_iff4 s4 κ p).mp hp
    have hcr := hiff.2.2.1
    have hb4 : s4.b = s.b + 1 := hs4b
    unfold cross at hcr
    have hpb : s.b + 1 ≤ p := by omega
    refine ⟨hpb, by rw [← hs4N]; exact hiff.2.1, hiff.2.2.2⟩
  have hs5frame : ∀ j, (∀ p, chainedTo_block s4 κ = some p → j ≠ 4 * p) →
      s5.A j = s4.A j := fun j hp => breakChain_A_frame4 s4 κ j hp
  -- cell values of s5 at the named positions
  have hc0 : s5.A (4 * s.b) = s.A (4 * κ + 1) := by
    rw [hs5frame (4 * s.b) (by intro p hp; have := (hs5partner p hp).1; omega)]
    rw [show s4.A = upd (upd (upd (upd s3.A (4 * κ) s3.initv) (4 * κ + 1) s3.initv)
          (4 * κ + 2) s3.initv) (4 * κ + 3) s3.initv from rfl]
    rw [upd_ne _ _ _ _ (by omega), upd_ne _ _ _ _ (by omega), upd_ne _ _ _ _ (by omega),
        upd_ne _ _ _ _ (by omega)]
    rw [hs3frame (4 * s.b) (by intro p hp; have := (hs3partner p hp).1; omega)]
    rw [show s2.A = a3 from rfl, ha3b0]
  have hc1 : s5.A (4 * s.b + 1) = s.A (4 * κ + 2) := by
    rw [hs5frame (4 * s.b + 1) (by intro p hp; omega)]
    rw [show s4.A = upd (upd (upd (upd s3.A (4 * κ) s3.initv) (4 * κ + 1) s3.initv)
          (4 * κ + 2) s3.initv) (4 * κ + 3) s3.initv from rfl]
    rw [upd_ne _ _ _ _ (by omega), upd_ne _ _ _ _ (by omega), upd_ne _ _ _ _ (by omega),
        upd_ne _ _ _ _ (by omega)]
    rw [hs3frame (4 * s.b + 1) (by intro p hp; omega)]
    rw [show s2.A = a3 from rfl, ha3b1]
  have hc2 : s5.A (4 * s.b + 2) = s.A (4 * κ + 3) := by
    rw [hs5frame (4 * s.b + 2) (by intro p hp; omega)]
    rw [show s4.A = upd (upd (upd (upd s3.A (4 * κ) s3.initv) (4 * κ + 1) s3.initv)
          (4 * κ + 2) s3.initv) (4 * κ + 3) s3.initv from rfl]
    rw [upd_ne _ _ _ _ (by omega), upd_ne _ _ _ _ (by omega), upd_ne _ _ _ _ (by omega),
        upd_ne _ _ _ _ (by omega)]
    rw [hs3frame (4 * s.b + 2) (by intro p hp; omega)]
    rw [show s2.A = a3 from rfl, ha3b2]
  have hc3 : s5.A (4 * s.b + 3) = s.A (4 * s.b + 3) := by
    rw [hs5frame (4 * s.b + 3) (by intro p hp; omega)]
    rw [show s4.A = upd (upd (upd (upd s3.A (4 * κ) s3.initv) (4 * κ + 1) s3.initv)
          (4 * κ + 2) s3.initv) (4 * κ + 3) s3.initv from rfl]
    rw [upd_ne _ _ _ _ (by omega), upd_ne _ _ _ _ (by omega), upd_ne _ _ _ _ (by omega),
        upd_ne _ _ _ _ (by omega)]
    rw [hs3frame (4 * s.b + 3) (by intro p hp; omega)]
    rw [show s2.A = a3 from rfl, ha3other (4 * s.b + 3) (by omega) (by omega) (by omega)]
  have hcκ0 : s5.A (4 * κ) = s.initv := by
    rw [hs5frame (4 * κ) (by intro p hp; have := (hs5partner p hp).1; omega)]
    rw [show s4.A = upd (upd (upd (upd s3.A (4 * κ) s3.initv) (4 * κ + 1) s3.initv)
          (4 * κ + 2) s3.initv) (4 * κ + 3) s3.initv from rfl]
    rw [upd_ne _ _ _ _ (by omega), upd_ne _ _ _ _ (by omega), upd_ne _ _ _ _ (by omega),
        upd_at]
    exact breakChain_initv4 s2 s.b
  have hcκ1 : s5.A (4 * κ + 1) = s.initv := by
    rw [hs5frame (4 * κ + 1) (by intro p hp; omega)]
    rw [show s4.A = upd (upd (upd (upd s3.A (4 * κ) s3.initv) (4 * κ + 1) s3.initv)
          (4 * κ + 2) s3.initv) (4 * κ + 3) s3.initv from rfl]
    rw [upd_ne _ _ _ _ (by omega), upd_ne _ _ _ _ (by omega), upd_at]
    exact breakChain_initv4 s2 s.b
  have hcκ2 : s5.A (4 * κ + 2) = s.initv := by
    rw [hs5frame (4 * κ + 2) (by intro p hp; omega)]
    rw [show s4.A = upd (upd (upd (upd s3.A (4 * κ) s3.initv) (4 * κ + 1) s3.initv)
          (4 * κ + 2) s3.initv) (4 * κ + 3) s3.initv from rfl]
    rw [upd_ne _ _ _ _ (by omega), upd_at]
    exact breakChain_initv4 s2 s.b
  have hcκ3 : s5.A (4 * κ + 3) = s.initv := by
    rw [hs5frame (4 * κ + 3) (by intro p hp; omega)]
    rw [show s4.A = upd (upd (upd (upd s3.A (4 * κ) s3.initv) (4 * κ + 1) s3.initv)
          (4 * κ + 2) s3.initv) (4 * κ + 3) s3.initv from rfl]
    rw [upd_at]
    exact breakChain_initv4 s2 s.b
  -- the frame
  have hA5 : ∀ j, j ≠ 4 * s.b → j ≠ 4 * s.b + 1 → j ≠ 4 * s.b + 2 →
      j ≠ 4 * κ → j ≠ 4 * κ + 1 → j ≠ 4 * κ + 2 → j ≠ 4 * κ + 3 →
      (s5.A j = s.A j ∨
       (j % 4 = 0 ∧ s5.A j = (j : Int) ∧ 4 * (s.b + 1) ≤ j ∧ j < s.N ∧
        (s.A j = ((4 * s.b : Nat) : Int) ∨ s.A j = ((4 * κ : Nat) : Int)))) := by
    intro j hj1 hj2 hj3 hj4 hj5 hj6 hj7
    by_cases hν : ∃ p, chainedTo_block s4 κ = some p ∧ j = 4 * p
    · obtain ⟨ν, hνc, hjν⟩ := hν
      subst hjν
      obtain ⟨hνb, hνN, hνval⟩ := hs5partner ν hνc
      right
      have hs5A := breakChain_A_of_some4 s4 κ ν hνc
      refine ⟨by omega, by rw [hs5A, upd_at], by omega, by omega, ?_⟩
      rw [show s4.A = upd (upd (upd (upd s3.A (4 * κ) s3.initv) (4 * κ + 1) s3.initv)
            (4 * κ + 2) s3.initv) (4 * κ + 3) s3.initv from rfl,
          upd_ne _ _ _ _ (by omega), upd_ne _ _ _ _ (by omega),
          upd_ne _ _ _ _ (by omega), upd_ne _ _ _ _ (by omega)] at hνval
      by_cases hμ : ∃ p, chainedTo_block s2 s.b = some p ∧ ν = p
      · obtain ⟨μ, hμc, hνμ⟩ := hμ
        obtain ⟨hμb, hμN, hμval⟩ := hs3partner μ hμc
        rw [hνμ]
        exact Or.inl hμval
      · rw [hs3frame (4 * ν) (by
            intro p hp hc
            exact hμ ⟨p, hp, by omega⟩)] at hνval
        rw [show s2.A = a3 from rfl,
            ha3other (4 * ν) (by omega) (by omega) (by omega)] at hνval
        exact Or.inr hνval
    · have h5eq : s5.A j = s4.A j := by
        apply hs5frame
        intro p hp hc
        exact hν ⟨p, hp, hc⟩
      rw [h5eq, show s4.A = upd (upd (upd (upd s3.A (4 * κ) s3.initv) (4 * κ + 1) s3.initv)
            (4 * κ + 2) s3.initv) (4 * κ + 3) s3.initv from rfl,
          upd_ne _ _ _ _ hj7, upd_ne _ _ _ _ hj6, upd_ne _ _ _ _ hj5, upd_ne _ _ _ _ hj4]
      by_cases hμ : ∃ p, chainedTo_block s2 s.b = some p ∧ j = 4 * p
      · obtain ⟨μ, hμc, hjμ⟩ := hμ
        subst hjμ
        obtain ⟨hμb, hμN, hμval⟩ := hs3partner μ hμc
        right
        have hs3A := breakChain_A_of_some4 s2 s.b μ hμc
        refine ⟨by omega, by rw [hs3A, upd_at], by omega, by omega, Or.inl hμval⟩
      · left
        rw [hs3frame j (by intro p hp hc; exact hμ ⟨p, hp, hc⟩)]
        rw [show s2.A = a3 from rfl, ha3other j hj1 hj2 hj3]
  -- the boundary is unchained in the core result
  have hbnone : chainedTo_block s5 s.b = none := by
    rw [chainedTo_none_iff4]
    intro u hu
    obtain ⟨x1, x2, x3, x4⟩ := hu
    have hub : s.b + 1 ≤ u := by
      rw [hb5] at x3
      unfold cross at x3
      omega
    have huN : 4 * u < s.N := by
      rw [← hN5]; exact x2
    by_cases hν : ∃ p, chainedTo_block s4 κ = some p ∧ u = p
    · obtain ⟨ν, hνc, rfl⟩ := hν
      have hbb := breakChain_A_of_some4 s4 κ u hνc
      rw [show s5.A = (breakChain s4 κ).A from rfl, hbb, upd_at] at x4
      omega
    · have h5u : s5.A (4 * u) = s4.A (4 * u) :=
        hs5frame (4 * u) (fun p hp hc => hν ⟨p, hp, by omega⟩)
      rw [h5u,
          show s4.A = upd (upd (upd (upd s3.A (4 * κ) s3.initv) (4 * κ + 1) s3.initv)
            (4 * κ + 2) s3.initv) (4 * κ + 3) s3.initv from rfl,
          upd_ne _ _ _ _ (by omega), upd_ne _ _ _ _ (by omega),
          upd_ne _ _ _ _ (by omega), upd_ne _ _ _ _ (by omega)] at x4
      by_cases hμ : ∃ p, chainedTo_block s2 s.b = some p ∧ u = p
      · obtain ⟨μ, hμc, rfl⟩ := hμ
        have hbb := breakChain_A_of_some4 s2 s.b u hμc
        rw [show s3.A = (breakChain s2 s.b).A from rfl, hbb, upd_at] at x4
        omega
      · have h3u : s3.A (4 * u) = s2.A (4 * u) :=
          hs3frame (4 * u) (fun p hp hc => hμ ⟨p, hp, by omega⟩)
        rw [h3u] at x4
        have hd : s2.A (4 * s.b) = ((4 * u : Nat) : Int) := by
          have h9 := hc0
          rw [x1] at h9
          rw [show s2.A = a3 from rfl, ha3b0]
          omega
        have hsome : chainedTo_block s2 s.b = some u := by
          rw [chainedTo_some_iff4]
          refine ⟨hd, by rw [show s2.N = s.N from rfl]; exact huN, ?_, x4⟩
          show cross s2.b s.b u
          rw [show s2.b = s.b + 1 from rfl]
          unfold cross
          omega
        exact hμ ⟨u, hsome, rfl⟩
  refine ⟨{ s5 with ctr := { s5.ctr with relocations := s5.ctr.relocations + 1 } },
    hext1, hN5, hNB5, hb5, hiv5, hflag5, hvb5, ?_, hext2, hκb,
    hc0, hc1, hc2, hc3, hcκ0, hcκ1, hcκ2, hcκ3, ?_, ?_, ?_⟩
  · show s5.ctr.relocations + 1 = s.ctr.relocations + 1
    rw [hreloc]
  · intro j hj1 hj2 hj3 hj4 hj5 hj6 hj7
    exact hA5 j hj1 hj2 hj3 hj4 hj5 hj6 hj7
  · show chainedTo_block s5 s.b = none
    exact hbnone
  · show chainedTo_block s5 κ = none
    exact chainedTo_breakChain_self4 s4 κ

end InPlaceArraySec4

namespace InPlaceArraySec4

/-! ### `extend` preserves the chain status and the logical values -/

theorem extend_none_status4 (s : InPlaceArraySec4) (h : chainedTo_block s s.b = none)
    (t : Nat) (ht : ¬ t = s.b) (ht2 : 4 * t < s.N) :
    chainedTo_block (extend s).1 t = chainedTo_block s t := by
  obtain ⟨sc, hdec, hscN, hscNB, hscb, hsciv, hscflag, hscvb, hscrel, hret,
    hA0, hA1, hA2, hA3, hframe, hbnd⟩ := extend_none_spec4 s h
  rw [hdec, sync_chainedTo_all4]
  rcases hframe (4 * t) (by omega) (by omega) (by omega) (by omega) with hcell |
    ⟨hpar, hval, hge, hlt, hold, hiv⟩
  · apply chainedTo_congr4 s sc t hscN
    intro u hu
    by_cases huB : u = s.b
    · subst huB
      constructor
      · rintro ⟨c1, c2, c3⟩
        exact absurd ⟨c1, c2, c3⟩ (congr_aux_unchained4 s s.b t h ht2)
      · rintro ⟨c1, c2, c3⟩
        exact absurd ⟨c1, c2, c3⟩
          (congr_aux_unchained4 sc s.b t hbnd (by rw [hscN]; exact ht2))
    · rcases hframe (4 * u) (by omega) (by omega) (by omega) (by omega) with hcu |
        ⟨hpu, hvu, hgu, hlu, holdu, hivu⟩
      · rw [hcell, hcu, hscb, show cross (s.b + 1) t u ↔ cross s.b t u from by
          unfold cross; omega]
      · constructor
        · rintro ⟨c1, c2, c3⟩
          omega
        · rintro ⟨c1, c2, c3⟩
          rw [hvu] at c2
          have hut : u = t := by omega
          subst hut
          exact absurd rfl (cross_ne c1)
  · have h1 : chainedTo_block sc t = none := by
      rw [chainedTo_none_iff4]
      intro u hu
      obtain ⟨c1, c2, c3, c4⟩ := hu
      rw [hval] at c1
      have hut : u = t := by omega
      subst hut
      exact absurd rfl (cross_ne c3)
    have h2 : chainedTo_block s t = none := by
      rw [chainedTo_none_iff4]
      intro u hu
      obtain ⟨c1, c2, c3, c4⟩ := hu
      have huB : u = s.b := by omega
      subst huB
      unfold cross at c3
      omega
    rw [h1, h2]

theorem extend_some_status4 (s : InPlaceArraySec4) (κ : Nat)
    (h : chainedTo_block s s.b = some κ) (hbN : 4 * s.b < s.N)
    (t : Nat) (ht : ¬ t = s.b) (htκ : ¬ t = κ) (ht2 : 4 * t < s.N) :
    chainedTo_block (extend s).1 t = chainedTo_block s t := by
  obtain ⟨sc, hdec, hscN, hscNB, hscb, hsciv, hscflag, hscvb, hscrel, hret, hκb,
    hc0, hc1, hc2, hc3, hcκ0, hcκ1, hcκ2, hcκ3, hframe, hbnd, hκnd⟩ :=
    extend_some_spec4 s κ h
  rw [hdec, sync_chainedTo_all4]
  have hch := (chainedTo_some_iff4 s s.b κ).mp h
  rcases hframe (4 * t) (by omega) (by omega) (by omega) (by omega) (by omega) (by omega)
    (by omega) with hcell | ⟨hpar, hval, hge, hlt, hold⟩
  · apply chainedTo_congr4 s sc t hscN
    intro u hu
    by_cases huB : u = s.b
    · subst huB
      constructor
      · rintro ⟨c1, c2, c3⟩
        exact absurd ⟨c1, c2, c3⟩ (congr_aux_chained4 s s.b κ t h htκ ht2)
      · rintro ⟨c1, c2, c3⟩
        exact absurd ⟨c1, c2, c3⟩
          (congr_aux_unchained4 sc s.b t hbnd (by rw [hscN]; exact ht2))
    · by_cases huκ : u = κ
      · subst huκ
        constructor
        · rintro ⟨c1, c2, c3⟩
          have hcu : chainedTo_block s u = some t := by
            rw [chainedTo_some_iff4]
            exact ⟨c2, ht2, cross_symm c1, c3⟩
          have hsy2 := chainedTo_symm4 s s.b u hbN h
          rw [hsy2] at hcu
          exact absurd (Option.some.inj hcu).symm ht
        · rintro ⟨c1, c2, c3⟩
          exact absurd ⟨c1, c2, c3⟩
            (congr_aux_unchained4 sc u t hκnd (by rw [hscN]; exact ht2))
      · rcases hframe (4 * u) (by omega) (by omega) (by omega) (by omega) (by omega)
          (by omega) (by omega) with hcu | ⟨hpu, hvu, hgu, hlu, holdu⟩
        · rw [hcell, hcu, hscb, show cross (s.b + 1) t u ↔ cross s.b t u from by
            unfold cross; omega]
        · constructor
          · rintro ⟨c1, c2, c3⟩
            rcases holdu with holdu | holdu <;> omega
          · rintro ⟨c1, c2, c3⟩
            rw [hvu] at c2
            have hut : u = t := by omega
            subst hut
            exact absurd rfl (cross_ne c1)
  · have h1 : chainedTo_block sc t = none := by
      rw [chainedTo_none_iff4]
      intro u hu
      obtain ⟨c1, c2, c3, c4⟩ := hu
      rw [hval] at c1
      have hut : u = t := by omega
      subst hut
      exact absurd rfl (cross_ne c3)
    have h2 : chainedTo_block s t = none := by
      rw [chainedTo_none_iff4]
      intro u hu
      obtain ⟨c1, c2, c3, c4⟩ := hu
      rcases hold with hold | hold
      · have huB : u = s.b := by omega
        subst huB
        unfold cross at c3
        omega
      · have huκ : u = κ := by omega
        subst huκ
        have := hch.2.2.2
        omega
    rw [h1, h2]

theorem extend_none_read4 (s : InPlaceArraySec4) (h : chainedTo_block s s.b = none)
    (hflag : s.flag = false) (hWF : s.N = 4 * s.N_blocks) (hb : s.b < s.N_blocks) :
    ∀ j, j < s.N → read_impl (extend s).1 j = read_impl s j := by
  obtain ⟨sc, hdec, hscN, hscNB, hscb, hsciv, hscflag, hscvb, hscrel, hret,
    hA0, hA1, hA2, hA3, hframe, hbnd⟩ := extend_none_spec4 s h
  by_cases hsat : s.N_blocks ≤ s.b + 1
  · -- saturated: the promoted array is fully physical and unchained
    have hscsat : sc.N_blocks ≤ sc.b := by omega
    have hflagT : (sync_meta_to_A sc).flag = true := by
      rw [sync_meta_flag4]
      exact decide_eq_true hscsat
    intro j hj
    rw [hdec, read_impl_flag_true4 _ j hflagT, sync_meta_A_sat4 sc hscsat]
    by_cases hjB : j / 4 = s.b
    · rw [read_impl_uca_none4 s j hflag (by omega) (by rw [hjB]; exact h)]
      have h4 : j = 4 * s.b ∨ j = 4 * s.b + 1 ∨ j = 4 * s.b + 2 ∨ j = 4 * s.b + 3 := by
        omega
      rcases h4 with h4 | h4 | h4 | h4 <;> rw [h4]
      · exact hA0
      · exact hA1
      · exact hA2
      · exact hA3
    · have hjwca : j / 4 < s.b := by omega
      have hnone : chainedTo_block s (j / 4) = none := by
        rw [chainedTo_none_iff4]
        intro u hu
        obtain ⟨c1, c2, c3, c4⟩ := hu
        have hus : u = s.b := by unfold cross at c3; omega
        subst hus
        have hsome : chainedTo_block s (j / 4) = some s.b :=
          (chainedTo_some_iff4 s (j / 4) s.b).mpr ⟨c1, c2, c3, c4⟩
        have hsy := chainedTo_symm4 s (j / 4) s.b (by omega) hsome
        rw [h] at hsy
        exact Option.noConfusion hsy
      rw [read_impl_wca_none4 s j hflag hjwca hnone]
      rcases hframe j (by omega) (by omega) (by omega) (by omega) with hcell |
        ⟨hpar, hval, hge, hlt, hold, hiv⟩
      · exact hcell
      · exact absurd hlt (by omega)
  · -- unsaturated: the stash refresh is transparent, mirror the direct argument
    have hscflag' : sc.flag = false := by rw [hscflag]; exact hflag
    have hsync : ∀ j, j < s.N → read_impl (sync_meta_to_A sc) j = read_impl sc j := by
      intro j hj
      exact sync_read4 sc (by omega) hscflag' (by rw [hscN, hscNB]; exact hWF) j
        (by rw [hscN]; exact hj)
    intro j hj
    rw [hdec, hsync j hj]
    by_cases hjB : j / 4 = s.b
    · rw [read_impl_uca_none4 s j hflag (by omega) (by rw [hjB]; exact h),
          read_impl_wca_none4 sc j hscflag' (by omega) (by rw [hjB]; exact hbnd)]
      have h4 : j = 4 * s.b ∨ j = 4 * s.b + 1 ∨ j = 4 * s.b + 2 ∨ j = 4 * s.b + 3 := by
        omega
      rcases h4 with h4 | h4 | h4 | h4 <;> rw [h4]
      · rw [hA0]
      · rw [hA1]
      · rw [hA2]
      · rw [hA3]
    · have hstat : chainedTo_block sc (j / 4) = chainedTo_block s (j / 4) := by
        have hs := extend_none_status4 s h (j / 4) hjB (by omega)
        rw [hdec, sync_chainedTo_all4] at hs
        exact hs
      rcases hframe j (by omega) (by omega) (by omega) (by omega) with hcell |
        ⟨hpar, hval, hge, hlt, hold, hiv⟩
      · apply read_impl_congr4 s sc j hscflag' hflag hstat (by rw [hscb]; omega)
          hsciv hcell
        intro u hside hu
        have huB : ¬ u = s.b := by
          intro hc
          subst hc
          have := chainedTo_symm4 s (j / 4) s.b (by omega) hu
          rw [h] at this
          exact Option.noConfusion this
        have he1 : sc.A (4 * u + 1) = s.A (4 * u + 1) := by
          rcases hframe (4 * u + 1) (by omega) (by omega) (by omega) (by omega) with hcu |
            ⟨hpu, _, _, _, _, _⟩
          · exact hcu
          · omega
        have he2 : sc.A (4 * u + 2) = s.A (4 * u + 2) := by
          rcases hframe (4 * u + 2) (by omega) (by omega) (by omega) (by omega) with hcu |
            ⟨hpu, _, _, _, _, _⟩
          · exact hcu
          · omega
        have he3 : sc.A (4 * u + 3) = s.A (4 * u + 3) := by
          rcases hframe (4 * u + 3) (by omega) (by omega) (by omega) (by omega) with hcu |
            ⟨hpu, _, _, _, _, _⟩
          · exact hcu
          · omega
        exact ⟨he1, he2, he3⟩
      · have hnone : chainedTo_block s (j / 4) = none := by
          rw [chainedTo_none_iff4]
          intro u hu
          obtain ⟨c1, c2, c3, c4⟩ := hu
          have hj4 : 4 * (j / 4) = j := by omega
          rw [hj4, hold] at c1
          have huB : u = s.b := by omega
          subst huB
          unfold cross at c3
          omega
        rw [read_impl_uca_none4 s j hflag (by omega) hnone,
            read_impl_uca_none4 sc j hscflag' (by rw [hscb]; omega)
              (by rw [hstat]; exact hnone)]
        exact hsciv

theorem extend_some_read4 (s : InPlaceArraySec4) (κ : Nat)
    (h : chainedTo_block s s.b = some κ)
    (hflag : s.flag = false) (hWF : s.N = 4 * s.N_blocks) (hb : s.b < s.N_blocks) :
    ∀ j, j < s.N → read_impl (extend s).1 j = read_impl s j := by
  obtain ⟨sc, hdec, hscN, hscNB, hscb, hsciv, hscflag, hscvb, hscrel, hret, hκb,
    hc0, hc1, hc2, hc3, hcκ0, hcκ1, hcκ2, hcκ3, hframe, hbnd, hκnd⟩ :=
    extend_some_spec4 s κ h
  have hbN : 4 * s.b < s.N := by omega
  have hsy := chainedTo_symm4 s s.b κ hbN h
  have hch := (chainedTo_some_iff4 s s.b κ).mp h
  by_cases hsat : s.N_blocks ≤ s.b + 1
  · -- saturated: the promoted array is fully physical and unchained
    have hscsat : sc.N_blocks ≤ sc.b := by omega
    have hflagT : (sync_meta_to_A sc).flag = true := by
      rw [sync_meta_flag4]
      exact decide_eq_true hscsat
    intro j hj
    rw [hdec, read_impl_flag_true4 _ j hflagT, sync_meta_A_sat4 sc hscsat]
    by_cases hjB : j / 4 = s.b
    · by_cases h0 : j % 4 = 0
      · rw [read_impl_uca_some_04 s j κ hflag (by omega) h0 (by rw [hjB]; exact h),
            show j = 4 * s.b from by omega, hc0]
      · by_cases h1 : j % 4 = 1
        · rw [read_impl_uca_some_14 s j κ hflag (by omega) h1 (by rw [hjB]; exact h),
              show j = 4 * s.b + 1 from by omega, hc1]
        · by_cases h2 : j % 4 = 2
          · rw [read_impl_uca_some_24 s j κ hflag (by omega) h2 (by rw [hjB]; exact h),
                show j = 4 * s.b + 2 from by omega, hc2]
          · rw [read_impl_uca_some_34 s j κ hflag (by omega) (by omega)
                  (by rw [hjB]; exact h),
                show j = 4 * s.b + 3 from by omega, hc3]
    · by_cases hjκ : j / 4 = κ
      · rw [read_impl_wca_some4 s j s.b hflag (by omega) (by rw [hjκ]; exact hsy)]
        have h4 : j = 4 * κ ∨ j = 4 * κ + 1 ∨ j = 4 * κ + 2 ∨ j = 4 * κ + 3 := by omega
        rcases h4 with h4 | h4 | h4 | h4 <;> rw [h4]
        · exact hcκ0
        · exact hcκ1
        · exact hcκ2
        · exact hcκ3
      · have hjwca : j / 4 < s.b := by omega
        have hnone : chainedTo_block s (j / 4) = none := by
          rw [chainedTo_none_iff4]
          intro u hu
          obtain ⟨c1, c2, c3, c4⟩ := hu
          have hus : u = s.b := by unfold cross at c3; omega
          subst hus
          have hsome : chainedTo_block s (j / 4) = some s.b :=
            (chainedTo_some_iff4 s (j / 4) s.b).mpr ⟨c1, c2, c3, c4⟩
          have hsy2 := chainedTo_symm4 s (j / 4) s.b (by omega) hsome
          rw [h] at hsy2
          exact absurd (Option.some.inj hsy2).symm hjκ
        rw [read_impl_wca_none4 s j hflag hjwca hnone]
        rcases hframe j (by omega) (by omega) (by omega) (by omega) (by omega) (by omega)
          (by omega) with hcell | ⟨hpar, hval, hge, hlt, hold⟩
        · exact hcell
        · exact absurd hlt (by omega)
  · -- unsaturated
    have hscflag' : sc.flag = false := by rw [hscflag]; exact hflag
    have hsync : ∀ j, j < s.N → read_impl (sync_meta_to_A sc) j = read_impl sc j := by
      intro j hj
      exact sync_read4 sc (by omega) hscflag' (by rw [hscN, hscNB]; exact hWF) j
        (by rw [hscN]; exact hj)
    intro j hj
    rw [hdec, hsync j hj]
    by_cases hjB : j / 4 = s.b
    · rw [read_impl_wca_none4 sc j hscflag' (by omega) (by rw [hjB]; exact hbnd)]
      by_cases h0 : j % 4 = 0
      · rw [read_impl_uca_some_04 s j κ hflag (by omega) h0 (by rw [hjB]; exact h),
            show j = 4 * s.b from by omega, hc0]
      · by_cases h1 : j % 4 = 1
        · rw [read_impl_uca_some_14 s j κ hflag (by omega) h1 (by rw [hjB]; exact h),
              show j = 4 * s.b + 1 from by omega, hc1]
        · by_cases h2 : j % 4 = 2
          · rw [read_impl_uca_some_24 s j κ hflag (by omega) h2 (by rw [hjB]; exact h),
                show j = 4 * s.b + 2 from by omega, hc2]
          · rw [read_impl_uca_some_34 s j κ hflag (by omega) (by omega)
                  (by rw [hjB]; exact h),
                show j = 4 * s.b + 3 from by omega, hc3]
    · by_cases hjκ : j / 4 = κ
      · rw [read_impl_wca_some4 s j s.b hflag (by omega) (by rw [hjκ]; exact hsy),
            read_impl_wca_none4 sc j hscflag' (by omega) (by rw [hjκ]; exact hκnd)]
        have h4 : j = 4 * κ ∨ j = 4 * κ + 1 ∨ j = 4 * κ + 2 ∨ j = 4 * κ + 3 := by omega
        rcases h4 with h4 | h4 | h4 | h4 <;> rw [h4]
        · rw [hcκ0]
        · rw [hcκ1]
        · rw [hcκ2]
        · rw [hcκ3]
      · have hstat : chainedTo_block sc (j / 4) = chainedTo_block s (j / 4) := by
          have hs := extend_some_status4 s κ h hbN (j / 4) hjB hjκ (by omega)
          rw [hdec, sync_chainedTo_all4] at hs
          exact hs
        rcases hframe j (by omega) (by omega) (by omega) (by omega) (by omega) (by omega)
          (by omega) with hcell | ⟨hpar, hval, hge, hlt, hold⟩
        · apply read_impl_congr4 s sc j hscflag' hflag hstat (by rw [hscb]; omega)
            hsciv hcell
          intro u hside hu
          have huB : ¬ u = s.b := by
            intro hc
            subst hc
            have := chainedTo_symm4 s (j / 4) s.b (by omega) hu
            rw [h] at this
            exact absurd (Option.some.inj this).symm hjκ
          have huκ : ¬ u = κ := by
            intro hc
            rw [hc] at hu
            have := chainedTo_symm4 s (j / 4) κ (by omega) hu
            rw [hsy] at this
            exact absurd (Option.some.inj this).symm hjB
          have he1 : sc.A (4 * u + 1) = s.A (4 * u + 1) := by
            rcases hframe (4 * u + 1) (by omega) (by omega) (by omega) (by omega)
              (by omega) (by omega) (by omega) with hcu | ⟨hpu, _, _, _, _⟩
            · exact hcu
            · omega
          have he2 : sc.A (4 * u + 2) = s.A (4 * u + 2) := by
            rcases hframe (4 * u + 2) (by omega) (by omega) (by omega) (by omega)
              (by omega) (by omega) (by omega) with hcu | ⟨hpu, _, _, _, _⟩
            · exact hcu
            · omega
          have he3 : sc.A (4 * u + 3) = s.A (4 * u + 3) := by
            rcases hframe (4 * u + 3) (by omega) (by omega) (by omega) (by omega)
              (by omega) (by omega) (by omega) with hcu | ⟨hpu, _, _, _, _⟩
            · exact hcu
            · omega
          exact ⟨he1, he2, he3⟩
        · have hnone : chainedTo_block s (j / 4) = none := by
            rw [chainedTo_none_iff4]
            intro u hu
            obtain ⟨c1, c2, c3, c4⟩ := hu
            have hj4 : 4 * (j / 4) = j := by omega
            rw [hj4] at c1
            rcases hold with hold | hold
            · rw [hold] at c1
              have huB : u = s.b := by omega
              subst huB
              unfold cross at c3
              omega
            · rw [hold] at c1
              have huκ : u = κ := by omega
              subst huκ
              have := hch.2.2.2
              omega
          rw [read_impl_uca_none4 s j hflag (by omega) hnone,
              read_impl_uca_none4 sc j hscflag' (by rw [hscb]; omega)
                (by rw [hstat]; exact hnone)]
          exact hsciv

end InPlaceArraySec4

namespace InPlaceArraySec4

/-! ### The two relocation write paths, characterized over the resulting cells -/

/-- Section-4 fresh-chain write path: after `initBlock bi; makeChain bk2 bi`
and the write-through, in a state `sY` whose cells are as those operations
leave them, index `i` reads `v` and every other index is unchanged. -/
theorem write_effect_fresh_finish4 (s1 sY : InPlaceArraySec4) (i : Nat) (v : Int) (bk2 : Nat)
    (hiN : i < s1.N) (hbi : s1.b ≤ i / 4) (hflag : s1.flag = false)
    (hk1 : chainedTo_block s1 (i / 4) = none)
    (hbk2 : chainedTo_block s1 bk2 = none) (hbk2b : bk2 < s1.b) (h2bk2 : 4 * bk2 < s1.N)
    (hA0 : s1.A (4 * bk2) = s1.initv) (hA1 : s1.A (4 * bk2 + 1) = s1.initv)
    (hA2 : s1.A (4 * bk2 + 2) = s1.initv) (hA3 : s1.A (4 * bk2 + 3) = s1.initv)
    (hYb : sY.b = s1.b) (hYN : sY.N = s1.N) (hYiv : sY.initv = s1.initv)
    (hYflag : sY.flag = false)
    (hYc0 : sY.A (4 * (i / 4)) = ((4 * bk2 : Nat) : Int))
    (hYc1 : sY.A (4 * bk2) = ((4 * (i / 4) : Nat) : Int))
    (hYpart1 : sY.A (4 * bk2 + 1) = (if i % 4 = 0 then v else s1.A (4 * bk2 + 1)))
    (hYpart2 : sY.A (4 * bk2 + 2) = (if i % 4 = 1 then v else s1.A (4 * bk2 + 2)))
    (hYpart3 : sY.A (4 * bk2 + 3) = (if i % 4 = 2 then v else s1.A (4 * bk2 + 3)))
    (hYown : ∀ j, j / 4 = i / 4 → ¬ j = i → j % 4 = 3 → sY.A j = s1.initv)
    (hYi : i % 4 = 3 → sY.A i = v)
    (hYother : ∀ j, ¬ j / 4 = i / 4 → ¬ j / 4 = bk2 → sY.A j = s1.A j) :
    ∀ j, j < s1.N →
      read_impl sY j = if j = i then v else read_impl s1 j := by
  have hBk : ¬ i / 4 = bk2 := by omega
  have hstatB : chainedTo_block sY (i / 4) = some bk2 := by
    rw [chainedTo_some_iff4, hYN, hYb]
    exact ⟨hYc0, h2bk2, Or.inr ⟨hbk2b, hbi⟩, hYc1⟩
  have hstatk : chainedTo_block sY bk2 = some (i / 4) :=
    chainedTo_symm4 sY (i / 4) bk2 (by rw [hYN]; omega) hstatB
  have hstatg : ∀ t, ¬ t = i / 4 → ¬ t = bk2 → 4 * t < s1.N →
      chainedTo_block sY t = chainedTo_block s1 t := by
    intro t ht hk ht2
    apply chainedTo_congr4 s1 sY t hYN
    intro u hu
    by_cases huB : u = i / 4
    · subst huB
      constructor
      · rintro ⟨c1, c2, c3⟩
        exact absurd ⟨c1, c2, c3⟩ (congr_aux_unchained4 s1 (i / 4) t hk1 ht2)
      · rintro ⟨c1, c2, c3⟩
        exact absurd ⟨c1, c2, c3⟩
          (congr_aux_chained4 sY (i / 4) bk2 t hstatB hk (by rw [hYN]; exact ht2))
    · by_cases huk : u = bk2
      · rw [huk]
        constructor
        · rintro ⟨c1, c2, c3⟩
          exact absurd ⟨c1, c2, c3⟩ (congr_aux_unchained4 s1 bk2 t hbk2 ht2)
        · rintro ⟨c1, c2, c3⟩
          exact absurd ⟨c1, c2, c3⟩
            (congr_aux_chained4 sY bk2 (i / 4) t hstatk ht (by rw [hYN]; exact ht2))
      · rw [hYb, hYother (4 * t) (by omega) (by omega), hYother (4 * u) (by omega) (by omega)]
  intro j hj
  by_cases hji : j = i
  · subst hji
    rw [if_pos rfl]
    by_cases h0 : j % 4 = 0
    · rw [read_impl_uca_some_04 sY j bk2 hYflag (by omega) h0 hstatB, hYpart1, if_pos h0]
    · by_cases h1 : j % 4 = 1
      · rw [read_impl_uca_some_14 sY j bk2 hYflag (by omega) h1 hstatB, hYpart2, if_pos h1]
      · by_cases h2 : j % 4 = 2
        · rw [read_impl_uca_some_24 sY j bk2 hYflag (by omega) h2 hstatB, hYpart3,
              if_pos h2]
        · rw [read_impl_uca_some_34 sY j bk2 hYflag (by omega) (by omega) hstatB]
          exact hYi (by omega)
  · rw [if_neg hji]
    by_cases hjB : j / 4 = i / 4
    · by_cases h0 : j % 4 = 0
      · rw [read_impl_uca_some_04 sY j bk2 hYflag (by omega) h0 (by rw [hjB]; exact hstatB),
            read_impl_uca_none4 s1 j hflag (by omega) (by rw [hjB]; exact hk1),
            hYpart1, if_neg (by omega)]
        exact hA1
      · by_cases h1 : j % 4 = 1
        · rw [read_impl_uca_some_14 sY j bk2 hYflag (by omega) h1
                (by rw [hjB]; exact hstatB),
              read_impl_uca_none4 s1 j hflag (by omega) (by rw [hjB]; exact hk1),
              hYpart2, if_neg (by omega)]
          exact hA2
        · by_cases h2 : j % 4 = 2
          · rw [read_impl_uca_some_24 sY j bk2 hYflag (by omega) h2
                  (by rw [hjB]; exact hstatB),
                read_impl_uca_none4 s1 j hflag (by omega) (by rw [hjB]; exact hk1),
                hYpart3, if_neg (by omega)]
            exact hA3
          · rw [read_impl_uca_some_34 sY j bk2 hYflag (by omega) (by omega)
                  (by rw [hjB]; exact hstatB),
                read_impl_uca_none4 s1 j hflag (by omega) (by rw [hjB]; exact hk1)]
            exact hYown j hjB hji (by omega)
    · by_cases hjk : j / 4 = bk2
      · rw [read_impl_wca_some4 sY j (i / 4) hYflag (by omega) (by rw [hjk]; exact hstatk),
            read_impl_wca_none4 s1 j hflag (by omega) (by rw [hjk]; exact hbk2), hYiv]
        have h4 : j = 4 * bk2 ∨ j = 4 * bk2 + 1 ∨ j = 4 * bk2 + 2 ∨ j = 4 * bk2 + 3 := by
          omega
        rcases h4 with h4 | h4 | h4 | h4 <;> rw [h4]
        · exact hA0.symm
        · exact hA1.symm
        · exact hA2.symm
        · exact hA3.symm
      · apply read_impl_congr4 s1 sY j hYflag hflag (hstatg (j / 4) hjB hjk (by omega))
          (by rw [hYb]) hYiv (hYother j hjB hjk)
        intro u hside hu
        have huB : ¬ u = i / 4 := by
          intro hc
          rw [hc] at hu
          have h2 := chainedTo_symm4 s1 (j / 4) (i / 4) (by omega) hu
          rw [hk1] at h2
          exact Option.noConfusion h2
        have huk : ¬ u = bk2 := by
          intro hc
          rw [hc] at hu
          have h2 := chainedTo_symm4 s1 (j / 4) bk2 (by omega) hu
          rw [hbk2] at h2
          exact Option.noConfusion h2
        exact ⟨hYother (4 * u + 1) (by omega) (by omega),
               hYother (4 * u + 2) (by omega) (by omega),
               hYother (4 * u + 3) (by omega) (by omega)⟩

/-- Section-4 relocation write path: the chained block `i/4` is swapped with
the freed block `bj`, the chain is re-formed from `bj` to the old partner `kk`,
`i/4` is re-initialized and written; the final defensive `breakChain` removes
any spurious chain the written value may form. -/
theorem write_effect_swap_finish4 (s1 sY : InPlaceArraySec4) (i : Nat) (v : Int) (bj kk : Nat)
    (hiN : i < s1.N) (hbi : i / 4 < s1.b) (hflag : s1.flag = false)
    (hk1 : chainedTo_block s1 (i / 4) = some kk)
    (hbj : chainedTo_block s1 bj = none) (hbjb : bj < s1.b) (hbjB : ¬ bj = i / 4)
    (h2bj : 4 * bj < s1.N)
    (hA0 : s1.A (4 * bj) = s1.initv) (hA1 : s1.A (4 * bj + 1) = s1.initv)
    (hA2 : s1.A (4 * bj + 2) = s1.initv) (hA3 : s1.A (4 * bj + 3) = s1.initv)
    (hYb : sY.b = s1.b) (hYN : sY.N = s1.N) (hYiv : sY.initv = s1.initv)
    (hYflag : sY.flag = false)
    (hYi : sY.A i = v)
    (hYown : ∀ j, j / 4 = i / 4 → ¬ j = i → sY.A j = s1.initv)
    (hYbj0 : sY.A (4 * bj) = ((4 * kk : Nat) : Int))
    (hYbj1 : sY.A (4 * bj + 1) = s1.A (4 * (i / 4) + 1))
    (hYbj2 : sY.A (4 * bj + 2) = s1.A (4 * (i / 4) + 2))
    (hYbj3 : sY.A (4 * bj + 3) = s1.A (4 * (i / 4) + 3))
    (hYkk0 : sY.A (4 * kk) = ((4 * bj : Nat) : Int))
    (hYkk1 : sY.A (4 * kk + 1) = s1.A (4 * kk + 1))
    (hYkk2 : sY.A (4 * kk + 2) = s1.A (4 * kk + 2))
    (hYkk3 : sY.A (4 * kk + 3) = s1.A (4 * kk + 3))
    (hYother : ∀ j, ¬ j / 4 = i / 4 → ¬ j / 4 = bj → ¬ j = 4 * kk → sY.A j = s1.A j) :
    ∀ j, j < s1.N →
      read_impl (breakChain sY (i / 4)) j = if j = i then v else read_impl s1 j := by
  have hkk := (chainedTo_some_iff4 s1 (i / 4) kk).mp hk1
  have hkkb : s1.b ≤ kk := by
    have hcr := hkk.2.2.1
    unfold cross at hcr
    omega
  have h4kk : 4 * kk < s1.N := hkk.2.1
  have hsy1 := chainedTo_symm4 s1 (i / 4) kk (by omega) hk1
  have hstatbj : chainedTo_block sY bj = some kk := by
    rw [chainedTo_some_iff4, hYN, hYb]
    exact ⟨hYbj0, h4kk, Or.inl ⟨hbjb, hkkb⟩, hYkk0⟩
  have hstatkk : chainedTo_block sY kk = some bj :=
    chainedTo_symm4 sY bj kk (by rw [hYN]; omega) hstatbj
  have hbrk : ∀ p, chainedTo_block sY (i / 4) = some p →
      s1.b ≤ p ∧ ¬ p = kk ∧ ¬ p = bj ∧ 4 * p < s1.N ∧
      s1.A (4 * p) = ((4 * (i / 4) : Nat) : Int) ∧ chainedTo_block s1 p = none := by
    intro p hp
    have hiff := (chainedTo_some_iff4 sY (i / 4) p).mp hp
    have hpb : s1.b ≤ p := by
      have hcr := hiff.2.2.1
      rw [hYb] at hcr
      unfold cross at hcr
      omega
    have hpkk : ¬ p = kk := by
      intro hc
      rw [hc] at hiff
      have h4 := hiff.2.2.2
      rw [hYkk0] at h4
      omega
    have hpbj : ¬ p = bj := by omega
    have hpN : 4 * p < s1.N := by rw [← hYN]; exact hiff.2.1
    have hrec : s1.A (4 * p) = ((4 * (i / 4) : Nat) : Int) := by
      have h4 := hiff.2.2.2
      rw [hYother (4 * p) (by omega) (by omega) (by omega)] at h4
      exact h4
    refine ⟨hpb, hpkk, hpbj, hpN, hrec, ?_⟩
    rw [chainedTo_none_iff4]
    intro u hu
    obtain ⟨c1, c2, c3, c4⟩ := hu
    have huB : u = i / 4 := by
      have := hrec
      omega
    subst huB
    have hchain : chainedTo_block s1 (i / 4) = some p := by
      rw [chainedTo_some_iff4]
      exact ⟨c4, hpN, cross_symm c3, c1⟩
    rw [hk1] at hchain
    exact hpkk (Option.some.inj hchain).symm
  have hFA : ∀ j, (∀ p, chainedTo_block sY (i / 4) = some p → ¬ j = 4 * p) →
      (breakChain sY (i / 4)).A j = sY.A j := by
    intro j hp
    exact breakChain_A_frame4 sY (i / 4) j (fun p h => hp p h)
  have hFb : (breakChain sY (i / 4)).b = s1.b := by rw [breakChain_b4, hYb]
  have hFiv : (breakChain sY (i / 4)).initv = s1.initv := by rw [breakChain_initv4, hYiv]
  have hFflag : (breakChain sY (i / 4)).flag = false := by rw [breakChain_flag4, hYflag]
  have hFstatB : chainedTo_block (breakChain sY (i / 4)) (i / 4) = none :=
    chainedTo_breakChain_self4 sY (i / 4)
  have hFstatbj : chainedTo_block (breakChain sY (i / 4)) bj = some kk := by
    rw [chainedTo_breakChain_other4 sY (i / 4) bj hbjB
      (by intro hc; obtain ⟨hpb, _, _, _, _, _⟩ := hbrk bj hc; omega)]
    exact hstatbj
  have hFstatkk : chainedTo_block (breakChain sY (i / 4)) kk = some bj := by
    rw [chainedTo_breakChain_other4 sY (i / 4) kk (by omega)
      (by intro hc; obtain ⟨_, hpkk, _, _, _, _⟩ := hbrk kk hc; exact hpkk rfl)]
    exact hstatkk
  have hstatg : ∀ t, ¬ t = i / 4 → ¬ t = bj → ¬ t = kk → 4 * t < s1.N →
      ¬ chainedTo_block sY (i / 4) = some t →
      chainedTo_block sY t = chainedTo_block s1 t := by
    intro t ht htbj htkk ht2 hexcl
    apply chainedTo_congr4 s1 sY t hYN
    intro u hu
    by_cases huB : u = i / 4
    · subst huB
      constructor
      · rintro ⟨c1, c2, c3⟩
        exact absurd ⟨c1, c2, c3⟩ (congr_aux_chained4 s1 (i / 4) kk t hk1 htkk ht2)
      · rintro ⟨c1, c2, c3⟩
        have hsp : chainedTo_block sY t = some (i / 4) := by
          rw [chainedTo_some_iff4]
          exact ⟨c3, by rw [hYN]; omega, c1, c2⟩
        exact (hexcl (chainedTo_symm4 sY t (i / 4) (by rw [hYN]; exact ht2) hsp)).elim
    · by_cases hubj : u = bj
      · rw [hubj]
        constructor
        · rintro ⟨c1, c2, c3⟩
          exact absurd ⟨c1, c2, c3⟩ (congr_aux_unchained4 s1 bj t hbj ht2)
        · rintro ⟨c1, c2, c3⟩
          exact absurd ⟨c1, c2, c3⟩
            (congr_aux_chained4 sY bj kk t hstatbj htkk (by rw [hYN]; exact ht2))
      · by_cases hukk : u = kk
        · rw [hukk]
          constructor
          · rintro ⟨c1, c2, c3⟩
            exact absurd ⟨c1, c2, c3⟩ (congr_aux_chained4 s1 kk (i / 4) t hsy1 ht ht2)
          · rintro ⟨c1, c2, c3⟩
            exact absurd ⟨c1, c2, c3⟩
              (congr_aux_chained4 sY kk bj t hstatkk htbj (by rw [hYN]; exact ht2))
        · rw [hYb, hYother (4 * t) (by omega) (by omega) (by omega),
              hYother (4 * u) (by omega) (by omega) (by omega)]
  intro j hj
  by_cases hji : j = i
  · subst hji
    rw [if_pos rfl,
        read_impl_wca_none4 (breakChain sY (j / 4)) j hFflag (by rw [hFb]; omega) hFstatB,
        hFA j (by intro p hp hc; have := (hbrk p hp).1; omega), hYi]
  · rw [if_neg hji]
    by_cases hjB : j / 4 = i / 4
    · rw [read_impl_wca_none4 (breakChain sY (i / 4)) j hFflag
          (by rw [hFb]; omega) (by rw [hjB]; exact hFstatB),
          read_impl_wca_some4 s1 j kk hflag (by omega) (by rw [hjB]; exact hk1),
          hFA j (by intro p hp hc; have := (hbrk p hp).1; omega)]
      exact hYown j hjB hji
    · by_cases hjbj : j / 4 = bj
      · rw [read_impl_wca_some4 (breakChain sY (i / 4)) j kk hFflag
            (by rw [hFb]; omega) (by rw [hjbj]; exact hFstatbj),
            read_impl_wca_none4 s1 j hflag (by omega) (by rw [hjbj]; exact hbj), hFiv]
        have h4 : j = 4 * bj ∨ j = 4 * bj + 1 ∨ j = 4 * bj + 2 ∨ j = 4 * bj + 3 := by omega
        rcases h4 with h4 | h4 | h4 | h4 <;> rw [h4]
        · exact hA0.symm
        · exact hA1.symm
        · exact hA2.symm
        · exact hA3.symm
      · by_cases hjkk : j / 4 = kk
        · by_cases h0 : j % 4 = 0
          · rw [read_impl_uca_some_04 (breakChain sY (i / 4)) j bj hFflag
                  (by rw [hFb]; omega) h0 (by rw [hjkk]; exact hFstatkk),
                read_impl_uca_some_04 s1 j (i / 4) hflag (by omega) h0
                  (by rw [hjkk]; exact hsy1),
                hFA (4 * bj + 1) (by intro p hp hc; omega), hYbj1]
          · by_cases h1 : j % 4 = 1
            · rw [read_impl_uca_some_14 (breakChain sY (i / 4)) j bj hFflag
                    (by rw [hFb]; omega) h1 (by rw [hjkk]; exact hFstatkk),
                  read_impl_uca_some_14 s1 j (i / 4) hflag (by omega) h1
                    (by rw [hjkk]; exact hsy1),
                  hFA (4 * bj + 2) (by intro p hp hc; omega), hYbj2]
            · by_cases h2 : j % 4 = 2
              · rw [read_impl_uca_some_24 (breakChain sY (i / 4)) j bj hFflag
                      (by rw [hFb]; omega) h2 (by rw [hjkk]; exact hFstatkk),
                    read_impl_uca_some_24 s1 j (i / 4) hflag (by omega) h2
                      (by rw [hjkk]; exact hsy1),
                    hFA (4 * bj + 3) (by intro p hp hc; omega), hYbj3]
              · rw [read_impl_uca_some_34 (breakChain sY (i / 4)) j bj hFflag
                      (by rw [hFb]; omega) (by omega) (by rw [hjkk]; exact hFstatkk),
                    read_impl_uca_some_34 s1 j (i / 4) hflag (by omega) (by omega)
                      (by rw [hjkk]; exact hsy1),
                    hFA j (by intro p hp hc; omega)]
                rw [show j = 4 * kk + 3 from by omega]
                exact hYkk3
        · cases hcF : chainedTo_block sY (i / 4) with
          | none =>
              rw [breakChain_of_none4 sY (i / 4) hcF]
              apply read_impl_congr4 s1 sY j hYflag hflag
                (hstatg (j / 4) hjB hjbj hjkk (by omega)
                  (by rw [hcF]; exact fun h => Option.noConfusion h))
                (by rw [hYb]) hYiv (hYother j hjB hjbj (by omega))
              intro u hside hu
              have huB : ¬ u = i / 4 := by
                intro hc
                rw [hc] at hu
                have h2 := chainedTo_symm4 s1 (j / 4) (i / 4) (by omega) hu
                rw [hk1] at h2
                exact hjkk (Option.some.inj h2).symm
              have hubj : ¬ u = bj := by
                intro hc
                rw [hc] at hu
                have h2 := chainedTo_symm4 s1 (j / 4) bj (by omega) hu
                rw [hbj] at h2
                exact Option.noConfusion h2
              exact ⟨hYother (4 * u + 1) (by omega) (by omega) (by omega),
                     hYother (4 * u + 2) (by omega) (by omega) (by omega),
                     hYother (4 * u + 3) (by omega) (by omega) (by omega)⟩
          | some p =>
              obtain ⟨hpb, hpkk, hpbj, hpN, hrec, hpnone⟩ := hbrk p hcF
              by_cases hjp : j / 4 = p
              · rw [read_impl_uca_none4 s1 j hflag (by omega) (by rw [hjp]; exact hpnone),
                    read_impl_uca_none4 (breakChain sY (i / 4)) j hFflag
                      (by rw [hFb]; omega)
                      (by rw [hjp]; exact chainedTo_breakChain_partner4 sY (i / 4) p hcF)]
                exact hFiv
              · have hexcl : ¬ chainedTo_block sY (i / 4) = some (j / 4) := by
                  rw [hcF]
                  intro hc
                  exact hjp (Option.some.inj hc).symm
                have hstat2 : chainedTo_block (breakChain sY (i / 4)) (j / 4) =
                    chainedTo_block s1 (j / 4) := by
                  rw [chainedTo_breakChain_other4 sY (i / 4) (j / 4) hjB hexcl]
                  exact hstatg (j / 4) hjB hjbj hjkk (by omega) hexcl
                have hjfr : (breakChain sY (i / 4)).A j = sY.A j := by
                  apply hFA j
                  intro q hq hc
                  rw [hcF] at hq
                  have hqp := Option.some.inj hq
                  omega
                apply read_impl_congr4 s1 (breakChain sY (i / 4)) j hFflag hflag hstat2
                  (by rw [hFb]) hFiv
                · rw [hjfr]
                  exact hYother j hjB hjbj (by omega)
                · intro u hside hu
                  have huB : ¬ u = i / 4 := by
                    intro hc
                    rw [hc] at hu
                    have h2 := chainedTo_symm4 s1 (j / 4) (i / 4) (by omega) hu
                    rw [hk1] at h2
                    exact hjkk (Option.some.inj h2).symm
                  have hubj : ¬ u = bj := by
                    intro hc
                    rw [hc] at hu
                    have h2 := chainedTo_symm4 s1 (j / 4) bj (by omega) hu
                    rw [hbj] at h2
                    exact Option.noConfusion h2
                  refine ⟨?_, ?_, ?_⟩
                  · rw [hFA (4 * u + 1) (by intro q hq hc; omega)]
                    exact hYother (4 * u + 1) (by omega) (by omega) (by omega)
                  · rw [hFA (4 * u + 2) (by intro q hq hc; omega)]
                    exact hYother (4 * u + 2) (by omega) (by omega) (by omega)
                  · rw [hFA (4 * u + 3) (by intro q hq hc; omega)]
                    exact hYother (4 * u + 3) (by omega) (by omega) (by omega)

end InPlaceArraySec4

namespace InPlaceArraySec4

/-! ### Single-cell updates at non-aligned positions -/

/-- Writing a non-aligned cell changes no chain status. -/
theorem chainedTo_upd_nonaligned4 (s : InPlaceArraySec4) (c : Nat) (v : Int)
    (hc : ¬ c % 4 = 0) (t : Nat) :
    chainedTo_block { s with A := upd s.A c v } t = chainedTo_block s t := by
  apply chainedTo_congr4 s { s with A := upd s.A c v } t rfl
  intro u hu
  have e1 : upd s.A c v (4 * t) = s.A (4 * t) := upd_ne _ _ _ _ (by omega)
  have e2 : upd s.A c v (4 * u) = s.A (4 * u) := upd_ne _ _ _ _ (by omega)
  show _ ↔ (cross s.b t u ∧ upd s.A c v (4 * u) = _ ∧ upd s.A c v (4 * t) = _)
  rw [e1, e2]

/-- A write to a non-aligned cell is invisible to any read that does not
resolve to that cell. -/
theorem read_upd_other4 (s : InPlaceArraySec4) (c : Nat) (v : Int)
    (hflag : s.flag = false) (hcnal : ¬ c % 4 = 0) (j : Nat) (hjc : ¬ j = c)
    (hpart : ∀ u, chainedTo_block s (j / 4) = some u → ¬ j < 4 * s.b →
       (j % 4 = 0 → ¬ 4 * u + 1 = c) ∧ (j % 4 = 1 → ¬ 4 * u + 2 = c) ∧
       (j % 4 = 2 → ¬ 4 * u + 3 = c)) :
    read_impl { s with A := upd s.A c v } j = read_impl s j := by
  set sm : InPlaceArraySec4 := { s with A := upd s.A c v } with hsm
  have hsmflag : sm.flag = false := hflag
  have hsmb : sm.b = s.b := rfl
  have hstat : chainedTo_block sm (j / 4) = chainedTo_block s (j / 4) :=
    chainedTo_upd_nonaligned4 s c v hcnal (j / 4)
  by_cases hside : j < 4 * s.b
  · cases hc2 : chainedTo_block s (j / 4) with
    | none =>
        rw [read_impl_wca_none4 sm j hsmflag (by omega) (by rw [hstat]; exact hc2),
            read_impl_wca_none4 s j hflag (by omega) hc2]
        show upd s.A c v j = s.A j
        exact upd_ne _ _ _ _ hjc
    | some u =>
        rw [read_impl_wca_some4 sm j u hsmflag (by omega) (by rw [hstat]; exact hc2),
            read_impl_wca_some4 s j u hflag (by omega) hc2]
  · cases hc2 : chainedTo_block s (j / 4) with
    | none =>
        rw [read_impl_uca_none4 sm j hsmflag (by omega) (by rw [hstat]; exact hc2),
            read_impl_uca_none4 s j hflag (by omega) hc2]
    | some u =>
        obtain ⟨p0, p1, p2⟩ := hpart u hc2 hside
        by_cases h0 : j % 4 = 0
        · rw [read_impl_uca_some_04 sm j u hsmflag (by omega) h0
              (by rw [hstat]; exact hc2),
              read_impl_uca_some_04 s j u hflag (by omega) h0 hc2]
          show upd s.A c v (4 * u + 1) = s.A (4 * u + 1)
          exact upd_ne _ _ _ _ (p0 h0)
        · by_cases h1 : j % 4 = 1
          · rw [read_impl_uca_some_14 sm j u hsmflag (by omega) h1
                (by rw [hstat]; exact hc2),
                read_impl_uca_some_14 s j u hflag (by omega) h1 hc2]
            show upd s.A c v (4 * u + 2) = s.A (4 * u + 2)
            exact upd_ne _ _ _ _ (p1 h1)
          · by_cases h2 : j % 4 = 2
            · rw [read_impl_uca_some_24 sm j u hsmflag (by omega) h2
                  (by rw [hstat]; exact hc2),
                  read_impl_uca_some_24 s j u hflag (by omega) h2 hc2]
              show upd s.A c v (4 * u + 3) = s.A (4 * u + 3)
              exact upd_ne _ _ _ _ (p2 h2)
            · rw [read_impl_uca_some_34 sm j u hsmflag (by omega) (by omega)
                  (by rw [hstat]; exact hc2),
                  read_impl_uca_some_34 s j u hflag (by omega) (by omega) hc2]
              show upd s.A c v j = s.A j
              exact upd_ne _ _ _ _ hjc

/-- Status preservation under a single in-block cell write: if neither the old
nor the new content of block `i/4` can be detected as chained to `t`, then
`t`'s status is untouched by `A[i] := v`. -/
theorem chainedTo_upd_cell4 (s : InPlaceArraySec4) (i : Nat) (v : Int) (t : Nat)
    (ht : ¬ t = i / 4) (ht2 : 4 * t < s.N)
    (hfs : ¬ (cross s.b t (i / 4) ∧ s.A (4 * (i / 4)) = ((4 * t : Nat) : Int) ∧
        s.A (4 * t) = ((4 * (i / 4) : Nat) : Int)))
    (hfm : ¬ (cross s.b t (i / 4) ∧ upd s.A i v (4 * (i / 4)) = ((4 * t : Nat) : Int) ∧
        upd s.A i v (4 * t) = ((4 * (i / 4) : Nat) : Int))) :
    chainedTo_block { s with A := upd s.A i v } t = chainedTo_block s t := by
  apply chainedTo_congr4 s { s with A := upd s.A i v } t rfl
  intro u hu
  by_cases huB : u = i / 4
  · subst huB
    constructor
    · rintro ⟨h1, h2, h3⟩
      exact absurd ⟨h1, h2, h3⟩ hfs
    · rintro ⟨h1, h2, h3⟩
      exact absurd ⟨h1, h2, h3⟩ hfm
  · have e1 : upd s.A i v (4 * t) = s.A (4 * t) := upd_ne _ _ _ _ (by omega)
    have e2 : upd s.A i v (4 * u) = s.A (4 * u) := upd_ne _ _ _ _ (by omega)
    show _ ↔ (cross s.b t u ∧ upd s.A i v (4 * u) = _ ∧ upd s.A i v (4 * t) = _)
    rw [e1, e2]

/-! ### Branch 1: WCA block, unchained -/

theorem write_effect_wca_none4 (s : InPlaceArraySec4) (i : Nat) (v : Int)
    (hflag : s.flag = false) (hi : i < s.N) (hbi : i / 4 < s.b)
    (hk : chainedTo_block s (i / 4) = none) :
    ∀ j, j < s.N → read_impl (write_impl s i v) j = if j = i then v else read_impl s j := by
  have hw : write_impl s i v = breakChain { s with A := upd s.A i v } (i / 4) := by
    simp only [write_impl, block_of]
    rw [hflag, if_neg (by simp), hk, if_pos hbi]
  rw [hw]
  set sm : InPlaceArraySec4 := { s with A := upd s.A i v } with hsmdef
  have hsmA : sm.A = upd s.A i v := rfl
  have hsmb : sm.b = s.b := rfl
  have hsmflag : sm.flag = false := hflag
  have hBN : 4 * (i / 4) < s.N := by omega
  intro j hj
  have hjN : 4 * (j / 4) < s.N := by omega
  cases hc : chainedTo_block sm (i / 4) with
  | none =>
      rw [breakChain_of_none4 sm (i / 4) hc]
      have hstat : ∀ t, ¬ t = i / 4 → 4 * t < s.N →
          chainedTo_block sm t = chainedTo_block s t := by
        intro t ht ht2
        exact chainedTo_upd_cell4 s i v t ht ht2
          (congr_aux_unchained4 s (i / 4) t hk ht2)
          (congr_aux_unchained4 sm (i / 4) t hc ht2)
      by_cases hji : j = i
      · subst hji
        rw [if_pos rfl,
            read_impl_wca_none4 sm j hsmflag (by omega) hc]
        show upd s.A j v j = v
        exact upd_at _ _ _
      · rw [if_neg hji]
        by_cases hjB : j / 4 = i / 4
        · rw [read_impl_wca_none4 sm j hsmflag (by omega) (by rw [hjB]; exact hc),
              read_impl_wca_none4 s j hflag (by omega) (by rw [hjB]; exact hk)]
          show upd s.A i v j = s.A j
          exact upd_ne _ _ _ _ hji
        · apply read_impl_congr4 s sm j hsmflag hflag (hstat (j / 4) hjB hjN)
            Iff.rfl rfl
          · show upd s.A i v j = s.A j
            exact upd_ne _ _ _ _ hji
          · intro u hside hu
            have hui : ¬ u = i / 4 := by
              intro hcon
              rw [hcon] at hu
              have := chainedTo_symm4 s (j / 4) (i / 4) hjN hu
              rw [hk] at this
              exact Option.noConfusion this
            refine ⟨?_, ?_, ?_⟩
            · show upd s.A i v (4 * u + 1) = s.A (4 * u + 1)
              exact upd_ne _ _ _ _ (by omega)
            · show upd s.A i v (4 * u + 2) = s.A (4 * u + 2)
              exact upd_ne _ _ _ _ (by omega)
            · show upd s.A i v (4 * u + 3) = s.A (4 * u + 3)
              exact upd_ne _ _ _ _ (by omega)
  | some m =>
      have hiff := (chainedTo_some_iff4 sm (i / 4) m).mp hc
      have hmB : ¬ i / 4 = m := chainedTo_some_ne4 sm (i / 4) m hc
      have hmN : 4 * m < s.N := hiff.2.1
      have hieven : 4 * (i / 4) = i := by
        by_contra hodd
        have h1 : s.A (4 * (i / 4)) = ((4 * m : Nat) : Int) := by
          have h' := hiff.1
          rw [hsmA, upd_ne _ _ _ _ (by omega)] at h'
          exact h'
        have h4 : s.A (4 * m) = ((4 * (i / 4) : Nat) : Int) := by
          have h' := hiff.2.2.2
          rw [hsmA, upd_ne _ _ _ _ (by omega)] at h'
          exact h'
        have : chainedTo_block s (i / 4) = some m := by
          rw [chainedTo_some_iff4]
          exact ⟨h1, hiff.2.1, hiff.2.2.1, h4⟩
        rw [hk] at this
        exact Option.noConfusion this
      have hmge : s.b ≤ m := by
        have hcr := hiff.2.2.1
        rw [hsmb] at hcr
        unfold cross at hcr
        omega
      have hrecipm : s.A (4 * m) = ((4 * (i / 4) : Nat) : Int) := by
        have h' := hiff.2.2.2
        rw [hsmA, upd_ne _ _ _ _ (by omega)] at h'
        exact h'
      have hmnone : chainedTo_block s m = none := by
        rw [chainedTo_none_iff4]
        intro u hu
        obtain ⟨g1, g2, g3, g4⟩ := hu
        have hui : u = i / 4 := by
          have := hrecipm
          omega
        subst hui
        have : chainedTo_block s (i / 4) = some m := by
          rw [chainedTo_some_iff4]
          exact ⟨g4, hmN, cross_symm g3, g1⟩
        rw [hk] at this
        exact Option.noConfusion this
      have hbreak := breakChain_A_of_some4 sm (i / 4) m hc
      have hbrkflag : (breakChain sm (i / 4)).flag = false := by
        rw [breakChain_flag4]
        exact hsmflag
      by_cases hji : j = i
      · subst hji
        rw [if_pos rfl,
            read_impl_wca_none4 (breakChain sm (j / 4)) j hbrkflag
              (by rw [breakChain_b4]; exact hbi)
              (chainedTo_breakChain_self4 sm (j / 4)),
            hbreak, upd_ne _ _ _ _ (by omega)]
        show upd s.A j v j = v
        exact upd_at _ _ _
      · rw [if_neg hji]
        by_cases hjB : j / 4 = i / 4
        · rw [read_impl_wca_none4 (breakChain sm (i / 4)) j hbrkflag
              (by rw [breakChain_b4]; exact (by omega : j / 4 < sm.b))
              (by rw [hjB]; exact chainedTo_breakChain_self4 sm (i / 4)),
              read_impl_wca_none4 s j hflag (by omega) (by rw [hjB]; exact hk),
              hbreak, upd_ne _ _ _ _ (by omega)]
          show upd s.A i v j = s.A j
          exact upd_ne _ _ _ _ hji
        · by_cases hjm : j / 4 = m
          · rw [read_impl_uca_none4 s j hflag (by omega) (by rw [hjm]; exact hmnone),
                read_impl_uca_none4 (breakChain sm (i / 4)) j hbrkflag
                  (by rw [breakChain_b4]; exact (by omega : sm.b ≤ j / 4))
                  (by rw [hjm]; exact chainedTo_breakChain_partner4 sm (i / 4) m hc)]
            exact breakChain_initv4 sm (i / 4)
          · apply read_impl_congr4 s (breakChain sm (i / 4)) j hbrkflag hflag
            · rw [chainedTo_breakChain_other4 sm (i / 4) (j / 4) hjB
                (by rw [hc]; exact fun hcc => hjm (Option.some.inj hcc).symm)]
              exact chainedTo_upd_cell4 s i v (j / 4) hjB hjN
                (congr_aux_unchained4 s (i / 4) (j / 4) hk hjN)
                (congr_aux_chained4 sm (i / 4) m (j / 4) hc hjm hjN)
            · rw [breakChain_b4]
            · rw [breakChain_initv4]
            · rw [hbreak, upd_ne _ _ _ _ (by omega)]
              show upd s.A i v j = s.A j
              exact upd_ne _ _ _ _ hji
            · intro u hside hu
              have hui : ¬ u = i / 4 := by
                intro hcon
                rw [hcon] at hu
                have h2 := chainedTo_symm4 s (j / 4) (i / 4) hjN hu
                rw [hk] at h2
                exact Option.noConfusion h2
              have hum : ¬ u = m := by
                intro hcon
                rw [hcon] at hu
                have h2 := chainedTo_symm4 s (j / 4) m hjN hu
                rw [hmnone] at h2
                exact Option.noConfusion h2
              refine ⟨?_, ?_, ?_⟩
              · rw [hbreak, upd_ne _ _ _ _ (by omega)]
                show upd s.A i v (4 * u + 1) = s.A (4 * u + 1)
                exact upd_ne _ _ _ _ (by omega)
              · rw [hbreak, upd_ne _ _ _ _ (by omega)]
                show upd s.A i v (4 * u + 2) = s.A (4 * u + 2)
                exact upd_ne _ _ _ _ (by omega)
              · rw [hbreak, upd_ne _ _ _ _ (by omega)]
                show upd s.A i v (4 * u + 3) = s.A (4 * u + 3)
                exact upd_ne _ _ _ _ (by omega)

/-! ### Branch 5: UCA block, chained (write-through) -/

theorem write_effect_uca_some4 (s : InPlaceArraySec4) (i : Nat) (v : Int)
    (hflag : s.flag = false) (hi : i < s.N) (hbi : ¬ i / 4 < s.b) (m : Nat)
    (hk : chainedTo_block s (i / 4) = some m) :
    ∀ j, j < s.N → read_impl (write_impl s i v) j = if j = i then v else read_impl s j := by
  have hBN : 4 * (i / 4) < s.N := by omega
  have hsymm := chainedTo_symm4 s (i / 4) m hBN hk
  have hmlt : m < s.b := by
    have hcr := ((chainedTo_some_iff4 s (i / 4) m).mp hk).2.2.1
    unfold cross at hcr
    omega
  have hmne : ¬ i / 4 = m := chainedTo_some_ne4 s (i / 4) m hk
  -- the written physical cell, per offset; all four are non-aligned
  have hred : write_impl s i v =
      (if i % 4 = 0 then { s with A := upd s.A (4 * m + 1) v }
       else if i % 4 = 1 then { s with A := upd s.A (4 * m + 2) v }
       else if i % 4 = 2 then { s with A := upd s.A (4 * m + 3) v }
       else { s with A := upd s.A i v }) := by
    simp only [write_impl, block_of, first_of_eq4]
    rw [hflag, if_neg (by simp), hk, if_neg hbi]
  -- generic partner-disjointness: a cell 4*u+r read on behalf of j can be the
  -- written cell only when j = i
  have hpartgen : ∀ c j, j < s.N → ¬ j = i →
      (c = 4 * m + 1 ∧ i % 4 = 0 ∨ c = 4 * m + 2 ∧ i % 4 = 1 ∨
       c = 4 * m + 3 ∧ i % 4 = 2 ∨ c = i ∧ i % 4 = 3) →
      ∀ u, chainedTo_block s (j / 4) = some u → ¬ j < 4 * s.b →
      (j % 4 = 0 → ¬ 4 * u + 1 = c) ∧ (j % 4 = 1 → ¬ 4 * u + 2 = c) ∧
      (j % 4 = 2 → ¬ 4 * u + 3 = c) := by
    intro c j hjN hji hcdesc u hu hside
    have hcrj := ((chainedTo_some_iff4 s (j / 4) u).mp hu).2.2.1
    have hub : u < s.b := by
      unfold cross at hcrj
      omega
    by_cases hum : u = m
    · -- same partner: then j and i share the block, so the offsets differ
      have hjb : j / 4 = i / 4 := by
        rw [hum] at hu
        have h2 := chainedTo_symm4 s (j / 4) m (by omega) hu
        rw [hsymm] at h2
        exact (Option.some.inj h2).symm
      rcases hcdesc with ⟨hc, hp⟩ | ⟨hc, hp⟩ | ⟨hc, hp⟩ | ⟨hc, hp⟩ <;>
        exact ⟨fun h0 => by omega, fun h1 => by omega, fun h2 => by omega⟩
    · rcases hcdesc with ⟨hc, hp⟩ | ⟨hc, hp⟩ | ⟨hc, hp⟩ | ⟨hc, hp⟩ <;>
        exact ⟨fun h0 => by omega, fun h1 => by omega, fun h2 => by omega⟩
  rw [hred]
  by_cases hp0 : i % 4 = 0
  · rw [if_pos hp0]
    set sm : InPlaceArraySec4 := { s with A := upd s.A (4 * m + 1) v } with hsmdef
    have hsmb : sm.b = s.b := rfl
    have hsmflag : sm.flag = false := hflag
    have hsmstat : ∀ t, chainedTo_block sm t = chainedTo_block s t :=
      fun t => chainedTo_upd_nonaligned4 s (4 * m + 1) v (by omega) t
    intro j hj
    by_cases hji : j = i
    · subst hji
      rw [if_pos rfl,
          read_impl_uca_some_04 sm j m hsmflag (by omega) hp0 (by rw [hsmstat]; exact hk)]
      show upd s.A (4 * m + 1) v (4 * m + 1) = v
      exact upd_at _ _ _
    · rw [if_neg hji]
      by_cases hjc : j = 4 * m + 1
      · have hjm : j / 4 = m := by omega
        rw [read_impl_wca_some4 sm j (i / 4) hsmflag (by omega)
              (by rw [hsmstat, hjm]; exact hsymm),
            read_impl_wca_some4 s j (i / 4) hflag (by omega) (by rw [hjm]; exact hsymm)]
      · exact read_upd_other4 s (4 * m + 1) v hflag (by omega) j hjc
          (hpartgen (4 * m + 1) j hj hji (Or.inl ⟨rfl, hp0⟩))
  · rw [if_neg hp0]
    by_cases hp1 : i % 4 = 1
    · rw [if_pos hp1]
      set sm : InPlaceArraySec4 := { s with A := upd s.A (4 * m + 2) v } with hsmdef
      have hsmb : sm.b = s.b := rfl
      have hsmflag : sm.flag = false := hflag
      have hsmstat : ∀ t, chainedTo_block sm t = chainedTo_block s t :=
        fun t => chainedTo_upd_nonaligned4 s (4 * m + 2) v (by omega) t
      intro j hj
      by_cases hji : j = i
      · subst hji
        rw [if_pos rfl,
            read_impl_uca_some_14 sm j m hsmflag (by omega) hp1
              (by rw [hsmstat]; exact hk)]
        show upd s.A (4 * m + 2) v (4 * m + 2) = v
        exact upd_at _ _ _
      · rw [if_neg hji]
        by_cases hjc : j = 4 * m + 2
        · have hjm : j / 4 = m := by omega
          rw [read_impl_wca_some4 sm j (i / 4) hsmflag (by omega)
                (by rw [hsmstat, hjm]; exact hsymm),
              read_impl_wca_some4 s j (i / 4) hflag (by omega) (by rw [hjm]; exact hsymm)]
        · exact read_upd_other4 s (4 * m + 2) v hflag (by omega) j hjc
            (hpartgen (4 * m + 2) j hj hji (Or.inr (Or.inl ⟨rfl, hp1⟩)))
    · rw [if_neg hp1]
      by_cases hp2 : i % 4 = 2
      · rw [if_pos hp2]
        set sm : InPlaceArraySec4 := { s with A := upd s.A (4 * m + 3) v } with hsmdef
        have hsmb : sm.b = s.b := rfl
        have hsmflag : sm.flag = false := hflag
        have hsmstat : ∀ t, chainedTo_block sm t = chainedTo_block s t :=
          fun t => chainedTo_upd_nonaligned4 s (4 * m + 3) v (by omega) t
        intro j hj
        by_cases hji : j = i
        · subst hji
          rw [if_pos rfl,
              read_impl_uca_some_24 sm j m hsmflag (by omega) hp2
                (by rw [hsmstat]; exact hk)]
          show upd s.A (4 * m + 3) v (4 * m + 3) = v
          exact upd_at _ _ _
        · rw [if_neg hji]
          by_cases hjc : j = 4 * m + 3
          · have hjm : j / 4 = m := by omega
            rw [read_impl_wca_some4 sm j (i / 4) hsmflag (by omega)
                  (by rw [hsmstat, hjm]; exact hsymm),
                read_impl_wca_some4 s j (i / 4) hflag (by omega) (by rw [hjm]; exact hsymm)]
          · exact read_upd_other4 s (4 * m + 3) v hflag (by omega) j hjc
              (hpartgen (4 * m + 3) j hj hji (Or.inr (Or.inr (Or.inl ⟨rfl, hp2⟩))))
      · rw [if_neg hp2]
        have hp3 : i % 4 = 3 := by omega
        set sm : InPlaceArraySec4 := { s with A := upd s.A i v } with hsmdef
        have hsmb : sm.b = s.b := rfl
        have hsmflag : sm.flag = false := hflag
        have hsmstat : ∀ t, chainedTo_block sm t = chainedTo_block s t :=
          fun t => chainedTo_upd_nonaligned4 s i v (by omega) t
        intro j hj
        by_cases hji : j = i
        · subst hji
          rw [if_pos rfl,
              read_impl_uca_some_34 sm j m hsmflag (by omega) (by omega)
                (by rw [hsmstat]; exact hk)]
          show upd s.A j v j = v
          exact upd_at _ _ _
        · rw [if_neg hji]
          exact read_upd_other4 s i v hflag (by omega) j hji
            (hpartgen i j hj hji (Or.inr (Or.inr (Or.inr ⟨rfl, hp3⟩))))

end InPlaceArraySec4

namespace InPlaceArraySec4

/-! ### `extend` field lemmas -/

theorem extend_N4 (s : InPlaceArraySec4) : (extend s).1.N = s.N := by
  cases hE : chainedTo_block s s.b with
  | none =>
      obtain ⟨sc, hdec, hN, hrest⟩ := extend_none_spec4 s hE
      rw [hdec, sync_meta_N4, hN]
  | some κ =>
      obtain ⟨sc, hdec, hN, hrest⟩ := extend_some_spec4 s κ hE
      rw [hdec, sync_meta_N4, hN]

theorem extend_N_blocks4 (s : InPlaceArraySec4) : (extend s).1.N_blocks = s.N_blocks := by
  cases hE : chainedTo_block s s.b with
  | none =>
      obtain ⟨sc, hdec, hN, hNB, hrest⟩ := extend_none_spec4 s hE
      rw [hdec, sync_meta_N_blocks4, hNB]
  | some κ =>
      obtain ⟨sc, hdec, hN, hNB, hrest⟩ := extend_some_spec4 s κ hE
      rw [hdec, sync_meta_N_blocks4, hNB]

theorem extend_b4 (s : InPlaceArraySec4) : (extend s).1.b = s.b + 1 := by
  cases hE : chainedTo_block s s.b with
  | none =>
      obtain ⟨sc, hdec, hN, hNB, hb2, hrest⟩ := extend_none_spec4 s hE
      rw [hdec, sync_meta_b4, hb2]
  | some κ =>
      obtain ⟨sc, hdec, hN, hNB, hb2, hrest⟩ := extend_some_spec4 s κ hE
      rw [hdec, sync_meta_b4, hb2]

theorem extend_initv4 (s : InPlaceArraySec4) : (extend s).1.initv = s.initv := by
  cases hE : chainedTo_block s s.b with
  | none =>
      obtain ⟨sc, hdec, hN, hNB, hb2, hiv, hrest⟩ := extend_none_spec4 s hE
      rw [hdec, sync_meta_initv4, hiv]
  | some κ =>
      obtain ⟨sc, hdec, hN, hNB, hb2, hiv, hrest⟩ := extend_some_spec4 s κ hE
      rw [hdec, sync_meta_initv4, hiv]

theorem extend_flag4 (s : InPlaceArraySec4) :
    (extend s).1.flag = decide (s.N_blocks ≤ s.b + 1) := by
  cases hE : chainedTo_block s s.b with
  | none =>
      obtain ⟨sc, hdec, hN, hNB, hb2, hiv, hfl, hrest⟩ := extend_none_spec4 s hE
      rw [hdec, sync_meta_flag4, hNB, hb2]
  | some κ =>
      obtain ⟨sc, hdec, hN, hNB, hb2, hiv, hfl, hrest⟩ := extend_some_spec4 s κ hE
      rw [hdec, sync_meta_flag4, hNB, hb2]

/-! ### Branch 2/3/4: WCA block, chained (extend then relocate) -/

theorem write_effect_wca_some4 (s : InPlaceArraySec4) (i : Nat) (v : Int) (kk : Nat)
    (hflag : s.flag = false) (hWF : s.N = 4 * s.N_blocks) (hbNB : s.b < s.N_blocks)
    (hi : i < s.N) (hbi : i / 4 < s.b) (hk : chainedTo_block s (i / 4) = some kk) :
    ∀ j, j < s.N → read_impl (write_impl s i v) j = if j = i then v else read_impl s j := by
  have hkkiff := (chainedTo_some_iff4 s (i / 4) kk).mp hk
  have hkkb : s.b ≤ kk := by
    have hcr := hkkiff.2.2.1
    unfold cross at hcr
    omega
  have h4kk : 4 * kk < s.N := hkkiff.2.1
  have hsymk := chainedTo_symm4 s (i / 4) kk (by omega) hk
  set bj2 : Nat := (extend s).2 with hbj2
  set sE : InPlaceArraySec4 := (extend s).1 with hsE
  have hN1 : sE.N = s.N := extend_N4 s
  have hb1 : sE.b = s.b + 1 := extend_b4 s
  have hNB1 : sE.N_blocks = s.N_blocks := extend_N_blocks4 s
  have hiv1 : sE.initv = s.initv := extend_initv4 s
  have hflag1 : sE.flag = decide (s.N_blocks ≤ s.b + 1) := extend_flag4 s
  set a1 : Nat → Int :=
    upd (upd sE.A (4 * bj2) (sE.A (4 * (i / 4)))) (4 * (i / 4)) (sE.A (4 * bj2)) with ha1
  set a2 : Nat → Int :=
    upd (upd a1 (4 * bj2 + 1) (a1 (4 * (i / 4) + 1))) (4 * (i / 4) + 1) (a1 (4 * bj2 + 1))
    with ha2
  set a3 : Nat → Int :=
    upd (upd a2 (4 * bj2 + 2) (a2 (4 * (i / 4) + 2))) (4 * (i / 4) + 2) (a2 (4 * bj2 + 2))
    with ha3
  set a4 : Nat → Int :=
    upd (upd a3 (4 * bj2 + 3) (a3 (4 * (i / 4) + 3))) (4 * (i / 4) + 3) (a3 (4 * bj2 + 3))
    with ha4
  have hw : write_impl s i v =
      (if bj2 = i / 4 then breakChain { sE with A := upd sE.A i v } (i / 4)
       else breakChain
         { initBlock (makeChain { sE with A := a4, ctr := { sE.ctr with relocations := sE.ctr.relocations + 1 } } bj2 kk) (i / 4) with
           A := upd (initBlock (makeChain { sE with A := a4, ctr := { sE.ctr with relocations := sE.ctr.relocations + 1 } } bj2 kk) (i / 4)).A i v }
         (i / 4)) := by
    simp only [write_impl, block_of]
    rw [hflag, if_neg (by simp), hk, if_pos hbi]
    rfl
  -- the main relocation path, abstracted over how the extend facts are obtained
  have hmain : chainedTo_block sE (i / 4) = some kk →
      chainedTo_block sE bj2 = none → bj2 < sE.b → ¬ bj2 = i / 4 → 4 * bj2 < sE.N →
      sE.flag = false →
      sE.A (4 * bj2) = sE.initv → sE.A (4 * bj2 + 1) = sE.initv →
      sE.A (4 * bj2 + 2) = sE.initv → sE.A (4 * bj2 + 3) = sE.initv →
      ∀ j, j < s.N →
        read_impl (breakChain
          { initBlock (makeChain { sE with A := a4, ctr := { sE.ctr with relocations := sE.ctr.relocations + 1 } } bj2 kk) (i / 4) with
            A := upd (initBlock (makeChain { sE with A := a4, ctr := { sE.ctr with relocations := sE.ctr.relocations + 1 } } bj2 kk) (i / 4)).A i v }
          (i / 4)) j =
        if j = i then v else read_impl sE j := by
    intro hEk hEbj hEbjb hEne hEbjN hEflagF hEA0 hEA1 hEA2 hEA3
    have hsymE := chainedTo_symm4 sE (i / 4) kk (by rw [hN1]; omega) hEk
    have hbjkk : ¬ bj2 = kk := by
      intro hc
      rw [hc] at hEbj
      rw [hEbj] at hsymE
      exact Option.noConfusion hsymE
    have hkkB := chainedTo_some_ne4 sE (i / 4) kk hEk
    -- values moved by the four swaps
    have ha1v1 : a1 (4 * (i / 4) + 1) = sE.A (4 * (i / 4) + 1) := by
      rw [ha1, upd_ne _ _ _ _ (by omega), upd_ne _ _ _ _ (by omega)]
    have ha2v2 : a2 (4 * (i / 4) + 2) = sE.A (4 * (i / 4) + 2) := by
      rw [ha2, upd_ne _ _ _ _ (by omega), upd_ne _ _ _ _ (by omega),
          ha1, upd_ne _ _ _ _ (by omega), upd_ne _ _ _ _ (by omega)]
    have ha3v3 : a3 (4 * (i / 4) + 3) = sE.A (4 * (i / 4) + 3) := by
      rw [ha3, upd_ne _ _ _ _ (by omega), upd_ne _ _ _ _ (by omega),
          ha2, upd_ne _ _ _ _ (by omega), upd_ne _ _ _ _ (by omega),
          ha1, upd_ne _ _ _ _ (by omega), upd_ne _ _ _ _ (by omega)]
    have ha4bj0 : a4 (4 * bj2) = sE.A (4 * (i / 4)) := by
      rw [ha4, upd_ne _ _ _ _ (by omega), upd_ne _ _ _ _ (by omega),
          ha3, upd_ne _ _ _ _ (by omega), upd_ne _ _ _ _ (by omega),
          ha2, upd_ne _ _ _ _ (by omega), upd_ne _ _ _ _ (by omega),
          ha1, upd_ne _ _ _ _ (by omega), upd_at]
    have ha4bj1 : a4 (4 * bj2 + 1) = sE.A (4 * (i / 4) + 1) := by
      rw [ha4, upd_ne _ _ _ _ (by omega), upd_ne _ _ _ _ (by omega),
          ha3, upd_ne _ _ _ _ (by omega), upd_ne _ _ _ _ (by omega),
          ha2, upd_ne _ _ _ _ (by omega), upd_at, ha1v1]
    have ha4bj2 : a4 (4 * bj2 + 2) = sE.A (4 * (i / 4) + 2) := by
      rw [ha4, upd_ne _ _ _ _ (by omega), upd_ne _ _ _ _ (by omega),
          ha3, upd_ne _ _ _ _ (by omega), upd_at, ha2v2]
    have ha4bj3 : a4 (4 * bj2 + 3) = sE.A (4 * (i / 4) + 3) := by
      rw [ha4, upd_ne _ _ _ _ (by omega), upd_at, ha3v3]
    have ha4other : ∀ j, ¬ j / 4 = i / 4 → ¬ j / 4 = bj2 → a4 j = sE.A j := by
      intro j g1 g2
      rw [ha4, upd_ne _ _ _ _ (by omega), upd_ne _ _ _ _ (by omega),
          ha3, upd_ne _ _ _ _ (by omega), upd_ne _ _ _ _ (by omega),
          ha2, upd_ne _ _ _ _ (by omega), upd_ne _ _ _ _ (by omega),
          ha1, upd_ne _ _ _ _ (by omega), upd_ne _ _ _ _ (by omega)]
    set sY : InPlaceArraySec4 :=
      { initBlock (makeChain { sE with A := a4, ctr := { sE.ctr with relocations := sE.ctr.relocations + 1 } } bj2 kk) (i / 4) with
        A := upd (initBlock (makeChain { sE with A := a4, ctr := { sE.ctr with relocations := sE.ctr.relocations + 1 } } bj2 kk) (i / 4)).A i v } with hsYdef
    have hYA : sY.A = upd (upd (upd (upd (upd (upd (upd a4
        (4 * bj2) ((4 * kk : Nat) : Int)) (4 * kk) ((4 * bj2 : Nat) : Int))
        (4 * (i / 4)) sE.initv) (4 * (i / 4) + 1) sE.initv)
        (4 * (i / 4) + 2) sE.initv) (4 * (i / 4) + 3) sE.initv) i v := rfl
    have hY1 : sY.A i = v := by rw [hYA, upd_at]
    have hYown : ∀ j, j / 4 = i / 4 → ¬ j = i → sY.A j = sE.initv := by
      intro j g1 g2
      rw [hYA, upd_ne _ _ _ _ g2]
      have h4 : j = 4 * (i / 4) ∨ j = 4 * (i / 4) + 1 ∨ j = 4 * (i / 4) + 2 ∨
          j = 4 * (i / 4) + 3 := by omega
      rcases h4 with h4 | h4 | h4 | h4 <;> rw [h4]
      · rw [upd_ne _ _ _ _ (by omega), upd_ne _ _ _ _ (by omega),
            upd_ne _ _ _ _ (by omega), upd_at]
      · rw [upd_ne _ _ _ _ (by omega), upd_ne _ _ _ _ (by omega), upd_at]
      · rw [upd_ne _ _ _ _ (by omega), upd_at]
      · rw [upd_at]
    have hYbj0 : sY.A (4 * bj2) = ((4 * kk : Nat) : Int) := by
      rw [hYA, upd_ne _ _ _ _ (by omega), upd_ne _ _ _ _ (by omega),
          upd_ne _ _ _ _ (by omega), upd_ne _ _ _ _ (by omega), upd_ne _ _ _ _ (by omega),
          upd_ne _ _ _ _ (by omega), upd_at]
    have hYbj1 : sY.A (4 * bj2 + 1) = sE.A (4 * (i / 4) + 1) := by
      rw [hYA, upd_ne _ _ _ _ (by omega), upd_ne _ _ _ _ (by omega),
          upd_ne _ _ _ _ (by omega), upd_ne _ _ _ _ (by omega), upd_ne _ _ _ _ (by omega),
          upd_ne _ _ _ _ (by omega), upd_ne _ _ _ _ (by omega), ha4bj1]
    have hYbj2 : sY.A (4 * bj2 + 2) = sE.A (4 * (i / 4) + 2) := by
      rw [hYA, upd_ne _ _ _ _ (by omega), upd_ne _ _ _ _ (by omega),
          upd_ne _ _ _ _ (by omega), upd_ne _ _ _ _ (by omega), upd_ne _ _ _ _ (by omega),
          upd_ne _ _ _ _ (by omega), upd_ne _ _ _ _ (by omega), ha4bj2]
    have hYbj3 : sY.A (4 * bj2 + 3) = sE.A (4 * (i / 4) + 3) := by
      rw [hYA, upd_ne _ _ _ _ (by omega), upd_ne _ _ _ _ (by omega),
          upd_ne _ _ _ _ (by omega), upd_ne _ _ _ _ (by omega), upd_ne _ _ _ _ (by omega),
          upd_ne _ _ _ _ (by omega), upd_ne _ _ _ _ (by omega), ha4bj3]
    have hYkk0 : sY.A (4 * kk) = ((4 * bj2 : Nat) : Int) := by
      rw [hYA, upd_ne _ _ _ _ (by omega), upd_ne _ _ _ _ (by omega),
          upd_ne _ _ _ _ (by omega), upd_ne _ _ _ _ (by omega), upd_ne _ _ _ _ (by omega),
          upd_at]
    have hYkk1 : sY.A (4 * kk + 1) = sE.A (4 * kk + 1) := by
      rw [hYA, upd_ne _ _ _ _ (by omega), upd_ne _ _ _ _ (by omega),
          upd_ne _ _ _ _ (by omega), upd_ne _ _ _ _ (by omega), upd_ne _ _ _ _ (by omega),
          upd_ne _ _ _ _ (by omega), upd_ne _ _ _ _ (by omega),
          ha4other (4 * kk + 1) (by omega) (by omega)]
    have hYkk2 : sY.A (4 * kk + 2) = sE.A (4 * kk + 2) := by
      rw [hYA, upd_ne _ _ _ _ (by omega), upd_ne _ _ _ _ (by omega),
          upd_ne _ _ _ _ (by omega), upd_ne _ _ _ _ (by omega), upd_ne _ _ _ _ (by omega),
          upd_ne _ _ _ _ (by omega), upd_ne _ _ _ _ (by omega),
          ha4other (4 * kk + 2) (by omega) (by omega)]
    have hYkk3 : sY.A (4 * kk + 3) = sE.A (4 * kk + 3) := by
      rw [hYA, upd_ne _ _ _ _ (by omega), upd_ne _ _ _ _ (by omega),
          upd_ne _ _ _ _ (by omega), upd_ne _ _ _ _ (by omega), upd_ne _ _ _ _ (by omega),
          upd_ne _ _ _ _ (by omega), upd_ne _ _ _ _ (by omega),
          ha4other (4 * kk + 3) (by omega) (by omega)]
    have hYother : ∀ j, ¬ j / 4 = i / 4 → ¬ j / 4 = bj2 → ¬ j = 4 * kk → sY.A j = sE.A j := by
      intro j g1 g2 g3
      rw [hYA, upd_ne _ _ _ _ (by omega), upd_ne _ _ _ _ (by omega),
          upd_ne _ _ _ _ (by omega), upd_ne _ _ _ _ (by omega), upd_ne _ _ _ _ (by omega),
          upd_ne _ _ _ _ (by omega), upd_ne _ _ _ _ (by omega), ha4other j g1 g2]
    intro j hj
    exact write_effect_swap_finish4 sE sY i v bj2 kk
      (by rw [hN1]; exact hi) (by rw [hb1]; omega) hEflagF hEk hEbj hEbjb hEne
      hEbjN hEA0 hEA1 hEA2 hEA3 rfl rfl rfl hEflagF hY1 hYown
      hYbj0 hYbj1 hYbj2 hYbj3 hYkk0 hYkk1 hYkk2 hYkk3 hYother
      j (by rw [hN1]; exact hj)
  cases hE : chainedTo_block s s.b with
  | none =>
      obtain ⟨sc, hdec, hscN, hscNB, hscb, hsciv, hscflag, hscvb, hscrel, hret,
        hA0b, hA1b, hA2b, hA3b, hframeb, hbndb⟩ := extend_none_spec4 s hE
      have hretB : bj2 = s.b := by rw [hbj2]; exact hret
      have hkkne : ¬ kk = s.b := by
        intro hc
        rw [hc] at hsymk
        rw [hE] at hsymk
        exact Option.noConfusion hsymk
      have hunsat : ¬ s.N_blocks ≤ s.b + 1 := by omega
      have hscunsat : ¬ sc.N_blocks ≤ sc.b := by omega
      rw [if_neg (by rw [hretB]; omega)] at hw
      have hread1 : ∀ j, j < s.N → read_impl (extend s).1 j = read_impl s j :=
        extend_none_read4 s hE hflag hWF hbNB
      have hEflagF : sE.flag = false := by
        rw [hflag1]
        exact decide_eq_false hunsat
      have hEk : chainedTo_block sE (i / 4) = some kk := by
        rw [hsE, extend_none_status4 s hE (i / 4) (by omega) (by omega)]
        exact hk
      have hEbj : chainedTo_block sE bj2 = none := by
        rw [hretB, hsE, hdec, sync_chainedTo_all4]
        exact hbndb
      have hEA0 : sE.A (4 * bj2) = sE.initv := by
        rw [hretB, hsE, hdec, sync_A_other4 sc hscunsat (4 * s.b) (by omega),
            sync_meta_initv4, hsciv]
        exact hA0b
      have hEA1 : sE.A (4 * bj2 + 1) = sE.initv := by
        rw [hretB, hsE, hdec, sync_A_other4 sc hscunsat (4 * s.b + 1) (by omega),
            sync_meta_initv4, hsciv]
        exact hA1b
      have hEA2 : sE.A (4 * bj2 + 2) = sE.initv := by
        rw [hretB, hsE, hdec, sync_A_other4 sc hscunsat (4 * s.b + 2) (by omega),
            sync_meta_initv4, hsciv]
        exact hA2b
      have hEA3 : sE.A (4 * bj2 + 3) = sE.initv := by
        rw [hretB, hsE, hdec, sync_A_other4 sc hscunsat (4 * s.b + 3) (by omega),
            sync_meta_initv4, hsciv]
        exact hA3b
      intro j hj
      rw [hw, hmain hEk hEbj (by rw [hretB, hb1]; omega) (by rw [hretB]; omega)
            (by rw [hretB, hN1]; omega) hEflagF hEA0 hEA1 hEA2 hEA3 j hj,
          ← hread1 j hj, ← hsE]
  | some κ =>
      obtain ⟨sc, hdec, hscN, hscNB, hscb, hsciv, hscflag, hscvb, hscrel, hret, hκb,
        hc0, hc1, hc2, hc3, hcκ0, hcκ1, hcκ2, hcκ3, hframeκ, hbndκ, hκnd⟩ :=
        extend_some_spec4 s κ hE
      have hretB : bj2 = κ := by rw [hbj2]; exact hret
      have hread1 : ∀ j, j < s.N → read_impl (extend s).1 j = read_impl s j :=
        extend_some_read4 s κ hE hflag hWF hbNB
      by_cases hbeq : κ = i / 4
      · rw [if_pos (by rw [hretB]; exact hbeq)] at hw
        have hk1 : chainedTo_block sE (i / 4) = none := by
          rw [hsE, hdec, sync_chainedTo_all4, ← hbeq]
          exact hκnd
        by_cases hsat : s.N_blocks ≤ s.b + 1
        · -- saturated: the array is physical; the defensive breakChain is inert
          have hEflagT : sE.flag = true := by
            rw [hflag1]
            exact decide_eq_true hsat
          have hnone2 : chainedTo_block { sE with A := upd sE.A i v } (i / 4) = none := by
            apply chainedTo_saturated4
            · show sE.N = 4 * sE.N_blocks
              rw [hN1, hNB1]
              exact hWF
            · show sE.N_blocks ≤ sE.b
              rw [hNB1, hb1]
              omega
            · show 4 * (i / 4) < sE.N
              rw [hN1]
              omega
          intro j hj
          rw [hw, breakChain_of_none4 _ (i / 4) hnone2, ← hread1 j hj, ← hsE,
              read_impl_flag_true4 { sE with A := upd sE.A i v } j hEflagT,
              read_impl_flag_true4 sE j hEflagT]
          show upd sE.A i v j = if j = i then v else sE.A j
          exact upd_eval sE.A i v j
        · -- unsaturated: reduce to a WCA-unchained write on the extended state
          have hEflagF : sE.flag = false := by
            rw [hflag1]
            exact decide_eq_false hsat
          have hw2 : breakChain { sE with A := upd sE.A i v } (i / 4) =
              write_impl sE i v := by
            symm
            simp only [write_impl, block_of]
            rw [hEflagF, if_neg (by simp), hk1, if_pos (by rw [hb1]; omega)]
          intro j hj
          rw [hw, hw2,
              write_effect_wca_none4 sE i v hEflagF (by rw [hN1]; exact hi)
                (by rw [hb1]; omega) hk1 j (by rw [hN1]; exact hj),
              ← hread1 j hj, ← hsE]
      · -- relocation path with the freed partner κ
        have hunsat : ¬ s.N_blocks ≤ s.b + 1 := by
          intro hsat
          have hkkeq : kk = s.b := by omega
          rw [hkkeq] at hsymk
          rw [hE] at hsymk
          exact hbeq (Option.some.inj hsymk)
        have hscunsat : ¬ sc.N_blocks ≤ sc.b := by omega
        rw [if_neg (by rw [hretB]; exact hbeq)] at hw
        have hEflagF : sE.flag = false := by
          rw [hflag1]
          exact decide_eq_false hunsat
        have hEk : chainedTo_block sE (i / 4) = some kk := by
          rw [hsE, extend_some_status4 s κ hE (by omega) (i / 4) (by omega) (by omega)
              (by omega)]
          exact hk
        have hEbj : chainedTo_block sE bj2 = none := by
          rw [hretB, hsE, hdec, sync_chainedTo_all4]
          exact hκnd
        have hEA0 : sE.A (4 * bj2) = sE.initv := by
          rw [hretB, hsE, hdec, sync_A_other4 sc hscunsat (4 * κ) (by omega),
              sync_meta_initv4, hsciv]
          exact hcκ0
        have hEA1 : sE.A (4 * bj2 + 1) = sE.initv := by
          rw [hretB, hsE, hdec, sync_A_other4 sc hscunsat (4 * κ + 1) (by omega),
              sync_meta_initv4, hsciv]
          exact hcκ1
        have hEA2 : sE.A (4 * bj2 + 2) = sE.initv := by
          rw [hretB, hsE, hdec, sync_A_other4 sc hscunsat (4 * κ + 2) (by omega),
              sync_meta_initv4, hsciv]
          exact hcκ2
        have hEA3 : sE.A (4 * bj2 + 3) = sE.initv := by
          rw [hretB, hsE, hdec, sync_A_other4 sc hscunsat (4 * κ + 3) (by omega),
              sync_meta_initv4, hsciv]
          exact hcκ3
        intro j hj
        rw [hw, hmain hEk hEbj (by rw [hretB, hb1]; omega) (by rw [hretB]; exact hbeq)
              (by rw [hretB, hN1]; omega) hEflagF hEA0 hEA1 hEA2 hEA3 j hj,
            ← hread1 j hj, ← hsE]

end InPlaceArraySec4

namespace InPlaceArraySec4

/-! ### Branch 5/6: UCA block, unchained (extend then chain to the freed block) -/

theorem write_effect_uca_none4 (s : InPlaceArraySec4) (i : Nat) (v : Int)
    (hflag : s.flag = false) (hWF : s.N = 4 * s.N_blocks) (hbNB : s.b < s.N_blocks)
    (hi : i < s.N) (hbi : ¬ i / 4 < s.b) (hk : chainedTo_block s (i / 4) = none) :
    ∀ j, j < s.N → read_impl (write_impl s i v) j = if j = i then v else read_impl s j := by
  set bk2 : Nat := (extend s).2 with hbk2d
  set sE : InPlaceArraySec4 := (extend s).1 with hsE
  have hN1 : sE.N = s.N := extend_N4 s
  have hb1 : sE.b = s.b + 1 := extend_b4 s
  have hNB1 : sE.N_blocks = s.N_blocks := extend_N_blocks4 s
  have hiv1 : sE.initv = s.initv := extend_initv4 s
  have hflag1 : sE.flag = decide (s.N_blocks ≤ s.b + 1) := extend_flag4 s
  have hw : write_impl s i v =
      (if bk2 = i / 4 then breakChain { sE with A := upd sE.A i v } (i / 4)
       else if i % 4 = 0 then
        { makeChain (initBlock sE (i / 4)) bk2 (i / 4) with
          A := upd (makeChain (initBlock sE (i / 4)) bk2 (i / 4)).A (4 * bk2 + 1) v }
       else if i % 4 = 1 then
        { makeChain (initBlock sE (i / 4)) bk2 (i / 4) with
          A := upd (makeChain (initBlock sE (i / 4)) bk2 (i / 4)).A (4 * bk2 + 2) v }
       else if i % 4 = 2 then
        { makeChain (initBlock sE (i / 4)) bk2 (i / 4) with
          A := upd (makeChain (initBlock sE (i / 4)) bk2 (i / 4)).A (4 * bk2 + 3) v }
       else
        { makeChain (initBlock sE (i / 4)) bk2 (i / 4) with
          A := upd (makeChain (initBlock sE (i / 4)) bk2 (i / 4)).A i v }) := by
    simp only [write_impl, block_of]
    rw [hflag, if_neg (by simp), hk, if_neg hbi]
    rfl
  -- the chain-to-fresh-block path, abstracted over how the extend facts are obtained
  have hmainF : chainedTo_block sE (i / 4) = none → chainedTo_block sE bk2 = none →
      bk2 < sE.b → sE.b ≤ i / 4 → ¬ bk2 = i / 4 → 4 * bk2 < sE.N → sE.flag = false →
      sE.A (4 * bk2) = sE.initv → sE.A (4 * bk2 + 1) = sE.initv →
      sE.A (4 * bk2 + 2) = sE.initv → sE.A (4 * bk2 + 3) = sE.initv →
      ∀ j, j < s.N →
        read_impl
          (if i % 4 = 0 then
            { makeChain (initBlock sE (i / 4)) bk2 (i / 4) with
              A := upd (makeChain (initBlock sE (i / 4)) bk2 (i / 4)).A (4 * bk2 + 1) v }
           else if i % 4 = 1 then
            { makeChain (initBlock sE (i / 4)) bk2 (i / 4) with
              A := upd (makeChain (initBlock sE (i / 4)) bk2 (i / 4)).A (4 * bk2 + 2) v }
           else if i % 4 = 2 then
            { makeChain (initBlock sE (i / 4)) bk2 (i / 4) with
              A := upd (makeChain (initBlock sE (i / 4)) bk2 (i / 4)).A (4 * bk2 + 3) v }
           else
            { makeChain (initBlock sE (i / 4)) bk2 (i / 4) with
              A := upd (makeChain (initBlock sE (i / 4)) bk2 (i / 4)).A i v }) j =
        if j = i then v else read_impl sE j := by
    intro hEk1 hEbk2 hEbk2b hEbile hEne hEbk2N hEflagF hEA0 hEA1 hEA2 hEA3
    by_cases hp0 : i % 4 = 0
    · rw [if_pos hp0]
      set sY : InPlaceArraySec4 :=
        { makeChain (initBlock sE (i / 4)) bk2 (i / 4) with
          A := upd (makeChain (initBlock sE (i / 4)) bk2 (i / 4)).A (4 * bk2 + 1) v }
        with hsY
      have hYA : sY.A = upd (upd (upd (upd (upd (upd (upd sE.A
          (4 * (i / 4)) sE.initv) (4 * (i / 4) + 1) sE.initv) (4 * (i / 4) + 2) sE.initv)
          (4 * (i / 4) + 3) sE.initv) (4 * bk2) ((4 * (i / 4) : Nat) : Int))
          (4 * (i / 4)) ((4 * bk2 : Nat) : Int)) (4 * bk2 + 1) v := rfl
      have hYc0 : sY.A (4 * (i / 4)) = ((4 * bk2 : Nat) : Int) := by
        rw [hYA, upd_ne _ _ _ _ (by omega), upd_at]
      have hYc1 : sY.A (4 * bk2) = ((4 * (i / 4) : Nat) : Int) := by
        rw [hYA, upd_ne _ _ _ _ (by omega), upd_ne _ _ _ _ (by omega), upd_at]
      have hYp1 : sY.A (4 * bk2 + 1) = (if i % 4 = 0 then v else sE.A (4 * bk2 + 1)) := by
        rw [hYA, upd_at, if_pos hp0]
      have hYp2 : sY.A (4 * bk2 + 2) = (if i % 4 = 1 then v else sE.A (4 * bk2 + 2)) := by
        rw [hYA, upd_ne _ _ _ _ (by omega), upd_ne _ _ _ _ (by omega),
            upd_ne _ _ _ _ (by omega), upd_ne _ _ _ _ (by omega), upd_ne _ _ _ _ (by omega),
            upd_ne _ _ _ _ (by omega), upd_ne _ _ _ _ (by omega), if_neg (by omega)]
      have hYp3 : sY.A (4 * bk2 + 3) = (if i % 4 = 2 then v else sE.A (4 * bk2 + 3)) := by
        rw [hYA, upd_ne _ _ _ _ (by omega), upd_ne _ _ _ _ (by omega),
            upd_ne _ _ _ _ (by omega), upd_ne _ _ _ _ (by omega), upd_ne _ _ _ _ (by omega),
            upd_ne _ _ _ _ (by omega), upd_ne _ _ _ _ (by omega), if_neg (by omega)]
      have hYown : ∀ j, j / 4 = i / 4 → ¬ j = i → j % 4 = 3 → sY.A j = sE.initv := by
        intro j g1 g2 g3
        have hj3 : j = 4 * (i / 4) + 3 := by omega
        rw [hYA, hj3, upd_ne _ _ _ _ (by omega), upd_ne _ _ _ _ (by omega),
            upd_ne _ _ _ _ (by omega), upd_at]
      have hYi : i % 4 = 3 → sY.A i = v := by
        intro hc
        exact absurd hc (by omega)
      have hYother : ∀ j, ¬ j / 4 = i / 4 → ¬ j / 4 = bk2 → sY.A j = sE.A j := by
        intro j g1 g2
        rw [hYA, upd_ne _ _ _ _ (by omega), upd_ne _ _ _ _ (by omega),
            upd_ne _ _ _ _ (by omega), upd_ne _ _ _ _ (by omega), upd_ne _ _ _ _ (by omega),
            upd_ne _ _ _ _ (by omega), upd_ne _ _ _ _ (by omega)]
      intro j hj
      exact write_effect_fresh_finish4 sE sY i v bk2 (by rw [hN1]; exact hi) hEbile
        hEflagF hEk1 hEbk2 hEbk2b hEbk2N hEA0 hEA1 hEA2 hEA3 rfl rfl rfl hEflagF
        hYc0 hYc1 hYp1 hYp2 hYp3 hYown hYi hYother j (by rw [hN1]; exact hj)
    · by_cases hp1 : i % 4 = 1
      · rw [if_neg hp0, if_pos hp1]
        set sY : InPlaceArraySec4 :=
          { makeChain (initBlock sE (i / 4)) bk2 (i / 4) with
            A := upd (makeChain (initBlock sE (i / 4)) bk2 (i / 4)).A (4 * bk2 + 2) v }
          with hsY
        have hYA : sY.A = upd (upd (upd (upd (upd (upd (upd sE.A
            (4 * (i / 4)) sE.initv) (4 * (i / 4) + 1) sE.initv) (4 * (i / 4) + 2) sE.initv)
            (4 * (i / 4) + 3) sE.initv) (4 * bk2) ((4 * (i / 4) : Nat) : Int))
            (4 * (i / 4)) ((4 * bk2 : Nat) : Int)) (4 * bk2 + 2) v := rfl
        have hYc0 : sY.A (4 * (i / 4)) = ((4 * bk2 : Nat) : Int) := by
          rw [hYA, upd_ne _ _ _ _ (by omega), upd_at]
        have hYc1 : sY.A (4 * bk2) = ((4 * (i / 4) : Nat) : Int) := by
          rw [hYA, upd_ne _ _ _ _ (by omega), upd_ne _ _ _ _ (by omega), upd_at]
        have hYp1 : sY.A (4 * bk2 + 1) = (if i % 4 = 0 then v else sE.A (4 * bk2 + 1)) := by
          rw [hYA, upd_ne _ _ _ _ (by omega), upd_ne _ _ _ _ (by omega),
              upd_ne _ _ _ _ (by omega), upd_ne _ _ _ _ (by omega),
              upd_ne _ _ _ _ (by omega), upd_ne _ _ _ _ (by omega),
              upd_ne _ _ _ _ (by omega), if_neg hp0]
        have hYp2 : sY.A (4 * bk2 + 2) = (if i % 4 = 1 then v else sE.A (4 * bk2 + 2)) := by
          rw [hYA, upd_at, if_pos hp1]
        have hYp3 : sY.A (4 * bk2 + 3) = (if i % 4 = 2 then v else sE.A (4 * bk2 + 3)) := by
          rw [hYA, upd_ne _ _ _ _ (by omega), upd_ne _ _ _ _ (by omega),
              upd_ne _ _ _ _ (by omega), upd_ne _ _ _ _ (by omega),
              upd_ne _ _ _ _ (by omega), upd_ne _ _ _ _ (by omega),
              upd_ne _ _ _ _ (by omega), if_neg (by omega)]
        have hYown : ∀ j, j / 4 = i / 4 → ¬ j = i → j % 4 = 3 → sY.A j = sE.initv := by
          intro j g1 g2 g3
          have hj3 : j = 4 * (i / 4) + 3 := by omega
          rw [hYA, hj3, upd_ne _ _ _ _ (by omega), upd_ne _ _ _ _ (by omega),
              upd_ne _ _ _ _ (by omega), upd_at]
        have hYi : i % 4 = 3 → sY.A i = v := by
          intro hc
          exact absurd hc (by omega)
        have hYother : ∀ j, ¬ j / 4 = i / 4 → ¬ j / 4 = bk2 → sY.A j = sE.A j := by
          intro j g1 g2
          rw [hYA, upd_ne _ _ _ _ (by omega), upd_ne _ _ _ _ (by omega),
              upd_ne _ _ _ _ (by omega), upd_ne _ _ _ _ (by omega),
              upd_ne _ _ _ _ (by omega), upd_ne _ _ _ _ (by omega),
              upd_ne _ _ _ _ (by omega)]
        intro j hj
        exact write_effect_fresh_finish4 sE sY i v bk2 (by rw [hN1]; exact hi) hEbile
          hEflagF hEk1 hEbk2 hEbk2b hEbk2N hEA0 hEA1 hEA2 hEA3 rfl rfl rfl hEflagF
          hYc0 hYc1 hYp1 hYp2 hYp3 hYown hYi hYother j (by rw [hN1]; exact hj)
      · by_cases hp2 : i % 4 = 2
        · rw [if_neg hp0, if_neg hp1, if_pos hp2]
          set sY : InPlaceArraySec4 :=
            { makeChain (initBlock sE (i / 4)) bk2 (i / 4) with
              A := upd (makeChain (initBlock sE (i / 4)) bk2 (i / 4)).A (4 * bk2 + 3) v }
            with hsY
          have hYA : sY.A = upd (upd (upd (upd (upd (upd (upd sE.A
              (4 * (i / 4)) sE.initv) (4 * (i / 4) + 1) sE.initv) (4 * (i / 4) + 2) sE.initv)
              (4 * (i / 4) + 3) sE.initv) (4 * bk2) ((4 * (i / 4) : Nat) : Int))
              (4 * (i / 4)) ((4 * bk2 : Nat) : Int)) (4 * bk2 + 3) v := rfl
          have hYc0 : sY.A (4 * (i / 4)) = ((4 * bk2 : Nat) : Int) := by
            rw [hYA, upd_ne _ _ _ _ (by omega), upd_at]
          have hYc1 : sY.A (4 * bk2) = ((4 * (i / 4) : Nat) : Int) := by
            rw [hYA, upd_ne _ _ _ _ (by omega), upd_ne _ _ _ _ (by omega), upd_at]
          have hYp1 : sY.A (4 * bk2 + 1) = (if i % 4 = 0 then v else sE.A (4 * bk2 + 1)) := by
            rw [hYA, upd_ne _ _ _ _ (by omega), upd_ne _ _ _ _ (by omega),
                upd_ne _ _ _ _ (by omega), upd_ne _ _ _ _ (by omega),
                upd_ne _ _ _ _ (by omega), upd_ne _ _ _ _ (by omega),
                upd_ne _ _ _ _ (by omega), if_neg hp0]
          have hYp2 : sY.A (4 * bk2 + 2) = (if i % 4 = 1 then v else sE.A (4 * bk2 + 2)) := by
            rw [hYA, upd_ne _ _ _ _ (by omega), upd_ne _ _ _ _ (by omega),
                upd_ne _ _ _ _ (by omega), upd_ne _ _ _ _ (by omega),
                upd_ne _ _ _ _ (by omega), upd_ne _ _ _ _ (by omega),
                upd_ne _ _ _ _ (by omega), if_neg hp1]
          have hYp3 : sY.A (4 * bk2 + 3) = (if i % 4 = 2 then v else sE.A (4 * bk2 + 3)) := by
            rw [hYA, upd_at, if_pos hp2]
          have hYown : ∀ j, j / 4 = i / 4 → ¬ j = i → j % 4 = 3 → sY.A j = sE.initv := by
            intro j g1 g2 g3
            have hj3 : j = 4 * (i / 4) + 3 := by omega
            rw [hYA, hj3, upd_ne _ _ _ _ (by omega), upd_ne _ _ _ _ (by omega),
                upd_ne _ _ _ _ (by omega), upd_at]
          have hYi : i % 4 = 3 → sY.A i = v := by
            intro hc
            exact absurd hc (by omega)
          have hYother : ∀ j, ¬ j / 4 = i / 4 → ¬ j / 4 = bk2 → sY.A j = sE.A j := by
            intro j g1 g2
            rw [hYA, upd_ne _ _ _ _ (by omega), upd_ne _ _ _ _ (by omega),
                upd_ne _ _ _ _ (by omega), upd_ne _ _ _ _ (by omega),
                upd_ne _ _ _ _ (by omega), upd_ne _ _ _ _ (by omega),
                upd_ne _ _ _ _ (by omega)]
          intro j hj
          exact write_effect_fresh_finish4 sE sY i v bk2 (by rw [hN1]; exact hi) hEbile
            hEflagF hEk1 hEbk2 hEbk2b hEbk2N hEA0 hEA1 hEA2 hEA3 rfl rfl rfl hEflagF
            hYc0 hYc1 hYp1 hYp2 hYp3 hYown hYi hYother j (by rw [hN1]; exact hj)
        · rw [if_neg hp0, if_neg hp1, if_neg hp2]
          have hp3 : i % 4 = 3 := by omega
          set sY : InPlaceArraySec4 :=
            { makeChain (initBlock sE (i / 4)) bk2 (i / 4) with
              A := upd (makeChain (initBlock sE (i / 4)) bk2 (i / 4)).A i v } with hsY
          have hYA : sY.A = upd (upd (upd (upd (upd (upd (upd sE.A
              (4 * (i / 4)) sE.initv) (4 * (i / 4) + 1) sE.initv) (4 * (i / 4) + 2) sE.initv)
              (4 * (i / 4) + 3) sE.initv) (4 * bk2) ((4 * (i / 4) : Nat) : Int))
              (4 * (i / 4)) ((4 * bk2 : Nat) : Int)) i v := rfl
          have hYc0 : sY.A (4 * (i / 4)) = ((4 * bk2 : Nat) : Int) := by
            rw [hYA, upd_ne _ _ _ _ (by omega), upd_at]
          have hYc1 : sY.A (4 * bk2) = ((4 * (i / 4) : Nat) : Int) := by
            rw [hYA, upd_ne _ _ _ _ (by omega), upd_ne _ _ _ _ (by omega), upd_at]
          have hYp1 : sY.A (4 * bk2 + 1) = (if i % 4 = 0 then v else sE.A (4 * bk2 + 1)) := by
            rw [hYA, upd_ne _ _ _ _ (by omega), upd_ne _ _ _ _ (by omega),
                upd_ne _ _ _ _ (by omega), upd_ne _ _ _ _ (by omega),
                upd_ne _ _ _ _ (by omega), upd_ne _ _ _ _ (by omega),
                upd_ne _ _ _ _ (by omega), if_neg hp0]
          have hYp2 : sY.A (4 * bk2 + 2) = (if i % 4 = 1 then v else sE.A (4 * bk2 + 2)) := by
            rw [hYA, upd_ne _ _ _ _ (by omega), upd_ne _ _ _ _ (by omega),
                upd_ne _ _ _ _ (by omega), upd_ne _ _ _ _ (by omega),
                upd_ne _ _ _ _ (by omega), upd_ne _ _ _ _ (by omega),
                upd_ne _ _ _ _ (by omega), if_neg hp1]
          have hYp3 : sY.A (4 * bk2 + 3) = (if i % 4 = 2 then v else sE.A (4 * bk2 + 3)) := by
            rw [hYA, upd_ne _ _ _ _ (by omega), upd_ne _ _ _ _ (by omega),
                upd_ne _ _ _ _ (by omega), upd_ne _ _ _ _ (by omega),
                upd_ne _ _ _ _ (by omega), upd_ne _ _ _ _ (by omega),
                upd_ne _ _ _ _ (by omega), if_neg hp2]
          have hYown : ∀ j, j / 4 = i / 4 → ¬ j = i → j % 4 = 3 → sY.A j = sE.initv := by
            intro j g1 g2 g3
            exact absurd (show j = i by omega) g2
          have hYi : i % 4 = 3 → sY.A i = v := by
            intro hc
            rw [hYA, upd_at]
          have hYother : ∀ j, ¬ j / 4 = i / 4 → ¬ j / 4 = bk2 → sY.A j = sE.A j := by
            intro j g1 g2
            rw [hYA, upd_ne _ _ _ _ (by omega), upd_ne _ _ _ _ (by omega),
                upd_ne _ _ _ _ (by omega), upd_ne _ _ _ _ (by omega),
                upd_ne _ _ _ _ (by omega), upd_ne _ _ _ _ (by omega),
                upd_ne _ _ _ _ (by omega)]
          intro j hj
          exact write_effect_fresh_finish4 sE sY i v bk2 (by rw [hN1]; exact hi) hEbile
            hEflagF hEk1 hEbk2 hEbk2b hEbk2N hEA0 hEA1 hEA2 hEA3 rfl rfl rfl hEflagF
            hYc0 hYc1 hYp1 hYp2 hYp3 hYown hYi hYother j (by rw [hN1]; exact hj)
  cases hE : chainedTo_block s s.b with
  | none =>
      obtain ⟨sc, hdec, hscN, hscNB, hscb, hsciv, hscflag, hscvb, hscrel, hret,
        hA0b, hA1b, hA2b, hA3b, hframeb, hbndb⟩ := extend_none_spec4 s hE
      have hretB : bk2 = s.b := by rw [hbk2d]; exact hret
      have hread1 : ∀ j, j < s.N → read_impl (extend s).1 j = read_impl s j :=
        extend_none_read4 s hE hflag hWF hbNB
      have hEbnd : chainedTo_block sE s.b = none := by
        rw [hsE, hdec, sync_chainedTo_all4]
        exact hbndb
      by_cases hbeq : bk2 = i / 4
      · -- the written block is exactly the boundary block that was promoted
        rw [if_pos hbeq] at hw
        have hk1 : chainedTo_block sE (i / 4) = none := by
          rw [← hbeq, hretB]
          exact hEbnd
        by_cases hsat : s.N_blocks ≤ s.b + 1
        · have hEflagT : sE.flag = true := by
            rw [hflag1]
            exact decide_eq_true hsat
          have hnone2 : chainedTo_block { sE with A := upd sE.A i v } (i / 4) = none := by
            apply chainedTo_saturated4
            · show sE.N = 4 * sE.N_blocks
              rw [hN1, hNB1]
              exact hWF
            · show sE.N_blocks ≤ sE.b
              rw [hNB1, hb1]
              omega
            · show 4 * (i / 4) < sE.N
              rw [hN1]
              omega
          intro j hj
          rw [hw, breakChain_of_none4 _ (i / 4) hnone2, ← hread1 j hj, ← hsE,
              read_impl_flag_true4 { sE with A := upd sE.A i v } j hEflagT,
              read_impl_flag_true4 sE j hEflagT]
          show upd sE.A i v j = if j = i then v else sE.A j
          exact upd_eval sE.A i v j
        · have hEflagF : sE.flag = false := by
            rw [hflag1]
            exact decide_eq_false hsat
          have hw2 : breakChain { sE with A := upd sE.A i v } (i / 4) =
              write_impl sE i v := by
            symm
            simp only [write_impl, block_of]
            rw [hEflagF, if_neg (by simp), hk1, if_pos (by rw [hb1]; omega)]
          intro j hj
          rw [hw, hw2,
              write_effect_wca_none4 sE i v hEflagF (by rw [hN1]; exact hi)
                (by rw [hb1]; omega) hk1 j (by rw [hN1]; exact hj),
              ← hread1 j hj, ← hsE]
      · -- chain the written block to the freed boundary block
        rw [if_neg hbeq] at hw
        have hige : ¬ i / 4 = s.b := fun hc => hbeq (by omega)
        have hunsat : ¬ s.N_blocks ≤ s.b + 1 := by omega
        have hscunsat : ¬ sc.N_blocks ≤ sc.b := by omega
        have hEflagF : sE.flag = false := by
          rw [hflag1]
          exact decide_eq_false hunsat
        have hEk1 : chainedTo_block sE (i / 4) = none := by
          rw [hsE, extend_none_status4 s hE (i / 4) hige (by omega)]
          exact hk
        have hEbk2 : chainedTo_block sE bk2 = none := by
          rw [hretB]
          exact hEbnd
        have hEA0 : sE.A (4 * bk2) = sE.initv := by
          rw [hretB, hsE, hdec, sync_A_other4 sc hscunsat (4 * s.b) (by omega),
              sync_meta_initv4, hsciv]
          exact hA0b
        have hEA1 : sE.A (4 * bk2 + 1) = sE.initv := by
          rw [hretB, hsE, hdec, sync_A_other4 sc hscunsat (4 * s.b + 1) (by omega),
              sync_meta_initv4, hsciv]
          exact hA1b
        have hEA2 : sE.A (4 * bk2 + 2) = sE.initv := by
          rw [hretB, hsE, hdec, sync_A_other4 sc hscunsat (4 * s.b + 2) (by omega),
              sync_meta_initv4, hsciv]
          exact hA2b
        have hEA3 : sE.A (4 * bk2 + 3) = sE.initv := by
          rw [hretB, hsE, hdec, sync_A_other4 sc hscunsat (4 * s.b + 3) (by omega),
              sync_meta_initv4, hsciv]
          exact hA3b
        intro j hj
        rw [hw, hmainF hEk1 hEbk2 (by rw [hretB, hb1]; omega) (by rw [hb1]; omega) hbeq
              (by rw [hretB, hN1]; omega) hEflagF hEA0 hEA1 hEA2 hEA3 j hj,
            ← hread1 j hj, ← hsE]
  | some κ =>
      obtain ⟨sc, hdec, hscN, hscNB, hscb, hsciv, hscflag, hscvb, hscrel, hret, hκb,
        hc0, hc1, hc2, hc3, hcκ0, hcκ1, hcκ2, hcκ3, hframeκ, hbndκ, hκnd⟩ :=
        extend_some_spec4 s κ hE
      have hretB : bk2 = κ := by rw [hbk2d]; exact hret
      have hread1 : ∀ j, j < s.N → read_impl (extend s).1 j = read_impl s j :=
        extend_some_read4 s κ hE hflag hWF hbNB
      have hige : ¬ i / 4 = s.b := by
        intro hc
        rw [hc, hE] at hk
        exact Option.noConfusion hk
      have hunsat : ¬ s.N_blocks ≤ s.b + 1 := by omega
      have hscunsat : ¬ sc.N_blocks ≤ sc.b := by omega
      have hEflagF : sE.flag = false := by
        rw [hflag1]
        exact decide_eq_false hunsat
      have hbeq : ¬ bk2 = i / 4 := by omega
      rw [if_neg hbeq] at hw
      have hEk1 : chainedTo_block sE (i / 4) = none := by
        rw [hsE, extend_some_status4 s κ hE (by omega) (i / 4) hige (by omega) (by omega)]
        exact hk
      have hEbk2 : chainedTo_block sE bk2 = none := by
        rw [hretB, hsE, hdec, sync_chainedTo_all4]
        exact hκnd
      have hEA0 : sE.A (4 * bk2) = sE.initv := by
        rw [hretB, hsE, hdec, sync_A_other4 sc hscunsat (4 * κ) (by omega),
            sync_meta_initv4, hsciv]
        exact hcκ0
      have hEA1 : sE.A (4 * bk2 + 1) = sE.initv := by
        rw [hretB, hsE, hdec, sync_A_other4 sc hscunsat (4 * κ + 1) (by omega),
            sync_meta_initv4, hsciv]
        exact hcκ1
      have hEA2 : sE.A (4 * bk2 + 2) = sE.initv := by
        rw [hretB, hsE, hdec, sync_A_other4 sc hscunsat (4 * κ + 2) (by omega),
            sync_meta_initv4, hsciv]
        exact hcκ2
      have hEA3 : sE.A (4 * bk2 + 3) = sE.initv := by
        rw [hretB, hsE, hdec, sync_A_other4 sc hscunsat (4 * κ + 3) (by omega),
            sync_meta_initv4, hsciv]
        exact hcκ3
      intro j hj
      rw [hw, hmainF hEk1 hEbk2 (by rw [hretB, hb1]; omega) (by rw [hb1]; omega) hbeq
            (by rw [hretB, hN1]; omega) hEflagF hEA0 hEA1 hEA2 hEA3 j hj,
          ← hread1 j hj, ← hsE]

/-! ### The materialized fast path and the assembled write/read correctness -/

theorem write_effect_flag_true4 (s : InPlaceArraySec4) (i : Nat) (v : Int)
    (hflag : s.flag = true) :
    ∀ j, j < s.N → read_impl (write_impl s i v) j = if j = i then v else read_impl s j := by
  have hw : write_impl s i v = { s with A := upd s.A i v } := by
    simp only [write_impl]
    rw [hflag, if_pos rfl]
  intro j hj
  rw [hw, read_impl_flag_true4 { s with A := upd s.A i v } j hflag,
      read_impl_flag_true4 s j hflag]
  show upd s.A i v j = if j = i then v else s.A j
  exact upd_eval s.A i v j

/-- `write_impl` stores `v` at logical index `i` and leaves every other in-range
logical value unchanged, on any metadata-consistent state. -/
theorem write_effect4 (s : InPlaceArraySec4) (i : Nat) (v : Int)
    (hWF : s.N = 4 * s.N_blocks) (hflagco : s.flag = decide (s.N_blocks ≤ s.b))
    (hi : i < s.N) :
    ∀ j, j < s.N → read_impl (write_impl s i v) j = if j = i then v else read_impl s j := by
  by_cases hsat : s.N_blocks ≤ s.b
  · exact write_effect_flag_true4 s i v (by rw [hflagco]; exact decide_eq_true hsat)
  · have hflag : s.flag = false := by
      rw [hflagco]
      exact decide_eq_false hsat
    have hbNB : s.b < s.N_blocks := by omega
    by_cases hbi : i / 4 < s.b
    · cases hk : chainedTo_block s (i / 4) with
      | none => exact write_effect_wca_none4 s i v hflag hi hbi hk
      | some kk => exact write_effect_wca_some4 s i v kk hflag hWF hbNB hi hbi hk
    · cases hk : chainedTo_block s (i / 4) with
      | none => exact write_effect_uca_none4 s i v hflag hWF hbNB hi hbi hk
      | some m => exact write_effect_uca_some4 s i v hflag hi hbi m hk

end InPlaceArraySec4

namespace InPlaceArraySec3

/-! ### Field preservation and public-operation evaluation (Section 3) -/

theorem write_impl_N3 (s : InPlaceArraySec3) (i : Nat) (v : Int) :
    (write_impl s i v).N = s.N := by
  simp only [write_impl, block_of]
  split
  · split
    · rw [breakChain_N]
    · split
      · rw [breakChain_N]
        exact extend_N s
      · rw [breakChain_N]
        exact extend_N s
  · split
    · split
      · rfl
      · rfl
    · split
      · rw [breakChain_N]
        exact extend_N s
      · split
        · exact extend_N s
        · exact extend_N s

theorem read_fst3 (s : InPlaceArraySec3) (i : Nat) :
    (read s i).1 = { s with ctr := { s.ctr with reads := s.ctr.reads + 1 } } := by
  simp only [read]
  split
  · rfl
  · rfl

theorem read_eval3 (s : InPlaceArraySec3) (j : Nat) (hj : j < s.N) :
    (read s j).2 = Except.ok (read_impl s j) := by
  simp only [read]
  rw [if_neg (by omega)]
  rfl

theorem read_err3 (s : InPlaceArraySec3) (i : Nat) (hi : s.N ≤ i) :
    read s i = ({ s with ctr := { s.ctr with reads := s.ctr.reads + 1 } },
      Except.error Err.indexOutOfRange) := by
  simp only [read]
  rw [if_pos hi]

theorem write_err3 (s : InPlaceArraySec3) (i : Nat) (v : Int) (hi : s.N ≤ i) :
    write s i v = ({ s with ctr := { s.ctr with writes := s.ctr.writes + 1 } },
      Except.error Err.indexOutOfRange) := by
  simp only [write]
  rw [if_pos hi]

theorem write_fst3 (s : InPlaceArraySec3) (i : Nat) (v : Int) (hi : i < s.N) :
    (write s i v).1 =
      (if (write_impl { s with ctr := { s.ctr with writes := s.ctr.writes + 1 } } i
            v).vb.verifying = true
       then { write_impl { s with ctr := { s.ctr with writes := s.ctr.writes + 1 } } i
                v with
              vb := shadow_on_write (write_impl { s with
                ctr := { s.ctr with writes := s.ctr.writes + 1 } } i v).vb i v }
       else write_impl { s with ctr := { s.ctr with writes := s.ctr.writes + 1 } } i v)
    := by
  simp only [write]
  rw [if_neg (by omega)]

theorem write_fst_N3 (s : InPlaceArraySec3) (i : Nat) (v : Int) :
    (write s i v).1.N = s.N := by
  simp only [write]
  split
  · rfl
  · split
    · exact write_impl_N3 { s with ctr := { s.ctr with writes := s.ctr.writes + 1 } } i v
    · exact write_impl_N3 { s with ctr := { s.ctr with writes := s.ctr.writes + 1 } } i v

theorem read_write3 (s : InPlaceArraySec3) (i : Nat) (v : Int) (hi : i < s.N)
    (j : Nat) (hj : j < s.N) :
    (read (write s i v).1 j).2 = Except.ok (if j = i then v else read_impl s j) := by
  have hread2 : read_impl
      (write_impl { s with ctr := { s.ctr with writes := s.ctr.writes + 1 } } i v) j =
      if j = i then v else read_impl s j := by
    rw [write_effect { s with ctr := { s.ctr with writes := s.ctr.writes + 1 } } i v hi
        j hj]
    rfl
  have hgen : ∀ X : InPlaceArraySec3, X.N = s.N →
      read_impl X j = (if j = i then v else read_impl s j) →
      (read X j).2 = Except.ok (if j = i then v else read_impl s j) := by
    intro X hXN hXr
    rw [read_eval3 X j (by omega), hXr]
  rw [write_fst3 s i v hi]
  split
  · exact hgen _
      (write_impl_N3 { s with ctr := { s.ctr with writes := s.ctr.writes + 1 } } i v)
      hread2
  · exact hgen _
      (write_impl_N3 { s with ctr := { s.ctr with writes := s.ctr.writes + 1 } } i v)
      hread2

theorem chainedTo_b0_3 (s : InPlaceArraySec3) (hb : s.b = 0) (t : Nat) :
    chainedTo_block s t = none := by
  rw [chainedTo_none_iff]
  intro k hk
  have hcr := hk.2.2.1
  unfold cross at hcr
  omega

theorem read_impl_b0_3 (s : InPlaceArraySec3) (hb : s.b = 0) (j : Nat) :
    read_impl s j = s.initv := by
  simp only [read_impl, block_of]
  rw [chainedTo_b0_3 s hb (j / 2), hb, if_neg (by omega)]

end InPlaceArraySec3

namespace InPlaceArraySec4

/-! ### Field preservation and public-operation evaluation (Section 4) -/

theorem write_impl_N4 (s : InPlaceArraySec4) (i : Nat) (v : Int) :
    (write_impl s i v).N = s.N := by
  simp only [write_impl, block_of]
  split
  · rfl
  · split
    · split
      · rw [breakChain_N4]
      · split
        · rw [breakChain_N4]
          exact extend_N4 s
        · rw [breakChain_N4]
          exact extend_N4 s
    · split
      · split
        · rfl
        · split
          · rfl
          · split
            · rfl
            · rfl
      · split
        · rw [breakChain_N4]
          exact extend_N4 s
        · split
          · exact extend_N4 s
          · split
            · exact extend_N4 s
            · split
              · exact extend_N4 s
              · exact extend_N4 s

theorem write_impl_N_blocks4 (s : InPlaceArraySec4) (i : Nat) (v : Int) :
    (write_impl s i v).N_blocks = s.N_blocks := by
  simp only [write_impl, block_of]
  split
  · rfl
  · split
    · split
      · rw [breakChain_N_blocks4]
      · split
        · rw [breakChain_N_blocks4]
          exact extend_N_blocks4 s
        · rw [breakChain_N_blocks4]
          exact extend_N_blocks4 s
    · split
      · split
        · rfl
        · split
          · rfl
          · split
            · rfl
            · rfl
      · split
        · rw [breakChain_N_blocks4]
          exact extend_N_blocks4 s
        · split
          · exact extend_N_blocks4 s
          · split
            · exact extend_N_blocks4 s
            · split
              · exact extend_N_blocks4 s
              · exact extend_N_blocks4 s

theorem write_impl_WF4 (s : InPlaceArraySec4) (i : Nat) (v : Int)
    (h1 : s.N = 4 * s.N_blocks) (h2 : s.b ≤ s.N_blocks)
    (h3 : s.flag = decide (s.N_blocks ≤ s.b)) :
    (write_impl s i v).N = 4 * (write_impl s i v).N_blocks ∧
    (write_impl s i v).b ≤ (write_impl s i v).N_blocks ∧
    (write_impl s i v).flag =
      decide ((write_impl s i v).N_blocks ≤ (write_impl s i v).b) := by
  have hN := write_impl_N4 s i v
  have hNB := write_impl_N_blocks4 s i v
  by_cases hsat : s.N_blocks ≤ s.b
  · have hfl : s.flag = true := by
      rw [h3]
      exact decide_eq_true hsat
    have hw : write_impl s i v = { s with A := upd s.A i v } := by
      simp only [write_impl]
      rw [hfl, if_pos rfl]
    rw [hw]
    exact ⟨h1, h2, h3⟩
  · have hfl : s.flag = false := by
      rw [h3]
      exact decide_eq_false hsat
    have hbf : ((write_impl s i v).b = s.b ∧ (write_impl s i v).flag = s.flag) ∨
        ((write_impl s i v).b = s.b + 1 ∧
         (write_impl s i v).flag = decide (s.N_blocks ≤ s.b + 1)) := by
      simp only [write_impl, block_of]
      rw [hfl, if_neg (by simp)]
      split
      · split
        · exact Or.inl ⟨by rw [breakChain_b4], by rw [breakChain_flag4]⟩
        · split
          · exact Or.inr ⟨by rw [breakChain_b4]; exact extend_b4 s,
              by rw [breakChain_flag4]; exact extend_flag4 s⟩
          · exact Or.inr ⟨by rw [breakChain_b4]; exact extend_b4 s,
              by rw [breakChain_flag4]; exact extend_flag4 s⟩
      · split
        · split
          · exact Or.inl ⟨rfl, rfl⟩
          · split
            · exact Or.inl ⟨rfl, rfl⟩
            · split
              · exact Or.inl ⟨rfl, rfl⟩
              · exact Or.inl ⟨rfl, rfl⟩
        · split
          · exact Or.inr ⟨by rw [breakChain_b4]; exact extend_b4 s,
              by rw [breakChain_flag4]; exact extend_flag4 s⟩
          · split
            · exact Or.inr ⟨extend_b4 s, extend_flag4 s⟩
            · split
              · exact Or.inr ⟨extend_b4 s, extend_flag4 s⟩
              · split
                · exact Or.inr ⟨extend_b4 s, extend_flag4 s⟩
                · exact Or.inr ⟨extend_b4 s, extend_flag4 s⟩
    rcases hbf with ⟨hb, hflag2⟩ | ⟨hb, hflag2⟩
    · exact ⟨by rw [hN, hNB]; exact h1, by rw [hb, hNB]; exact h2,
        by rw [hflag2, hNB, hb]; exact h3⟩
    · exact ⟨by rw [hN, hNB]; exact h1, by rw [hb, hNB]; omega,
        by rw [hflag2, hNB, hb]⟩

theorem init_WF4 (s : InPlaceArraySec4) (v : Int) (h1 : s.N = 4 * s.N_blocks) :
    (init s v).N = 4 * (init s v).N_blocks ∧ (init s v).b ≤ (init s v).N_blocks ∧
    (init s v).flag = decide ((init s v).N_blocks ≤ (init s v).b) := by
  set s1 : InPlaceArraySec4 :=
    { s with ctr := { s.ctr with inits := s.ctr.inits + 1 }, initv := v, b := 0,
             flag := decide (s.N_blocks = 0) } with hs1
  have e1 : (init s v).N = (sync_meta_to_A s1).N := rfl
  have e2 : (init s v).N_blocks = (sync_meta_to_A s1).N_blocks := rfl
  have e3 : (init s v).b = (sync_meta_to_A s1).b := rfl
  have e4 : (init s v).flag = (sync_meta_to_A s1).flag := rfl
  rw [e1, e2, e3, e4, sync_meta_N4, sync_meta_N_blocks4, sync_meta_b4, sync_meta_flag4]
  exact ⟨h1, Nat.zero_le _, rfl⟩

theorem read_fst4 (s : InPlaceArraySec4) (i : Nat) :
    (read s i).1 = { s with ctr := { s.ctr with reads := s.ctr.reads + 1 } } := by
  simp only [read]
  split
  · rfl
  · rfl

theorem read_eval4 (s : InPlaceArraySec4) (j : Nat) (hj : j < s.N) :
    (read s j).2 = Except.ok (read_impl s j) := by
  simp only [read]
  rw [if_neg (by omega)]
  rfl

theorem read_err4 (s : InPlaceArraySec4) (i : Nat) (hi : s.N ≤ i) :
    read s i = ({ s with ctr := { s.ctr with reads := s.ctr.reads + 1 } },
      Except.error Err.indexOutOfRange) := by
  simp only [read]
  rw [if_pos hi]

theorem write_err4 (s : InPlaceArraySec4) (i : Nat) (v : Int) (hi : s.N ≤ i) :
    write s i v = ({ s with ctr := { s.ctr with writes := s.ctr.writes + 1 } },
      Except.error Err.indexOutOfRange) := by
  simp only [write]
  rw [if_pos hi]

theorem write_fst4 (s : InPlaceArraySec4) (i : Nat) (v : Int) (hi : i < s.N) :
    (write s i v).1 =
      (if (write_impl { s with ctr := { s.ctr with writes := s.ctr.writes + 1 } } i
            v).vb.verifying = true
       then { write_impl { s with ctr := { s.ctr with writes := s.ctr.writes + 1 } } i
                v with
              vb := shadow_on_write (write_impl { s with
                ctr := { s.ctr with writes := s.ctr.writes + 1 } } i v).vb i v }
       else write_impl { s with ctr := { s.ctr with writes := s.ctr.writes + 1 } } i v)
    := by
  simp only [write]
  rw [if_neg (by omega)]

theorem write_fst_N4 (s : InPlaceArraySec4) (i : Nat) (v : Int) :
    (write s i v).1.N = s.N := by
  simp only [write]
  split
  · rfl
  · split
    · exact write_impl_N4 { s with ctr := { s.ctr with writes := s.ctr.writes + 1 } } i v
    · exact write_impl_N4 { s with ctr := { s.ctr with writes := s.ctr.writes + 1 } } i v

theorem write_fst_N_blocks4 (s : InPlaceArraySec4) (i : Nat) (v : Int) :
    (write s i v).1.N_blocks = s.N_blocks := by
  simp only [write]
  split
  · rfl
  · split
    · exact write_impl_N_blocks4
        { s with ctr := { s.ctr with writes := s.ctr.writes + 1 } } i v
    · exact write_impl_N_blocks4
        { s with ctr := { s.ctr with writes := s.ctr.writes + 1 } } i v

theorem Reachable_WF4 (s : InPlaceArraySec4) (h : Reachable s) :
    s.N = 4 * s.N_blocks ∧ s.b ≤ s.N_blocks ∧
    s.flag = decide (s.N_blocks ≤ s.b) := by
  induction h with
  | construct n s hmk =>
      simp only [make] at hmk
      by_cases h0 : n = 0
      · rw [if_pos h0] at hmk
        exact Except.noConfusion hmk
      · rw [if_neg h0] at hmk
        by_cases h4 : n % 4 ≠ 0
        · rw [if_pos h4] at hmk
          exact Except.noConfusion hmk
        · rw [if_neg h4] at hmk
          have h4x : n % 4 = 0 := not_not.mp h4
          have heq := Except.ok.inj hmk
          rw [← heq]
          refine ⟨by show n = 4 * (n / 4); omega, by show (0 : Nat) ≤ n / 4; omega, ?_⟩
          show false = decide (n / 4 ≤ 0)
          rw [decide_eq_false (by omega : ¬ n / 4 ≤ 0)]
  | init s v hR ih =>
      exact init_WF4 s v ih.1
  | read s i hR hi ih =>
      rw [read_fst4 s i]
      exact ih
  | write s i v hR hi ih =>
      rw [write_fst4 s i v hi]
      have htrip := write_impl_WF4
        { s with ctr := { s.ctr with writes := s.ctr.writes + 1 } } i v
        ih.1 ih.2.1 ih.2.2
      split
      · exact htrip
      · exact htrip

theorem read_write4 (s : InPlaceArraySec4) (i : Nat) (v : Int)
    (h1 : s.N = 4 * s.N_blocks) (h3 : s.flag = decide (s.N_blocks ≤ s.b))
    (hi : i < s.N) (j : Nat) (hj : j < s.N) :
    (read (write s i v).1 j).2 = Except.ok (if j = i then v else read_impl s j) := by
  have hread2 : read_impl
      (write_impl { s with ctr := { s.ctr with writes := s.ctr.writes + 1 } } i v) j =
      if j = i then v else read_impl s j := by
    rw [write_effect4 { s with ctr := { s.ctr with writes := s.ctr.writes + 1 } } i v
        h1 h3 hi j hj]
    rfl
  have hgen : ∀ X : InPlaceArraySec4, X.N = s.N →
      read_impl X j = (if j = i then v else read_impl s j) →
      (read X j).2 = Except.ok (if j = i then v else read_impl s j) := by
    intro X hXN hXr
    rw [read_eval4 X j (by omega), hXr]
  rw [write_fst4 s i v hi]
  split
  · exact hgen _
      (write_impl_N4 { s with ctr := { s.ctr with writes := s.ctr.writes + 1 } } i v)
      hread2
  · exact hgen _
      (write_impl_N4 { s with ctr := { s.ctr with writes := s.ctr.writes + 1 } } i v)
      hread2

theorem chainedTo_b0_4 (s : InPlaceArraySec4) (hb : s.b = 0) (t : Nat) :
    chainedTo_block s t = none := by
  rw [chainedTo_none_iff4]
  intro k hk
  have hcr := hk.2.2.1
  unfold cross at hcr
  omega

theorem read_impl_b0_4 (s : InPlaceArraySec4) (hflag : s.flag = false) (hb : s.b = 0)
    (j : Nat) : read_impl s j = s.initv := by
  simp only [read_impl, block_of]
  rw [hflag, if_neg (by simp), chainedTo_b0_4 s hb (j / 4), hb, if_neg (by omega)]

theorem init_b4 (s : InPlaceArraySec4) (v : Int) : (init s v).b = 0 := by
  show (sync_meta_to_A _).b = 0
  rw [sync_meta_b4]

theorem init_initv4 (s : InPlaceArraySec4) (v : Int) : (init s v).initv = v := by
  show (sync_meta_to_A _).initv = v
  rw [sync_meta_initv4]

theorem init_N4 (s : InPlaceArraySec4) (v : Int) : (init s v).N = s.N := by
  show (sync_meta_to_A _).N = s.N
  rw [sync_meta_N4]

theorem init_N_blocks4 (s : InPlaceArraySec4) (v : Int) :
    (init s v).N_blocks = s.N_blocks := by
  show (sync_meta_to_A _).N_blocks = s.N_blocks
  rw [sync_meta_N_blocks4]

theorem init_flag4 (s : InPlaceArraySec4) (v : Int) :
    (init s v).flag = decide (s.N_blocks ≤ 0) := by
  show (sync_meta_to_A _).flag = decide (s.N_blocks ≤ 0)
  rw [sync_meta_flag4]

end InPlaceArraySec4

/-! ## The verification results for the specified properties -/

/-- C1: for both `InPlaceArraySec3` and `InPlaceArraySec4`, in every state
reachable from construction by init/read/write with in-range indices, writing
`v` at an in-range index `i` and then reading `i` returns `v`. -/
theorem claim_C1 :
    (∀ s : InPlaceArraySec3, InPlaceArraySec3.Reachable s → ∀ (i : Nat) (v : Int),
      i < s.N →
      (InPlaceArraySec3.read (InPlaceArraySec3.write s i v).1 i).2 = Except.ok v) ∧
    (∀ s : InPlaceArraySec4, InPlaceArraySec4.Reachable s → ∀ (i : Nat) (v : Int),
      i < s.N →
      (InPlaceArraySec4.read (InPlaceArraySec4.write s i v).1 i).2 = Except.ok v) := by
  constructor
  · intro s hR i v hi
    rw [InPlaceArraySec3.read_write3 s i v hi i hi, if_pos rfl]
  · intro s hR i v hi
    obtain ⟨h1, h2, h3⟩ := InPlaceArraySec4.Reachable_WF4 s hR
    rw [InPlaceArraySec4.read_write4 s i v h1 h3 hi i hi, if_pos rfl]

/-- C2: for both `InPlaceArraySec3` and `InPlaceArraySec4`, in every reachable
state, a write at an in-range `i` leaves the logical value of every other
in-range index `j` unchanged: reading `j` after the write equals reading `j`
before it. -/
theorem claim_C2 :
    (∀ s : InPlaceArraySec3, InPlaceArraySec3.Reachable s →
      ∀ (i j : Nat) (v : Int), i < s.N → j < s.N → ¬ j = i →
      (InPlaceArraySec3.read (InPlaceArraySec3.write s i v).1 j).2 =
        (InPlaceArraySec3.read s j).2) ∧
    (∀ s : InPlaceArraySec4, InPlaceArraySec4.Reachable s →
      ∀ (i j : Nat) (v : Int), i < s.N → j < s.N → ¬ j = i →
      (InPlaceArraySec4.read (InPlaceArraySec4.write s i v).1 j).2 =
        (InPlaceArraySec4.read s j).2) := by
  constructor
  · intro s hR i j v hi hj hji
    rw [InPlaceArraySec3.read_write3 s i v hi j hj, if_neg hji,
        InPlaceArraySec3.read_eval3 s j hj]
  · intro s hR i j v hi hj hji
    obtain ⟨h1, h2, h3⟩ := InPlaceArraySec4.Reachable_WF4 s hR
    rw [InPlaceArraySec4.read_write4 s i v h1 h3 hi j hj, if_neg hji,
        InPlaceArraySec4.read_eval4 s j hj]

/-- C3: the claimed stash invariant of `InPlaceArraySec4` fails on the reachable
state `s4bug` (an 8-cell array after `init 0; write 4 9`): the derived flag is
off (`b < N_blocks`), yet the last block's stash cell
`A[first_of (N_blocks - 1) + 2]` does not hold `b` — the write path's
`initBlock`/`makeChain` on the last block overwrote the stash and the code
never re-syncs it. -/
theorem claim_C3 :
    InPlaceArraySec4.Reachable s4bug ∧
    s4bug.flag = false ∧ ¬ s4bug.N_blocks ≤ s4bug.b ∧
    s4bug.N_blocks = 2 ∧ s4bug.b = 1 ∧
    ¬ s4bug.A (InPlaceArraySec4.first_of (s4bug.N_blocks - 1) + 2) =
      (s4bug.b : Int) := by
  refine ⟨?_, rfl, by decide, rfl, rfl, by decide⟩
  exact InPlaceArraySec4.Reachable.write (InPlaceArraySec4.init s4w 0) 4 9
    (InPlaceArraySec4.Reachable.init s4w 0
      (InPlaceArraySec4.Reachable.construct 8 s4w rfl))
    (by decide)

/-- C4: for both variants, a second `init` logically wipes all prior writes:
from any reachable state, after `init v; write i w; init v2` every in-range
read returns `v2`. -/
theorem claim_C4 :
    (∀ s : InPlaceArraySec3, InPlaceArraySec3.Reachable s →
      ∀ (v w v2 : Int) (i j : Nat), i < s.N → j < s.N →
      (InPlaceArraySec3.read
        (InPlaceArraySec3.init
          (InPlaceArraySec3.write (InPlaceArraySec3.init s v) i w).1 v2) j).2 =
        Except.ok v2) ∧
    (∀ s : InPlaceArraySec4, InPlaceArraySec4.Reachable s →
      ∀ (v w v2 : Int) (i j : Nat), i < s.N → j < s.N →
      (InPlaceArraySec4.read
        (InPlaceArraySec4.init
          (InPlaceArraySec4.write (InPlaceArraySec4.init s v) i w).1 v2) j).2 =
        Except.ok v2) := by
  constructor
  · intro s hR v w v2 i j hi hj
    have hNf : (InPlaceArraySec3.init
        (InPlaceArraySec3.write (InPlaceArraySec3.init s v) i w).1 v2).N = s.N := by
      show (InPlaceArraySec3.write (InPlaceArraySec3.init s v) i w).1.N = s.N
      exact InPlaceArraySec3.write_fst_N3 (InPlaceArraySec3.init s v) i w
    rw [InPlaceArraySec3.read_eval3 _ j (by omega),
        InPlaceArraySec3.read_impl_b0_3 _ rfl j]
    rfl
  · intro s hR v w v2 i j hi hj
    obtain ⟨h1, h2, h3⟩ := InPlaceArraySec4.Reachable_WF4 s hR
    have hNf : (InPlaceArraySec4.init
        (InPlaceArraySec4.write (InPlaceArraySec4.init s v) i w).1 v2).N = s.N := by
      rw [InPlaceArraySec4.init_N4, InPlaceArraySec4.write_fst_N4,
          InPlaceArraySec4.init_N4]
    by_cases hNB0 : s.N_blocks = 0
    · exact absurd hj (by omega)
    · have hflagf : (InPlaceArraySec4.init
          (InPlaceArraySec4.write (InPlaceArraySec4.init s v) i w).1 v2).flag =
          false := by
        rw [InPlaceArraySec4.init_flag4, InPlaceArraySec4.write_fst_N_blocks4,
            InPlaceArraySec4.init_N_blocks4]
        exact decide_eq_false (by omega)
      rw [InPlaceArraySec4.read_eval4 _ j (by omega),
          InPlaceArraySec4.read_impl_b0_4 _ hflagf
            (InPlaceArraySec4.init_b4 _ v2) j,
          InPlaceArraySec4.init_initv4]

/-- C5: chain bookkeeping never writes the odd offset of a block (offset 1 for
Section 3, offset 3 for Section 4): `makeChain` and `breakChain` preserve every
such cell, `extend` preserves it for every chained UCA block, and reading such
an index of a chained UCA block returns the physical cell `A[i]`. -/
theorem claim_C5 :
    (∀ (s : InPlaceArraySec3) (x y j : Nat), j % 2 = 1 →
      (InPlaceArraySec3.makeChain s x y).A j = s.A j) ∧
    (∀ (s : InPlaceArraySec3) (x j : Nat), j % 2 = 1 →
      (InPlaceArraySec3.breakChain s x).A j = s.A j) ∧
    (∀ (s : InPlaceArraySec3) (j k : Nat), j % 2 = 1 → s.b ≤ j / 2 →
      InPlaceArraySec3.chainedTo_block s (j / 2) = some k →
      (InPlaceArraySec3.extend s).1.A j = s.A j) ∧
    (∀ (s : InPlaceArraySec3) (j k : Nat), j % 2 = 1 → ¬ j / 2 < s.b →
      InPlaceArraySec3.chainedTo_block s (j / 2) = some k →
      InPlaceArraySec3.read_impl s j = s.A j) ∧
    (∀ (s : InPlaceArraySec4) (x y j : Nat), j % 4 = 3 →
      (InPlaceArraySec4.makeChain s x y).A j = s.A j) ∧
    (∀ (s : InPlaceArraySec4) (x j : Nat), j % 4 = 3 →
      (InPlaceArraySec4.breakChain s x).A j = s.A j) ∧
    (∀ (s : InPlaceArraySec4) (j k : Nat), j % 4 = 3 → s.b ≤ j / 4 →
      InPlaceArraySec4.chainedTo_block s (j / 4) = some k →
      (InPlaceArraySec4.extend s).1.A j = s.A j) ∧
    (∀ (s : InPlaceArraySec4) (j k : Nat), j % 4 = 3 → ¬ j / 4 < s.b →
      InPlaceArraySec4.chainedTo_block s (j / 4) = some k →
      InPlaceArraySec4.read_impl s j = s.A j) := by
  refine ⟨?_, ?_, ?_, ?_, ?_, ?_, ?_, ?_⟩
  · intro s x y j hp
    rw [InPlaceArraySec3.makeChain_A, upd_ne _ _ _ _ (by omega),
        upd_ne _ _ _ _ (by omega)]
  · intro s x j hp
    cases hc : InPlaceArraySec3.chainedTo_block s x with
    | none => rw [InPlaceArraySec3.breakChain_of_none s x hc]
    | some p =>
        rw [InPlaceArraySec3.breakChain_A_of_some s x p hc,
            upd_ne _ _ _ _ (by omega)]
  · intro s j k hp hbj hk
    cases hE : InPlaceArraySec3.chainedTo_block s s.b with
    | none =>
        obtain ⟨hret, hA0, hA1, hframe, hbnd⟩ := InPlaceArraySec3.extend_none_spec s hE
        have hjb : ¬ j / 2 = s.b := by
          intro hc
          rw [hc, hE] at hk
          exact Option.noConfusion hk
        rcases hframe j (by omega) (by omega) with h | ⟨hpar, hrest⟩
        · exact h
        · exact absurd hpar (by omega)
    | some κ =>
        obtain ⟨hret, hκb, hc0, hc1, hcκ0, hcκ1, hrel, hframe, hbnd, hκnd⟩ :=
          InPlaceArraySec3.extend_some_spec s κ hE
        by_cases hjs : j = 2 * s.b + 1
        · rw [hjs]
          exact hc1
        · rcases hframe j (by omega) (by omega) (by omega) with h | ⟨hpar, hrest⟩
          · exact h
          · exact absurd hpar (by omega)
  · intro s j k hp hge hk
    exact InPlaceArraySec3.read_impl_uca_some_odd s j k (by omega) hp hk
  · intro s x y j hp
    rw [InPlaceArraySec4.makeChain_A4, upd_ne _ _ _ _ (by omega),
        upd_ne _ _ _ _ (by omega)]
  · intro s x j hp
    cases hc : InPlaceArraySec4.chainedTo_block s x with
    | none => rw [InPlaceArraySec4.breakChain_of_none4 s x hc]
    | some p =>
        rw [InPlaceArraySec4.breakChain_A_of_some4 s x p hc,
            upd_ne _ _ _ _ (by omega)]
  · intro s j k hp hbj hk
    cases hE : InPlaceArraySec4.chainedTo_block s s.b with
    | none =>
        obtain ⟨sc, hdec, hscN, hscNB, hscb, hsciv, hscflag, hscvb, hscrel, hret,
          hA0, hA1, hA2, hA3, hframe, hbnd⟩ := InPlaceArraySec4.extend_none_spec4 s hE
        have hjb : ¬ j / 4 = s.b := by
          intro hc
          rw [hc, hE] at hk
          exact Option.noConfusion hk
        have hcell : sc.A j = s.A j := by
          rcases hframe j (by omega) (by omega) (by omega) (by omega) with
            h | ⟨hpar, hrest⟩
          · exact h
          · exact absurd hpar (by omega)
        rw [hdec]
        by_cases hsat : sc.N_blocks ≤ sc.b
        · rw [InPlaceArraySec4.sync_meta_A_sat4 sc hsat]
          exact hcell
        · rw [InPlaceArraySec4.sync_A_frame4 sc hsat j (Or.inr hp)]
          exact hcell
    | some κ =>
        obtain ⟨sc, hdec, hscN, hscNB, hscb, hsciv, hscflag, hscvb, hscrel, hret, hκb,
          hc0, hc1, hc2, hc3, hcκ0, hcκ1, hcκ2, hcκ3, hframe, hbnd, hκnd⟩ :=
          InPlaceArraySec4.extend_some_spec4 s κ hE
        have hcell : sc.A j = s.A j := by
          by_cases hjs : j = 4 * s.b + 3
          · rw [hjs]
            exact hc3
          · rcases hframe j (by omega) (by omega) (by omega) (by omega) (by omega)
              (by omega) (by omega) with h | ⟨hpar, hrest⟩
            · exact h
            · exact absurd hpar (by omega)
        rw [hdec]
        by_cases hsat : sc.N_blocks ≤ sc.b
        · rw [InPlaceArraySec4.sync_meta_A_sat4 sc hsat]
          exact hcell
        · rw [InPlaceArraySec4.sync_A_frame4 sc hsat j (Or.inr hp)]
          exact hcell
  · intro s j k hp hge hk
    by_cases hfl : s.flag = true
    · exact InPlaceArraySec4.read_impl_flag_true4 s j hfl
    · exact InPlaceArraySec4.read_impl_uca_some_34 s j k
        (Bool.eq_false_iff.mpr hfl) (by omega) hp hk

/-- C6 (amended): when the boundary block `b` is chained on entry to
`InPlaceArraySec3.extend`, its partner `κ` lies in the WCA (`κ < b`, not in the
UCA as the spec claims); extend recovers the displaced first cell by
`A[first(b)] := A[first(κ)+1]`, leaves `A[first(b)+1]` unchanged, counts one
relocation and returns `κ`. -/
theorem claim_C6 (s : InPlaceArraySec3) (κ : Nat)
    (h : InPlaceArraySec3.chainedTo_block s s.b = some κ) :
    κ < s.b ∧ (InPlaceArraySec3.extend s).2 = κ ∧
    (InPlaceArraySec3.extend s).1.A (2 * s.b) = s.A (2 * κ + 1) ∧
    (InPlaceArraySec3.extend s).1.A (2 * s.b + 1) = s.A (2 * s.b + 1) ∧
    (InPlaceArraySec3.extend s).1.ctr.relocations = s.ctr.relocations + 1 := by
  obtain ⟨hret, hκb, hc0, hc1, hcκ0, hcκ1, hrel, hframe, hbnd, hκnd⟩ :=
    InPlaceArraySec3.extend_some_spec s κ h
  exact ⟨hκb, hret, hc0, hc1, hrel⟩

/-- C6 counterexample: in the reachable Section-3 state `s3c6` (8 cells after
`init 0; write 4 5; write 6 7`) the boundary block `b = 2` is chained, and its
partner is block `0 < b` — in the WCA, not the UCA the claim asserts. -/
theorem claim_C6_counterexample :
    InPlaceArraySec3.Reachable s3c6 ∧ s3c6.b = 2 ∧
    InPlaceArraySec3.chainedTo_block s3c6 s3c6.b = some 0 ∧ ¬ s3c6.b ≤ 0 := by
  refine ⟨?_, rfl, by decide, by decide⟩
  exact InPlaceArraySec3.Reachable.write s3chain 6 7
    (InPlaceArraySec3.Reachable.write (InPlaceArraySec3.init s3w 0) 4 5
      (InPlaceArraySec3.Reachable.init s3w 0
        (InPlaceArraySec3.Reachable.construct 8 s3w rfl))
      (by decide))
    (by decide)

/-- C6 witness: the amended extend contract evaluated on the concrete chained
state `s3c6` with partner block 0. -/
theorem claim_C6_witness :
    0 < s3c6.b ∧ (InPlaceArraySec3.extend s3c6).2 = 0 ∧
    (InPlaceArraySec3.extend s3c6).1.A (2 * s3c6.b) = s3c6.A (2 * 0 + 1) ∧
    (InPlaceArraySec3.extend s3c6).1.A (2 * s3c6.b + 1) =
      s3c6.A (2 * s3c6.b + 1) ∧
    (InPlaceArraySec3.extend s3c6).1.ctr.relocations = s3c6.ctr.relocations + 1 :=
  claim_C6 s3c6 0 (by decide)

/-- C7: for every variant, an out-of-range read or write fails with
`indexOutOfRange` and leaves the state unchanged except for the one counter
increment the call still performs. -/
theorem claim_C7 :
    (∀ (s : StdVectorWrapper) (i : Nat), s.N ≤ i →
      StdVectorWrapper.read s i =
        ({ s with ctr := { s.ctr with reads := s.ctr.reads + 1 } },
         Except.error Err.indexOutOfRange)) ∧
    (∀ (s : StdVectorWrapper) (i : Nat) (v : Int), s.N ≤ i →
      StdVectorWrapper.write s i v =
        ({ s with ctr := { s.ctr with writes := s.ctr.writes + 1 } },
         Except.error Err.indexOutOfRange)) ∧
    (∀ (s : InPlaceArraySec3) (i : Nat), s.N ≤ i →
      InPlaceArraySec3.read s i =
        ({ s with ctr := { s.ctr with reads := s.ctr.reads + 1 } },
         Except.error Err.indexOutOfRange)) ∧
    (∀ (s : InPlaceArraySec3) (i : Nat) (v : Int), s.N ≤ i →
      InPlaceArraySec3.write s i v =
        ({ s with ctr := { s.ctr with writes := s.ctr.writes + 1 } },
         Except.error Err.indexOutOfRange)) ∧
    (∀ (s : InPlaceArraySec4) (i : Nat), s.N ≤ i →
      InPlaceArraySec4.read s i =
        ({ s with ctr := { s.ctr with reads := s.ctr.reads + 1 } },
         Except.error Err.indexOutOfRange)) ∧
    (∀ (s : InPlaceArraySec4) (i : Nat) (v : Int), s.N ≤ i →
      InPlaceArraySec4.write s i v =
        ({ s with ctr := { s.ctr with writes := s.ctr.writes + 1 } },
         Except.error Err.indexOutOfRange)) := by
  refine ⟨?_, ?_, ?_, ?_, ?_, ?_⟩
  · intro s i h
    simp only [StdVectorWrapper.read]
    rw [if_pos h]
  · intro s i v h
    simp only [StdVectorWrapper.write]
    rw [if_pos h]
  · intro s i h
    exact InPlaceArraySec3.read_err3 s i h
  · intro s i v h
    exact InPlaceArraySec3.write_err3 s i v h
  · intro s i h
    exact InPlaceArraySec4.read_err4 s i h
  · intro s i v h
    exact InPlaceArraySec4.write_err4 s i v h

/-- C8 (amended): the two in-place variants validate sizes — `N = 0` or a size
not divisible by the block size (2 for Section 3, 4 for Section 4) fails with
`invalidSize`, and a valid size yields zero-initialized storage with `b = 0` —
but `StdVectorWrapper`'s constructor performs no validation at all: every size,
including 0, is accepted. -/
theorem claim_C8 :
    (∀ n : Nat, (n = 0 ∨ ¬ n % 2 = 0) →
      InPlaceArraySec3.make n = Except.error Err.invalidSize) ∧
    (∀ n : Nat, ¬ n = 0 → n % 2 = 0 → ∃ s : InPlaceArraySec3,
      InPlaceArraySec3.make n = Except.ok s ∧ s.N = n ∧ s.b = 0 ∧ ∀ j, s.A j = 0) ∧
    (∀ n : Nat, (n = 0 ∨ ¬ n % 4 = 0) →
      InPlaceArraySec4.make n = Except.error Err.invalidSize) ∧
    (∀ n : Nat, ¬ n = 0 → n % 4 = 0 → ∃ s : InPlaceArraySec4,
      InPlaceArraySec4.make n = Except.ok s ∧ s.N = n ∧ s.b = 0 ∧ ∀ j, s.A j = 0) ∧
    (∀ n : Nat, ∃ s : StdVectorWrapper,
      StdVectorWrapper.make n = Except.ok s ∧ s.N = n ∧ ∀ j, s.data j = 0) := by
  refine ⟨?_, ?_, ?_, ?_, ?_⟩
  · intro n h
    simp only [InPlaceArraySec3.make]
    rcases h with h0 | h2
    · rw [if_pos h0]
    · by_cases h0 : n = 0
      · rw [if_pos h0]
      · rw [if_neg h0, if_pos h2]
  · intro n h0 h2
    refine ⟨{ N := n, vb := {}, N_blocks := n / 2, A := fun _ => 0, b := 0,
              initv := 0, ctr := {} }, ?_, rfl, rfl, fun j => rfl⟩
    simp only [InPlaceArraySec3.make]
    rw [if_neg h0, if_neg (fun hc => hc h2)]
  · intro n h
    simp only [InPlaceArraySec4.make]
    rcases h with h0 | h4
    · rw [if_pos h0]
    · by_cases h0 : n = 0
      · rw [if_pos h0]
      · rw [if_neg h0, if_pos h4]
  · intro n h0 h4
    refine ⟨{ N := n, vb := {}, N_blocks := n / 4, A := fun _ => 0, b := 0,
              initv := 0, flag := false, ctr := {} }, ?_, rfl, rfl, fun j => rfl⟩
    simp only [InPlaceArraySec4.make]
    rw [if_neg h0, if_neg (fun hc => hc h4)]
  · intro n
    exact ⟨{ N := n, data := fun _ => 0, ctr := {}, verifying := false,
             initv_shadow := 0, epoch := 0 }, rfl, rfl, fun j => rfl⟩

/-- C8 counterexample: `StdVectorWrapper`'s constructor accepts `N = 0` instead
of failing with `invalidSize`. -/
theorem claim_C8_counterexample :
    StdVectorWrapper.make 0 =
      Except.ok { N := 0, data := fun _ => 0, ctr := {}, verifying := false,
                  initv_shadow := 0, epoch := 0 } := rfl

/-- The shadow expected value after a run equals the fold of the mirrored
operations over the expected value at the start, as long as the verifier is
on, the epoch is a positive `uint32_t` value, and every stamp is at most the
epoch. -/
theorem runShadow_expected (ops : List ShOp) : ∀ vb : VerifiableBase,
    vb.verifying = true → 1 ≤ vb.shadow_epoch → vb.shadow_epoch < epochMod →
    (∀ j, vb.stamp j ≤ vb.shadow_epoch) → ∀ i : Nat,
    shadow_expected (runShadow vb ops) i =
      List.foldl (specStep i) (shadow_expected vb i) ops := by
  induction ops with
  | nil =>
      intro vb hv h1 h2 hst i
      rfl
  | cons op rest ih =>
      intro vb hv h1 h2 hst i
      cases op with
      | init v =>
          show shadow_expected (runShadow (shadow_on_init vb v) rest) i =
            List.foldl (specStep i) v rest
          by_cases hwrap : (vb.shadow_epoch + 1) % epochMod = 0
          · have hvb2 : shadow_on_init vb v =
                { vb with shadow_initv := v, stamp := fun _ => 0,
                          shadow_epoch := 1 } := by
              simp only [shadow_on_init]
              rw [hv, if_neg (by simp), hwrap, if_pos rfl]
            rw [hvb2,
                ih { vb with shadow_initv := v, stamp := fun _ => 0, shadow_epoch := 1 } hv
                  (Nat.le_refl 1) (by show (1 : Nat) < epochMod; decide)
                  (fun j => Nat.zero_le 1) i]
            rfl
          · have hme : epochMod = 4294967296 := rfl
            have he1 : vb.shadow_epoch + 1 < epochMod := by
              by_contra hge
              have he2 : vb.shadow_epoch + 1 = epochMod := by omega
              rw [he2] at hwrap
              exact hwrap (Nat.mod_self _)
            have hee : (vb.shadow_epoch + 1) % epochMod = vb.shadow_epoch + 1 :=
              Nat.mod_eq_of_lt he1
            have hvb2 : shadow_on_init vb v =
                { vb with shadow_initv := v,
                          shadow_epoch := (vb.shadow_epoch + 1) % epochMod } := by
              simp only [shadow_on_init]
              rw [hv, if_neg (by simp), if_neg hwrap]
            have hacc : shadow_expected
                { vb with shadow_initv := v,
                          shadow_epoch := (vb.shadow_epoch + 1) % epochMod } i = v := by
              show (if vb.stamp i = (vb.shadow_epoch + 1) % epochMod
                    then vb.shadow i else v) = v
              rw [if_neg (by have h5 := hst i; rw [hee]; omega)]
            rw [hvb2,
                ih { vb with shadow_initv := v, shadow_epoch := (vb.shadow_epoch + 1) % epochMod } hv
                  (by show 1 ≤ (vb.shadow_epoch + 1) % epochMod; rw [hee]; omega)
                  (by show (vb.shadow_epoch + 1) % epochMod < epochMod
                      rw [hee]
                      omega)
                  (fun j => by
                    show vb.stamp j ≤ (vb.shadow_epoch + 1) % epochMod
                    have h5 := hst j
                    rw [hee]
                    omega) i, hacc]
      | write jw w =>
          show shadow_expected (runShadow (shadow_on_write vb jw w) rest) i =
            List.foldl (specStep i) (if jw = i then w else shadow_expected vb i) rest
          have hvb2 : shadow_on_write vb jw w =
              { vb with shadow := upd vb.shadow jw w,
                        stamp := updN vb.stamp jw vb.shadow_epoch } := by
            simp only [shadow_on_write]
            rw [hv, if_neg (by simp)]
          have hacc : shadow_expected
              { vb with shadow := upd vb.shadow jw w,
                        stamp := updN vb.stamp jw vb.shadow_epoch } i =
              (if jw = i then w else shadow_expected vb i) := by
            show (if updN vb.stamp jw vb.shadow_epoch i = vb.shadow_epoch
                  then upd vb.shadow jw w i else vb.shadow_initv) = _
            by_cases hji : i = jw
            · have h7 : updN vb.stamp jw vb.shadow_epoch i = vb.shadow_epoch := by
                unfold updN
                rw [if_pos hji]
              have h8 : upd vb.shadow jw w i = w := by
                unfold upd
                rw [if_pos hji]
              rw [h7, if_pos rfl, h8, if_pos hji.symm]
            · have h7 : updN vb.stamp jw vb.shadow_epoch i = vb.stamp i := by
                unfold updN
                rw [if_neg hji]
              have h8 : upd vb.shadow jw w i = vb.shadow i := by
                unfold upd
                rw [if_neg hji]
              rw [h7, h8, if_neg (show ¬ jw = i from fun hc => hji hc.symm)]
              rfl
          have hstamp : ∀ j, updN vb.stamp jw vb.shadow_epoch j ≤ vb.shadow_epoch := by
            intro j
            unfold updN
            split
            · exact Nat.le_refl _
            · exact hst j
          rw [hvb2,
              ih { vb with shadow := upd vb.shadow jw w, stamp := updN vb.stamp jw vb.shadow_epoch } hv
                h1 h2 hstamp i, hacc]

/-- C9: after `enable_verification` and any sequence of mirrored init/write
operations, the expected value the checker computes for index `i` equals the
reference semantics `specExpected`: the last value written to `i` since the
most recent init, else the most recent init value, else 0 — including across
the `uint32_t` epoch wraparound, where the stamp table is cleared and the
epoch restarts at 1. -/
theorem claim_C9 (ops : List ShOp) (vb0 : VerifiableBase) (i : Nat) :
    shadow_expected (runShadow (enable_verification vb0) ops) i =
      specExpected ops i := by
  rw [runShadow_expected ops (enable_verification vb0) rfl (Nat.le_refl 1)
      (by show (1 : Nat) < epochMod; decide) (fun j => Nat.zero_le 1) i]
  rfl

/-- C10 (amended): `InPlaceArraySec3.init` writes no cell of `A` and otherwise
only sets `initv`, resets `b` to 0, bumps the `inits` counter, and applies
`shadow_on_init` to the verifier state — which, when verification is on and
the `uint32_t` epoch wraps, also clears the whole stamp table (not only the
shadow scalars, as the claim put it). -/
theorem claim_C10 (s : InPlaceArraySec3) (v : Int) :
    (∀ j, (InPlaceArraySec3.init s v).A j = s.A j) ∧
    (InPlaceArraySec3.init s v).N = s.N ∧
    (InPlaceArraySec3.init s v).initv = v ∧
    (InPlaceArraySec3.init s v).b = 0 ∧
    (InPlaceArraySec3.init s v).ctr = { s.ctr with inits := s.ctr.inits + 1 } ∧
    (InPlaceArraySec3.init s v).vb = shadow_on_init s.vb v ∧
    (s.vb.verifying = true → (s.vb.shadow_epoch + 1) % epochMod = 0 →
      (InPlaceArraySec3.init s v).vb.stamp = fun _ => 0) := by
  refine ⟨fun j => rfl, rfl, rfl, rfl, rfl, rfl, ?_⟩
  intro hv he
  show (shadow_on_init s.vb v).stamp = fun _ => 0
  simp only [shadow_on_init]
  rw [hv, if_neg (by simp), he, if_pos rfl]

/-- C10 counterexample: on the state `sC10`, whose shadow epoch is one step
from the `uint32_t` wraparound and whose stamp table is not all zero,
`init` changes the stamp table — a change beyond the fields the claim lists. -/
theorem claim_C10_counterexample :
    ¬ (InPlaceArraySec3.init sC10 1).vb.stamp 0 = sC10.vb.stamp 0 := by decide

end InPlaceBench
